import Mathlib

/-!
# ProTBB ch01: raster image, bitmap encoding and per-pixel transforms

A shallow embedding of `src/ch01/src/image.h`, `src/ch01/src/image.cpp` and
`src/ch01/src/main.cpp`.

Modelling conventions.

* `int` values are `Int`; unsigned fields are `Nat`.  Where the source narrows a
  value to a 32-bit field the model reduces it explicitly (`toInt32`, `toUInt32`).
* A `double` is modelled by the exact rational it denotes (every finite double is a
  rational); the rounding of `+`, `*` and `/` is not modelled.  `std::pow` and
  `exp(-sqrt(.))` are parameters of the definitions that call them.
* A member that has not been written yet is `none`; reading it is undefined.
* A function whose C++ behaviour is undefined on some input (signed overflow, a read
  of an indeterminate member, an access outside a vector or outside the pixel array)
  returns `none` there.
* `Pixel*` values are offsets (element indices) into the pixel array they point into.
* Bytes are `Nat` below 256; multi-byte fields are laid out little-endian, as on the
  x86 hosts the project targets, and the output stream performs no newline
  translation.
-/

namespace intel

/-! ## Constants -/

/-- The constant `IMAGE_WIDTH` of `image.h`. -/
def IMAGE_WIDTH : Int := 800

/-- The constant `IMAGE_HEIGHT` of `image.h`. -/
def IMAGE_HEIGHT : Int := 800

/-- The constant `MAX_BGR_VALUE` of `image.h`. -/
def MAX_BGR_VALUE : Int := 255

/-- The largest value of a 32-bit `int`. -/
def INT_MAX : Int := 2147483647

/-! ## Machine conversions -/

/-- Conversion of an integer to a 32-bit `int`: reduction modulo `2^32` into
`[-2^31, 2^31)`. -/
def toInt32 (v : Int) : Int :=
  (v + 2147483648) % 4294967296 - 2147483648

/-- Conversion of an integer to `std::uint32_t`: reduction modulo `2^32`. -/
def toUInt32 (v : Int) : Nat :=
  (v % 4294967296).toNat

/-- Conversion of an integer to `std::uint16_t`: reduction modulo `2^16`. -/
def toUInt16 (v : Int) : Nat :=
  (v % 65536).toNat

/-- Truncation of a `double` toward zero, the integral value a floating-to-integer
conversion starts from. -/
def truncToInt (v : ℚ) : Int :=
  v.num.tdiv v.den

/-- Conversion of a `double` to `std::uint8_t` (`static_cast<uint8_t>(val)`, or the
implicit conversion at a `Pixel(b, g, r)` call): the value is truncated toward zero.
For a truncated value outside `[0, 255]` the C++ result is undefined; the model keeps
the low eight bits there, as the compilers in use do. -/
def toUInt8 (v : ℚ) : Nat :=
  (truncToInt v % 256).toNat

/-! ## Pixels -/

/-- The struct `Image::Pixel`: the array `bgra[4]`, one field per channel. -/
structure Pixel where
  b : Nat
  g : Nat
  r : Nat
  a : Nat
  deriving DecidableEq, Repr

/-- A value-initialised pixel, as `std::vector::resize` creates them: all channels 0. -/
def Pixel.zero : Pixel := ⟨0, 0, 0, 0⟩

/-- The constructor `Pixel(uint8_t b, uint8_t g, uint8_t r)`; the arguments are
reduced to 8 bits by their parameter type. -/
def Pixel.mk3 (b g r : Nat) : Pixel :=
  ⟨b % 256, g % 256, r % 256, 0⟩

/-- The channel `bgra[k]`. -/
def Pixel.bgra (p : Pixel) (k : Nat) : Nat :=
  match k with
  | 0 => p.b
  | 1 => p.g
  | 2 => p.r
  | _ => p.a

/-- The four bytes of a pixel in memory order. -/
def Pixel.bytes (p : Pixel) : List Nat :=
  [p.b, p.g, p.r, p.a]

/-! ## Bitmap headers -/

/-- The struct `BITMAPFILEHEADER` of `image.h`, with its extra leading field
`sizeRest`. -/
structure BITMAPFILEHEADER where
  sizeRest : Nat
  type : Nat
  size : Nat
  reserved : Nat
  offBits : Nat
  deriving DecidableEq, Repr

/-- The struct `BITMAPINFOHEADER` of `image.h`. -/
structure BITMAPINFOHEADER where
  size : Nat
  width : Int
  height : Int
  planes : Nat
  bitCount : Nat
  compression : Nat
  sizeImage : Nat
  xPelsPerMeter : Int
  yPelsPerMeter : Int
  clrUsed : Nat
  clrImportant : Nat
  deriving DecidableEq, Repr

/-- The value of `sizeof(file)`: two 16-bit fields and three 32-bit fields
(`sizeRest`, `type`, `size`, `reserved`, `offBits`), 2 + 2 + 4 + 4 + 4 bytes with no
padding between them. -/
def sizeofFile : Nat := 16

/-- The value of `sizeof(info)`: nine 32-bit fields and two 16-bit fields. -/
def sizeofInfo : Nat := 40

/-- The value of `sizeof(myData[0])`: four `uint8_t` channels. -/
def sizeofPixel : Nat := 4

/-! ## Images -/

/-- The class `Image`.  `myWidth`, `myHeight`, `file` and `info` are written only by
a successful `reset`; until then they are indeterminate (`none`).  `myRows` holds the
row pointers as offsets into `myData`. -/
structure Image where
  myName : String
  myWidth : Option Int
  myHeight : Option Int
  magn : Option ℚ
  myData : List Pixel
  myRows : List Nat
  file : Option BITMAPFILEHEADER
  info : Option BITMAPINFOHEADER
  deriving DecidableEq

/-- The effect of `std::vector<Pixel>::resize(n)`: the first `n` elements are kept and
value-initialised pixels are appended up to length `n`. -/
def resizeData (l : List Pixel) (n : Nat) : List Pixel :=
  l.take n ++ List.replicate (n - l.length) Pixel.zero

/-- The row index after `myRows.resize(myHeight)` and the loop
`myRows[i] = &myData[0] + (i * myWidth)` over all `i < myRows.size()`. -/
def resetRows (w h : Int) : List Nat :=
  (List.range h.toNat).map (fun (i : Nat) => (Int.ofNat i * w).toNat)

/-- The local `myPadSize` of `Image::reset`:
`(4 - (w * sizeof(myData[0])) % 4) % 4`. -/
def resetPadSize (w : Int) : Int :=
  (4 - (w.toNat * sizeofPixel) % 4) % 4

/-- The local `int sizeData` of `Image::reset`:
`w * h * sizeof(myData[0]) + h * myPadSize`, narrowed to `int`. -/
def resetSizeData (w h : Int) : Int :=
  toInt32 (w * h * sizeofPixel + h * resetPadSize w)

/-- The local `int sizeAll` of `Image::reset`:
`sizeData + sizeof(file) + sizeof(info)`, narrowed to `int`. -/
def resetSizeAll (w h : Int) : Int :=
  toInt32 (resetSizeData w h + sizeofFile + sizeofInfo)

/-- The file header `Image::reset` writes. -/
def resetFile (w h : Int) : BITMAPFILEHEADER :=
  { sizeRest := 14
    type := 0x4d42
    size := toUInt32 (resetSizeAll w h)
    reserved := 0
    offBits := 54 }

/-- The info header `Image::reset` writes. -/
def resetInfo (w h : Int) : BITMAPINFOHEADER :=
  { size := 40
    width := w
    height := h
    planes := 1
    bitCount := 32
    compression := 0
    sizeImage := toUInt32 (resetSizeData w h)
    xPelsPerMeter := 0
    yPelsPerMeter := 0
    clrUsed := 0
    clrImportant := 0 }

/-- The method `Image::reset(int w, int h)`.  The product `myWidth * myHeight` is an
`int`; its overflow is undefined. -/
def Image.reset (img : Image) (w h : Int) : Option Image :=
  if w ≤ 0 ∨ h ≤ 0 then
    some img
  else if INT_MAX < w * h then
    none
  else
    some
      { img with
        myWidth := some w
        myHeight := some h
        myData := resizeData img.myData (w * h).toNat
        myRows := resetRows w h
        file := some (resetFile w h)
        info := some (resetInfo w h) }

/-- The object before the constructor body runs: the name is set, the vectors are
empty and the scalar members are indeterminate. -/
def Image.uninit (n : String) : Image :=
  { myName := n, myWidth := none, myHeight := none, magn := none,
    myData := [], myRows := [], file := none, info := none }

/-- The constructor `Image(const std::string& n, int w, int h)`: `reset(w, h)`, then
`magn = 0`. -/
def Image.new (n : String) (w h : Int) : Option Image :=
  ((Image.uninit n).reset w h).map (fun img => { img with magn := some 0 })

/-- The accessor `Image::name()`. -/
def Image.name (img : Image) : String := img.myName

/-- The accessor `Image::width()`; undefined while `myWidth` is indeterminate. -/
def Image.width (img : Image) : Option Int := img.myWidth

/-- The accessor `Image::height()`; undefined while `myHeight` is indeterminate. -/
def Image.height (img : Image) : Option Int := img.myHeight

/-- The method `Image::setMagn`. -/
def Image.setMagn (img : Image) (m : ℚ) : Image := { img with magn := some m }

/-- The accessor `Image::getMagn()`. -/
def Image.getMagn (img : Image) : Option ℚ := img.magn

/-- The accessor `Image::rows()`. -/
def Image.rows (img : Image) : List Nat := img.myRows

/-- The method `Image::fill(uint8_t r, uint8_t g, uint8_t b, int x, int y)`.  The
call `fill(r, g, b)` is `fill(r, g, b, -1, -1)`.  The single-pixel branch indexes
`myData[myWidth * x + y]`. -/
def Image.fill (img : Image) (r g b : Nat) (x y : Int) : Option Image :=
  if img.myData.isEmpty then
    some img
  else if x < 0 ∧ y < 0 then
    some { img with myData := img.myData.map (fun _ => Pixel.mk3 b g r) }
  else
    match img.myWidth with
    | none => none
    | some w =>
      let idx : Int := w * x + y
      if idx < 0 ∨ INT_MAX < idx ∨ (img.myData.length : Int) ≤ idx then
        none
      else
        match img.myData[idx.toNat]? with
        | none => none
        | some p =>
          some { img with
                 myData := img.myData.set idx.toNat
                   { p with a := 0, r := r % 256, g := g % 256, b := b % 256 } }

/-- The body of the lambda in `Image::fill(Fractal*)` for the element with index `i`:
`x = i / w`, `y = i % w`, the kernel value capped at 255 and converted to
`uint8_t`. -/
def fillPixel (frac : Int → Int → ℚ) (w : Int) (i : Nat) : Pixel :=
  let x : Int := Int.tdiv i w
  let y : Int := Int.tmod i w
  let val : ℚ := frac x y
  let val : ℚ := if val > 255 then 255 else val
  let uval : Nat := toUInt8 val
  Pixel.mk3 uval uval uval

/-- The method `Image::fill(Fractal* frac)`; `frac x y` stands for
`frac->calcOnePixel(x, y)`.  An empty image is first `reset(myWidth, myHeight)`,
which reads both members. -/
def Image.fillFractal (img : Image) (frac : Int → Int → ℚ) : Option Image :=
  let prepared : Option Image :=
    if img.myData.isEmpty then
      match img.myWidth, img.myHeight with
      | some w, some h => img.reset w h
      | _, _ => none
    else
      some img
  match prepared with
  | none => none
  | some img1 =>
    match img1.myWidth with
    | none => none
    | some w =>
      if w = 0 ∧ ¬ img1.myData.isEmpty then
        none
      else
        some { img1 with myData := img1.myData.mapIdx (fun i _ => fillPixel frac w i) }

/-! ## The fractal kernel -/

/-- The class `Fractal`: the size pair `mySize` and the magnification `myMagn`. -/
structure Fractal where
  mySize : Int × Int
  myMagn : ℚ

/-- The member `Fractal::cx`, -0.7436. -/
def Fractal.cx : ℚ := mkRat (-7436) 10000

/-- The member `Fractal::cy`, 0.1319. -/
def Fractal.cy : ℚ := mkRat 1319 10000

/-- The member `Fractal::maxIter`. -/
def Fractal.maxIter : Nat := 1000

/-- The loop of `Fractal::calcOnePixel` with `n` iterations of the cap left:
the loop runs while `x * x + y * y <= 4` and `iter < maxIter`.  `e t` stands for
`exp(-sqrt(t))`. -/
def Fractal.calcLoop (e : ℚ → ℚ) (fx0 fy0 : ℚ) : Nat → ℚ → ℚ → ℚ → ℚ
  | 0, _, _, res => res
  | n + 1, x, y, res =>
    if x * x + y * y ≤ 4 then
      let val : ℚ := x * x - y * y + fx0
      let y1 : ℚ := 2 * x * y + fy0
      let x1 : ℚ := val
      Fractal.calcLoop e fx0 fy0 n x1 y1 (res + e (x1 * x1 + y1 * y1))
    else
      res

/-- The method `Fractal::calcOnePixel(int x0, int y0)`; `e t` stands for
`exp(-sqrt(t))`.  The division is the rational one, so the model follows the source
for `myMagn` other than 0. -/
def Fractal.calcOnePixel (e : ℚ → ℚ) (fr : Fractal) (x0 y0 : Int) : ℚ :=
  let fx0 : ℚ := (x0 : ℚ) - (fr.mySize.1 : ℚ) / 2
  let fy0 : ℚ := (y0 : ℚ) - (fr.mySize.2 : ℚ) / 2
  let fx0 : ℚ := fx0 / fr.myMagn + Fractal.cx
  let fy0 : ℚ := fy0 / fr.myMagn + Fractal.cy
  Fractal.calcLoop e fx0 fy0 Fractal.maxIter 0 0 0

/-- The function `makeFractalImage(double magn)` of `image.cpp`.  The conversion
`(int)magn` is undefined outside the range of `int`. -/
def makeFractalImage (e : ℚ → ℚ) (magn : ℚ) : Option Image :=
  let m : Int := truncToInt magn
  if m < -2147483648 ∨ INT_MAX < m then
    none
  else
    let name : String := "fractal_" ++ toString m
    match Image.new name IMAGE_WIDTH IMAGE_HEIGHT with
    | none => none
    | some image =>
      match image.width, image.height with
      | some w, some h => image.fillFractal (Fractal.calcOnePixel e ⟨(w, h), magn⟩)
      | _, _ => none

/-! ## Bitmap output -/

/-- The two bytes of a 16-bit field in memory order. -/
def le16 (n : Nat) : List Nat :=
  [n % 256, n / 256 % 256]

/-- The four bytes of a 32-bit field in memory order. -/
def le32 (n : Nat) : List Nat :=
  [n % 256, n / 256 % 256, n / 65536 % 256, n / 16777216 % 256]

/-- The 14 bytes of the file header that follow `sizeRest`, starting at `file.type`. -/
def BITMAPFILEHEADER.bytes (f : BITMAPFILEHEADER) : List Nat :=
  le16 f.type ++ le32 f.size ++ le32 f.reserved ++ le32 f.offBits

/-- The 40 bytes of the info header. -/
def BITMAPINFOHEADER.bytes (i : BITMAPINFOHEADER) : List Nat :=
  le32 i.size ++ le32 (toUInt32 i.width) ++ le32 (toUInt32 i.height) ++
  le16 i.planes ++ le16 i.bitCount ++ le32 i.compression ++ le32 i.sizeImage ++
  le32 (toUInt32 i.xPelsPerMeter) ++ le32 (toUInt32 i.yPelsPerMeter) ++
  le32 i.clrUsed ++ le32 i.clrImportant

/-- The bytes of the pixel array, `myData.size() * sizeof(myData[0])` of them. -/
def pixelBytes (d : List Pixel) : List Nat :=
  d.flatMap Pixel.bytes

/-- The bytes `Image::write` sends to the stream, in order: `file.sizeRest` bytes from
`&file.type`, `info.size` bytes from `&info`, then the pixel array.  `none` when the
image is empty: the method returns before a stream is opened.  Reading a header that
was never written, or past the end of a header, is undefined. -/
def Image.writeBytes (img : Image) : Option (Option (List Nat)) :=
  if img.myData.isEmpty then
    some none
  else
    match img.file, img.info with
    | some f, some i =>
      if 14 < f.sizeRest ∨ 40 < i.size then
        none
      else
        some (some (f.bytes.take f.sizeRest ++ i.bytes.take i.size ++ pixelBytes img.myData))
    | _, _ => none

/-- A file system: the content of each path that has been written. -/
abbrev Files := String → Option (List Nat)

/-- The method `Image::write(const char* fname)` as a file-system update: the stream
opened on `fname` receives the bytes of `writeBytes`; an empty image leaves the file
system as it is.  The stream is assumed to open. -/
def Image.write (img : Image) (fname : String) (fs : Files) : Option Files :=
  match img.writeBytes with
  | none => none
  | some none => some fs
  | some (some bytes) => some (fun p => if p = fname then some bytes else fs p)

/-- The function `writeImage` of `main.cpp`. -/
def writeImage (img : Image) (fs : Files) : Option Files :=
  img.write ("output/" ++ img.name ++ ".bmp") fs

/-! ## Per-pixel transforms -/

/-- A counted loop `for (int k = start; k < start + count; ++k)` whose body may be
undefined: `forLoop body start count s` runs `body start`, `body (start + 1)`, ... on
the state in turn. -/
def forLoop {σ : Type} (body : Nat → σ → Option σ) : Nat → Nat → σ → Option σ
  | _, 0, s => some s
  | k, n + 1, s => (body k s).bind (forLoop body (k + 1) n)

/-- One iteration of the inner loop of a transform:
`const Pixel& pixel = in_rows[i][j]; ...; out_rows[i][j] = f(pixel)`.  `inData` is the
pixel array of the input, `out` the pixel array of the output. -/
def transformStep (f : Pixel → Pixel) (inData : List Pixel) (in_rows out_rows : List Nat)
    (i j : Nat) (out : List Pixel) : Option (List Pixel) :=
  match in_rows[i]?, out_rows[i]? with
  | some ri, some ro =>
    match inData[ri + j]? with
    | none => none
    | some pixel =>
      if ro + j < out.length then some (out.set (ro + j) (f pixel)) else none
  | _, _ => none

/-- The part the six transforms of `main.cpp` share after the output image has been
created: the copies `in_rows`, `out_rows`, `height = in_rows.size()`,
`width = in_rows[1] - in_rows[0]`, and the loops over `i < height` and `j < width`.
The iterations of `tbb::parallel_for` and of `std::transform` are taken in index
order. -/
def transformRows (f : Pixel → Pixel) (image output : Image) : Option Image :=
  let in_rows : List Nat := image.rows
  let out_rows : List Nat := output.rows
  let height : Int := in_rows.length
  match (in_rows[1]? : Option Nat), (in_rows[0]? : Option Nat) with
  | some r1, some r0 =>
    let width : Int := (r1 : Int) - (r0 : Int)
    match forLoop (fun i out =>
        forLoop (fun j out1 => transformStep f image.myData in_rows out_rows i j out1)
          0 width.toNat out) 0 height.toNat output.myData with
    | none => none
    | some d => some { output with myData := d }
  | _, _ => none

/-- The pixel computation of `applyGamma`, `applyGammaP` and `applyGammaS`:
`v = 0.3 * bgra[2] + 0.59 * bgra[1] + 0.11 * bgra[0]`, `res = std::pow(v, gamma)`
capped at `MAX_BGR_VALUE`, and `Pixel(res, res, res)`.  `pw` stands for `std::pow`. -/
def gammaPixel (pw : ℚ → ℚ → ℚ) (gamma : ℚ) (pixel : Pixel) : Pixel :=
  let v : ℚ := mkRat 3 10 * (pixel.bgra 2 : ℚ) + mkRat 59 100 * (pixel.bgra 1 : ℚ)
    + mkRat 11 100 * (pixel.bgra 0 : ℚ)
  let res : ℚ := pw v gamma
  let res : ℚ := if res > (MAX_BGR_VALUE : ℚ) then (MAX_BGR_VALUE : ℚ) else res
  Pixel.mk3 (toUInt8 res) (toUInt8 res) (toUInt8 res)

/-- The array `std::array<double, 3>` of tint fractions. -/
structure Tints where
  t0 : ℚ
  t1 : ℚ
  t2 : ℚ

/-- One channel of the tint computation:
`d = (double)c + (MAX_BGR_VALUE - c) * t`, then
`static_cast<uint8_t>((d > MAX_BGR_VALUE) ? MAX_BGR_VALUE : d)`. -/
def tintChannel (c : Nat) (t : ℚ) : Nat :=
  let d : ℚ := (c : ℚ) + ((MAX_BGR_VALUE - (c : Int) : Int) : ℚ) * t
  toUInt8 (if d > (MAX_BGR_VALUE : ℚ) then (MAX_BGR_VALUE : ℚ) else d)

/-- The pixel computation of `applyTint`, `applyTintP` and `applyTintS`. -/
def tintPixel (tints : Tints) (pixel : Pixel) : Pixel :=
  let b : Nat := tintChannel (pixel.bgra 0) tints.t0
  let g : Nat := tintChannel (pixel.bgra 1) tints.t1
  let r : Nat := tintChannel (pixel.bgra 2) tints.t2
  Pixel.mk3 b g r

/-- The function `applyGamma` of `main.cpp`. -/
def applyGamma (pw : ℚ → ℚ → ℚ) (image : Image) (gamma : ℚ) : Option Image :=
  match Image.new (image.name ++ "_gamma") IMAGE_WIDTH IMAGE_HEIGHT with
  | none => none
  | some output => transformRows (gammaPixel pw gamma) image output

/-- The function `applyGammaP` of `main.cpp` (rows under `tbb::parallel_for`). -/
def applyGammaP (pw : ℚ → ℚ → ℚ) (image : Image) (gamma : ℚ) : Option Image :=
  match Image.new (image.name ++ "_gamma") IMAGE_WIDTH IMAGE_HEIGHT with
  | none => none
  | some output => transformRows (gammaPixel pw gamma) image output

/-- The function `applyGammaS` of `main.cpp` (rows under `tbb::parallel_for`, each
row by `std::transform`). -/
def applyGammaS (pw : ℚ → ℚ → ℚ) (image : Image) (gamma : ℚ) : Option Image :=
  match Image.new (image.name ++ "_gamma") IMAGE_WIDTH IMAGE_HEIGHT with
  | none => none
  | some output => transformRows (gammaPixel pw gamma) image output

/-- The function `applyTint` of `main.cpp`. -/
def applyTint (image : Image) (tints : Tints) : Option Image :=
  match Image.new (image.name ++ "_tinted") IMAGE_WIDTH IMAGE_HEIGHT with
  | none => none
  | some output => transformRows (tintPixel tints) image output

/-- The function `applyTintP` of `main.cpp` (rows under `tbb::parallel_for`). -/
def applyTintP (image : Image) (tints : Tints) : Option Image :=
  match Image.new (image.name ++ "_tinted") IMAGE_WIDTH IMAGE_HEIGHT with
  | none => none
  | some output => transformRows (tintPixel tints) image output

/-- The function `applyTintS` of `main.cpp`. -/
def applyTintS (image : Image) (tints : Tints) : Option Image :=
  match Image.new (image.name ++ "_tinted") IMAGE_WIDTH IMAGE_HEIGHT with
  | none => none
  | some output => transformRows (tintPixel tints) image output

/-! ## Pipelines -/

/-- The gamma exponent 1.4 both pipelines pass. -/
def pipelineGamma : ℚ := mkRat 14 10

/-- The array `tint_array = { 0.75, 0, 0 }` of both pipelines. -/
def tint_array : Tints := ⟨mkRat 3 4, 0, 0⟩

/-- The function `processSerial` of `main.cpp`: for each image in turn `applyGamma`,
`applyTint`, `writeImage`. -/
def processSerial (pw : ℚ → ℚ → ℚ) : List Image → Files → Option Files
  | [], fs => some fs
  | img :: rest, fs =>
    match applyGamma pw img pipelineGamma with
    | none => none
    | some img1 =>
      match applyTint img1 tint_array with
      | none => none
      | some img2 =>
        match writeImage img2 fs with
        | none => none
        | some fs1 => processSerial pw rest fs1

/-- The loop of `runSerial` that fills `image_vector`: one
`image_vector.push_back(makeFractalImage(i))` per scale factor `i`, an `int`. -/
def makeImageVector (e : ℚ → ℚ) : List Int → Option (List Image)
  | [] => some []
  | i :: rest =>
    match makeFractalImage e (i : ℚ) with
    | none => none
    | some img =>
      match makeImageVector e rest with
      | none => none
      | some v => some (img :: v)

/-- The sequential strategy of `runSerial` on a list of scale factors: the image vector
is built, then `processSerial` runs on it. -/
def runSerial (e : ℚ → ℚ) (pw : ℚ → ℚ → ℚ) (factors : List Int) (fs : Files) :
    Option Files :=
  match makeImageVector e factors with
  | none => none
  | some image_vector => processSerial pw image_vector fs

/-- The body of the source node `src` of `processFlowGraph` for the magnitude it
takes from `magnitudes`. -/
def flowSource (magn : Int) : Option Image :=
  let name : String := "fractal_" ++ toString magn
  match Image.new name IMAGE_WIDTH IMAGE_HEIGHT with
  | none => none
  | some out => some (out.setMagn (magn : ℚ))

/-- The body of the node `fractal` of `processFlowGraph`. -/
def flowFractal (e : ℚ → ℚ) (img : Image) : Option Image :=
  match img.getMagn, img.width, img.height with
  | some magn, some w, some h => img.fillFractal (Fractal.calcOnePixel e ⟨(w, h), magn⟩)
  | _, _, _ => none

/-- The body of the node `gamma` of `processFlowGraph`. -/
def flowGamma (pw : ℚ → ℚ → ℚ) (img : Image) : Option Image :=
  applyGammaP pw img pipelineGamma

/-- The body of the node `tint` of `processFlowGraph`. -/
def flowTint (img : Image) : Option Image :=
  applyTintP img tint_array

/-- The message one magnitude gives rise to, along the edges
`src -> fractal -> gamma -> tint`. -/
def flowMessage (e : ℚ → ℚ) (pw : ℚ → ℚ → ℚ) (magn : Int) : Option Image :=
  (((flowSource magn).bind (flowFractal e)).bind (flowGamma pw)).bind flowTint

/-- The node `write` of `processFlowGraph` on the messages in the order they reach
it. -/
def flowWrites : List (Option Image) → Files → Option Files
  | [], fs => some fs
  | none :: _, _ => none
  | some img :: rest, fs =>
    match writeImage img fs with
    | none => none
    | some fs1 => flowWrites rest fs1

/-- One run of `processFlowGraph(magnitudes)`.  The nodes have unlimited concurrency,
so the messages may reach the node `write` in any order: a run is determined by
`order`, the magnitudes in the order in which their messages are written. -/
def processFlowGraphRun (e : ℚ → ℚ) (pw : ℚ → ℚ → ℚ) (order : List Int) (fs : Files) :
    Option Files :=
  flowWrites (order.map (flowMessage e pw)) fs

/-- The runs of `processFlowGraph(magnitudes)`: `result` is what some order of
completion of the messages of `magnitudes` leaves. -/
def processFlowGraph (e : ℚ → ℚ) (pw : ℚ → ℚ → ℚ) (magnitudes : List Int) (fs : Files)
    (result : Option Files) : Prop :=
  ∃ order : List Int, order.Perm magnitudes ∧ result = processFlowGraphRun e pw order fs

/-! ## Saturation -/

/-- The saturating conversion the clamp property names: a value above 255 becomes
exactly 255, any other value its truncation to an integer. -/
def saturated (v : ℚ) : Nat :=
  if 255 < v then 255 else ⌊v⌋.toNat

/-- The luminance `0.3 * bgra[2] + 0.59 * bgra[1] + 0.11 * bgra[0]` of a pixel. -/
def luminance (pixel : Pixel) : ℚ :=
  mkRat 3 10 * (pixel.r : ℚ) + mkRat 59 100 * (pixel.g : ℚ) + mkRat 11 100 * (pixel.b : ℚ)

/-- The blend `c + (255 - c) * t` of a channel toward white. -/
def blend (c : Nat) (t : ℚ) : ℚ :=
  (c : ℚ) + (255 - (c : ℚ)) * t

/-! ## Allocated buffers -/

/-- The state of an allocated `W x H` buffer: the members a successful
`reset(W, H)` leaves, whatever the name, the scale tag and the pixel values. -/
def Image.Allocated (img : Image) (W H : Int) : Prop :=
  0 < W ∧ 0 < H ∧ W * H ≤ INT_MAX ∧
  img.myWidth = some W ∧ img.myHeight = some H ∧
  (img.myData.length : Int) = W * H ∧
  img.myRows = resetRows W H ∧
  img.file = some (resetFile W H) ∧ img.info = some (resetInfo W H)

instance (img : Image) (W H : Int) : Decidable (img.Allocated W H) := by
  unfold Image.Allocated
  infer_instance

/-- A 2 x 2 buffer with four distinct pixels, used to instantiate the theorems. -/
def sampleImage : Image :=
  { myName := "sample"
    myWidth := some 2
    myHeight := some 2
    magn := some 0
    myData := [⟨1, 2, 3, 0⟩, ⟨4, 5, 6, 0⟩, ⟨7, 8, 9, 0⟩, ⟨10, 11, 12, 0⟩]
    myRows := [0, 2]
    file := some (resetFile 2 2)
    info := some (resetInfo 2 2) }

/-- A kernel used to instantiate the theorems: `evaluate(x, y) = 100 * x`. -/
def sampleKernel : Int → Int → ℚ :=
  fun x _ => ((100 * x : Int) : ℚ)

/-- A stand-in for `exp(-sqrt(.))` used to instantiate the theorems: `1 / (1 + t)`. -/
def sampleExp : ℚ → ℚ :=
  fun t => 1 / (1 + t)

/-- A stand-in for `std::pow` used to instantiate the theorems: `v + 200`. -/
def samplePow : ℚ → ℚ → ℚ :=
  fun v _ => v + 200

/-! ## The kernel with its divisions checked -/

/-- A `double` division whose divisor may be zero.  Division by zero is undefined in
C++; under IEEE 754 it gives an infinity or NaN, neither of which is a rational. -/
def Fractal.fdiv (a b : ℚ) : Option ℚ :=
  if b = 0 then none else some (a / b)

/-- The method `Fractal::calcOnePixel(int x0, int y0)` with the divisions
`fx0 / myMagn` and `fy0 / myMagn` checked; `e t` stands for `exp(-sqrt(t))`.  The call
has a value in the model exactly when `myMagn` is not 0, and the value is then that
of `Fractal.calcOnePixel`. -/
def Fractal.calcOnePixelChecked (e : ℚ → ℚ) (fr : Fractal) (x0 y0 : Int) : Option ℚ :=
  let fx0 : ℚ := (x0 : ℚ) - (fr.mySize.1 : ℚ) / 2
  let fy0 : ℚ := (y0 : ℚ) - (fr.mySize.2 : ℚ) / 2
  match Fractal.fdiv fx0 fr.myMagn, Fractal.fdiv fy0 fr.myMagn with
  | some qx, some qy =>
    some (Fractal.calcLoop e (qx + Fractal.cx) (qy + Fractal.cy) Fractal.maxIter 0 0 0)
  | _, _ => none

/-- The number of iterations the loop of `Fractal::calcOnePixel` performs from the
point `(x, y)` with `n` iterations of the cap left. -/
def Fractal.loopCount (fx0 fy0 : ℚ) : Nat → ℚ → ℚ → Nat
  | 0, _, _ => 0
  | n + 1, x, y =>
    if x * x + y * y ≤ 4 then
      Fractal.loopCount fx0 fy0 n (x * x - y * y + fx0) (2 * x * y + fy0) + 1
    else
      0

/-! ## The kernel as the specification words it -/

/-- The iterates `(x_n, y_n)`: `(x_0, y_0) = (0, 0)`,
`x_{n+1} = x_n^2 - y_n^2 + fx` and `y_{n+1} = 2 x_n y_n + fy`. -/
def orbit (fx fy : ℚ) : Nat → ℚ × ℚ
  | 0 => (0, 0)
  | n + 1 =>
    ((orbit fx fy n).1 * (orbit fx fy n).1 - (orbit fx fy n).2 * (orbit fx fy n).2 + fx,
     2 * (orbit fx fy n).1 * (orbit fx fy n).2 + fy)

/-- The squared modulus `x_n^2 + y_n^2` of the iterate `n`. -/
def orbitNorm (fx fy : ℚ) (n : Nat) : ℚ :=
  (orbit fx fy n).1 * (orbit fx fy n).1 + (orbit fx fy n).2 * (orbit fx fy n).2

/-- The sum of `exp(-sqrt(x_n^2 + y_n^2))` over the iterates `n = 1, ..., N`;
`e t` stands for `exp(-sqrt(t))`. -/
def orbitSum (e : ℚ → ℚ) (fx fy : ℚ) (N : Nat) : ℚ :=
  Finset.sum (Finset.range N) (fun n => e (orbitNorm fx fy (n + 1)))

/-- The complex-plane coordinate of a pixel coordinate `c` for the size `size` and
the scale `m`: `(c - size / 2) / m + centre`, with the real half of `size`. -/
def planeCoord (c size : Int) (m centre : ℚ) : ℚ :=
  ((c : ℚ) - (size : ℚ) / 2) / m + centre

/-! ## Transforms on shared images -/

/-- The images that `ImagePtr` values refer to; an `ImagePtr` is an index into the
list, and `std::make_shared<Image>` appends a new image. -/
abbrev Heap := List Image

/-- One iteration of the inner loop of a transform, on the images themselves: the
pixel `in_rows[i][j]` is read from the image `image_ptr` refers to and
`out_rows[i][j]` is written in the image `output_image_ptr` refers to.  `in_rows` and
`out_rows` are the copies of the row indexes made before the loops. -/
def heapStep (f : Pixel → Pixel) (image_ptr output_image_ptr : Nat)
    (in_rows out_rows : List Nat) (i j : Nat) (h : Heap) : Option Heap :=
  match in_rows[i]?, out_rows[i]? with
  | some ri, some ro =>
    match h[image_ptr]?, h[output_image_ptr]? with
    | some image, some output =>
      match image.myData[ri + j]? with
      | none => none
      | some pixel =>
        if ro + j < output.myData.length then
          some (h.set output_image_ptr
            { output with myData := output.myData.set (ro + j) (f pixel) })
        else none
    | _, _ => none
  | _, _ => none

/-- The loops of a transform on the images themselves, after the output image has
been created: the state of the loops is the whole heap. -/
def transformRowsHeap (f : Pixel → Pixel) (h : Heap) (image_ptr output_image_ptr : Nat) :
    Option Heap :=
  match h[image_ptr]?, h[output_image_ptr]? with
  | some image, some output =>
    let in_rows : List Nat := image.rows
    let out_rows : List Nat := output.rows
    let height : Int := in_rows.length
    match (in_rows[1]? : Option Nat), (in_rows[0]? : Option Nat) with
    | some r1, some r0 =>
      let width : Int := (r1 : Int) - (r0 : Int)
      forLoop (fun i hp =>
        forLoop (fun j hp1 => heapStep f image_ptr output_image_ptr in_rows out_rows i j hp1)
          0 width.toNat hp) 0 height.toNat h
    | _, _ => none
  | _, _ => none

/-- A transform of `main.cpp` as a function of the heap: the image `image_ptr` refers
to is looked up, the output image is created by `std::make_shared` under the suffixed
name, the loops run, and the new heap is returned with the pointer to the output. -/
def transformHeap (suffix : String) (f : Pixel → Pixel) (h : Heap) (image_ptr : Nat) :
    Option (Heap × Nat) :=
  match h[image_ptr]? with
  | none => none
  | some image =>
    match Image.new (image.name ++ suffix) IMAGE_WIDTH IMAGE_HEIGHT with
    | none => none
    | some output =>
      match transformRowsHeap f (h ++ [output]) image_ptr h.length with
      | none => none
      | some h1 => some (h1, h.length)

/-- The function `applyGamma` of `main.cpp` on the heap of images. -/
def applyGammaHeap (pw : ℚ → ℚ → ℚ) (h : Heap) (image_ptr : Nat) (gamma : ℚ) :
    Option (Heap × Nat) :=
  transformHeap "_gamma" (gammaPixel pw gamma) h image_ptr

/-- The function `applyTint` of `main.cpp` on the heap of images. -/
def applyTintHeap (h : Heap) (image_ptr : Nat) (tints : Tints) : Option (Heap × Nat) :=
  transformHeap "_tinted" (tintPixel tints) h image_ptr

/-! ## Buffers produced by the operations -/

/-- The buffers the operations produce: a buffer is created by the constructor, or
results from `fill(r, g, b, x, y)` (the whole-image fill when `x < 0` and `y < 0`, the
single-pixel fill otherwise), from `fill(Fractal*)`, or from a gamma or tint transform
applied to a produced buffer. -/
inductive Produced : Image → Prop
  | create (n : String) (w h : Int) (img : Image) :
      Image.new n w h = some img → Produced img
  | fill (img out : Image) (r g b : Nat) (x y : Int) :
      Produced img → img.fill r g b x y = some out → Produced out
  | fillFractal (img out : Image) (frac : Int → Int → ℚ) :
      Produced img → img.fillFractal frac = some out → Produced out
  | gamma (pw : ℚ → ℚ → ℚ) (image out : Image) (gamma : ℚ) :
      Produced image → applyGamma pw image gamma = some out → Produced out
  | gammaP (pw : ℚ → ℚ → ℚ) (image out : Image) (gamma : ℚ) :
      Produced image → applyGammaP pw image gamma = some out → Produced out
  | gammaS (pw : ℚ → ℚ → ℚ) (image out : Image) (gamma : ℚ) :
      Produced image → applyGammaS pw image gamma = some out → Produced out
  | tint (image out : Image) (tints : Tints) :
      Produced image → applyTint image tints = some out → Produced out
  | tintP (image out : Image) (tints : Tints) :
      Produced image → applyTintP image tints = some out → Produced out
  | tintS (image out : Image) (tints : Tints) :
      Produced image → applyTintS image tints = some out → Produced out

/-! ## More sample buffers -/

/-- The pixel `(0, 0, 0)`. -/
def blackPixel : Pixel := ⟨0, 0, 0, 0⟩

/-- The pixel `(255, 255, 255)`. -/
def whitePixel : Pixel := ⟨255, 255, 255, 0⟩

/-- An allocated 801 x 2 buffer: a black row above a white row. -/
def wideImage : Image :=
  { myName := "wide"
    myWidth := some 801
    myHeight := some 2
    magn := some 0
    myData := List.replicate 801 blackPixel ++ List.replicate 801 whitePixel
    myRows := [0, 801]
    file := some (resetFile 801 2)
    info := some (resetInfo 801 2) }

/-- An allocated 3 x 1 buffer: a single row. -/
def singleRowImage : Image :=
  { myName := "row"
    myWidth := some 3
    myHeight := some 1
    magn := some 0
    myData := [⟨1, 2, 3, 0⟩, ⟨4, 5, 6, 0⟩, ⟨7, 8, 9, 0⟩]
    myRows := [0]
    file := some (resetFile 3 1)
    info := some (resetInfo 3 1) }

/-- An allocated 1 x 801 buffer: 801 rows of one black pixel. -/
def tallImage : Image :=
  { myName := "tall"
    myWidth := some 1
    myHeight := some 801
    magn := some 0
    myData := List.replicate 801 blackPixel
    myRows := resetRows 1 801
    file := some (resetFile 1 801)
    info := some (resetInfo 1 801) }

/-! ## Definitions used in the proofs -/

/-- The value of a decimal digit character. -/
def digitValue (c : Char) : Nat := c.toNat - 48

/-- The number a list of decimal digits denotes, continuing from `acc`. -/
def decodeDigits (acc : Nat) (l : List Char) : Nat :=
  l.foldl (fun a c => 10 * a + digitValue c) acc

/-- The effect of a sequence of file writes, each a path with its content. -/
def applyWrites (l : List (String × List Nat)) (fs : Files) : Files :=
  l.foldl (fun g w => fun p => if p = w.1 then some w.2 else g p) fs

/-- The path of the file the pipelines write for the scale factor `m`. -/
def outputPath (m : Int) : String :=
  "output/" ++ ((("fractal_" ++ toString m) ++ "_gamma") ++ "_tinted") ++ ".bmp"

/-- The bytes `Image::write` emits for a message, if it is defined and not empty. -/
def writtenBytes (o : Option Image) : List Nat :=
  match o with
  | some t =>
    match t.writeBytes with
    | some (some bytes) => bytes
    | _ => []
  | none => []

/-- The file the message of the scale factor `m` is written to, with its content. -/
def messageFile (e : ℚ → ℚ) (pw : ℚ → ℚ → ℚ) (m : Int) : String × List Nat :=
  (outputPath m, writtenBytes (flowMessage e pw m))

/-! ## Construction -/

theorem resizeData_nil (n : Nat) : resizeData [] n = List.replicate n Pixel.zero := by
  simp [resizeData]

theorem resetRows_length (W H : Int) : (resetRows W H).length = H.toNat := by
  simp [resetRows]

theorem resetRows_getElem? (W H : Int) (i : Nat) (hi : (i : Int) < H) :
    (resetRows W H)[i]? = some ((i : Int) * W).toNat := by
  have h : i < H.toNat := by omega
  simp [resetRows, List.getElem?_map, List.getElem?_range h]

theorem Image.new_of_pos (n : String) (W H : Int) (hW : 0 < W) (hH : 0 < H)
    (hfit : W * H ≤ INT_MAX) :
    Image.new n W H = some
      { myName := n, myWidth := some W, myHeight := some H, magn := some 0,
        myData := List.replicate (W * H).toNat Pixel.zero, myRows := resetRows W H,
        file := some (resetFile W H), info := some (resetInfo W H) } := by
  have h1 : ¬ (W ≤ 0 ∨ H ≤ 0) := by omega
  have h2 : ¬ (INT_MAX < W * H) := by omega
  simp [Image.new, Image.reset, Image.uninit, h1, h2, resizeData_nil]

theorem Image.new_of_nonpos (n : String) (W H : Int) (h : W ≤ 0 ∨ H ≤ 0) :
    Image.new n W H = some
      { myName := n, myWidth := none, myHeight := none, magn := some 0,
        myData := [], myRows := [], file := none, info := none } := by
  simp [Image.new, Image.reset, Image.uninit, h]

theorem Image.new_allocated (n : String) (W H : Int) (hW : 0 < W) (hH : 0 < H)
    (hfit : W * H ≤ INT_MAX) (img : Image) (h : Image.new n W H = some img) :
    img.Allocated W H ∧ img.myName = n := by
  rw [Image.new_of_pos n W H hW hH hfit] at h
  cases h
  have hnn : 0 ≤ W * H := by positivity
  refine ⟨⟨hW, hH, hfit, rfl, rfl, ?_, rfl, rfl, rfl⟩, rfl⟩
  simp [Int.toNat_of_nonneg hnn]

/-- C1 (as amended): for positive `W` and `H` whose product fits an `int`, the
constructor produces a buffer with exactly `W * H` pixels, all of them
`(0, 0, 0, 0)`, a row index of exactly `H` entries, and `rows[i]` addressing flat
position `i * W` for every `i < H`. -/
theorem create_layout (n : String) (W H : Int) (hW : 0 < W) (hH : 0 < H)
    (hfit : W * H ≤ INT_MAX) :
    ∃ img, Image.new n W H = some img ∧
      (img.myData.length : Int) = W * H ∧
      (∀ p ∈ img.myData, p = (⟨0, 0, 0, 0⟩ : Pixel)) ∧
      (img.rows.length : Int) = H ∧
      ∀ i : Nat, (i : Int) < H →
        ∃ off : Nat, img.rows[i]? = some off ∧ (off : Int) = (i : Int) * W := by
  refine ⟨_, Image.new_of_pos n W H hW hH hfit, ?_, ?_, ?_, ?_⟩
  · have hnn : 0 ≤ W * H := by positivity
    simp [Int.toNat_of_nonneg hnn]
  · intro p hp
    simp only [List.mem_replicate] at hp
    exact hp.2
  · simp [Image.rows, resetRows_length]
    omega
  · intro i hi
    refine ⟨((i : Int) * W).toNat, ?_, ?_⟩
    · simp [Image.rows, resetRows_getElem? W H i hi]
    · have : 0 ≤ (i : Int) * W := by positivity
      simp [Int.toNat_of_nonneg this]

/-- Witness of `create_layout` on a 3 x 2 buffer. -/
theorem create_layout_witness :
    (0 : Int) < 3 ∧ (0 : Int) < 2 ∧ (3 : Int) * 2 ≤ INT_MAX ∧
    ∃ img, Image.new "a" 3 2 = some img ∧
      (img.myData.length : Int) = 3 * 2 ∧
      (∀ p ∈ img.myData, p = (⟨0, 0, 0, 0⟩ : Pixel)) ∧
      (img.rows.length : Int) = 2 ∧
      ∀ i : Nat, (i : Int) < 2 →
        ∃ off : Nat, img.rows[i]? = some off ∧ (off : Int) = (i : Int) * 3 :=
  ⟨by decide, by decide, by decide,
    create_layout "a" 3 2 (by decide) (by decide) (by decide)⟩

/-- C1 (counterexample): for the positive dimensions 65536 x 65536 the product
`myWidth * myHeight` overflows `int`; no buffer with `W * H` pixels results. -/
theorem create_layout_overflow :
    (0 : Int) < 65536 ∧
    ¬ ∃ img, Image.new "a" 65536 65536 = some img ∧
      (img.myData.length : Int) = 65536 * 65536 := by
  refine ⟨by decide, ?_⟩
  rintro ⟨img, h, -⟩
  have hnone : Image.new "a" 65536 65536 = none := by
    simp [Image.new, Image.reset, INT_MAX]
  rw [hnone] at h
  cases h

theorem toUInt32_of_pos (v : Int) (h0 : 0 ≤ v) (h1 : v ≤ INT_MAX) :
    toUInt32 v = v.toNat := by
  unfold toUInt32
  unfold INT_MAX at h1
  rw [Int.emod_eq_of_lt h0 (by omega)]

theorem toInt32_of_range (v : Int) (h0 : 0 ≤ v) (h1 : v ≤ INT_MAX) : toInt32 v = v := by
  unfold toInt32
  unfold INT_MAX at h1
  omega

/-- The size fields `Image::reset` writes while they fit an `int`: `size` is the pixel
data size plus 56, `sizeImage` the pixel data size. -/
theorem resetFile_size (W H : Int) (hW : 0 < W) (hH : 0 < H)
    (hfit : 4 * (W * H) + 56 ≤ INT_MAX) :
    ((resetFile W H).size : Int) = 56 + 4 * W * H ∧
    ((resetInfo W H).sizeImage : Int) = 4 * W * H := by
  have hpos : 0 < W * H := Int.mul_pos hW hH
  have hpad : resetPadSize W = 0 := by
    unfold resetPadSize sizeofPixel
    omega
  have hdata : resetSizeData W H = 4 * (W * H) := by
    unfold resetSizeData
    rw [hpad]
    have e : W * H * ((sizeofPixel : Nat) : Int) + H * 0 = 4 * (W * H) := by
      simp [sizeofPixel]
      ring
    rw [e]
    exact toInt32_of_range _ (by omega) (by omega)
  have hall : resetSizeAll W H = 4 * (W * H) + 56 := by
    unfold resetSizeAll
    rw [hdata]
    have e : 4 * (W * H) + ((sizeofFile : Nat) : Int) + ((sizeofInfo : Nat) : Int)
        = 4 * (W * H) + 56 := by
      simp [sizeofFile, sizeofInfo]
      ring
    rw [e]
    exact toInt32_of_range _ (by omega) hfit
  constructor
  · show ((toUInt32 (resetSizeAll W H) : Nat) : Int) = 56 + 4 * W * H
    rw [hall, toUInt32_of_pos _ (by omega) hfit, Int.toNat_of_nonneg (by omega)]
    ring
  · show ((toUInt32 (resetSizeData W H) : Nat) : Int) = 4 * W * H
    rw [hdata, toUInt32_of_pos _ (by omega) (by omega), Int.toNat_of_nonneg (by omega)]
    ring

/-- C2 (the code at the failing input): the header `Image::reset` builds for a 4 x 4
buffer has `size = 120` and `sizeImage = 64`, while `Image::write` emits 118 bytes:
`sizeof(file)` counts the two bytes of `sizeRest`, which are not written. -/
theorem reset_size_field_4x4 :
    ∃ img f i bytes, Image.new "a" 4 4 = some img ∧
      img.file = some f ∧ img.info = some i ∧
      f.size = 120 ∧ i.sizeImage = 64 ∧
      img.writeBytes = some (some bytes) ∧ bytes.length = 118 := by
  refine ⟨_, _, _, _, Image.new_of_pos "a" 4 4 (by decide) (by decide) (by decide),
    rfl, rfl, by decide, by decide, rfl, by decide⟩

/-- C5: when `W <= 0` or `H <= 0` the constructor yields a buffer with no pixels and
no row entries, and `Image::write` on it returns before opening a stream: it emits
no bytes and leaves every file as it was. -/
theorem create_nonpositive_empty (n : String) (W H : Int) (h : W ≤ 0 ∨ H ≤ 0) :
    ∃ img, Image.new n W H = some img ∧
      img.myData = [] ∧ img.rows = [] ∧
      img.writeBytes = some none ∧
      ∀ (fname : String) (fs : Files), img.write fname fs = some fs := by
  refine ⟨_, Image.new_of_nonpos n W H h, rfl, rfl, rfl, ?_⟩
  intro fname fs
  rfl

/-- Witness of `create_nonpositive_empty` at `W = 0`, `H = 5`. -/
theorem create_nonpositive_empty_witness :
    ((0 : Int) ≤ 0 ∨ (5 : Int) ≤ 0) ∧
    ∃ img, Image.new "a" 0 5 = some img ∧
      img.myData = [] ∧ img.rows = [] ∧
      img.writeBytes = some none ∧
      ∀ (fname : String) (fs : Files), img.write fname fs = some fs :=
  ⟨by decide, create_nonpositive_empty "a" 0 5 (by decide)⟩

/-- C6 (the code at the failing input): on the buffer left by the failed creation
`Image("a", 0, 5)`, `fill(r, g, b)` and `write` return without touching anything,
but `fill(Fractal*)` reads the indeterminate `myWidth` and `myHeight`, and
`applyGamma` and `applyTint` make no emptiness test and read `in_rows[1]` and
`in_rows[0]` of an empty row index: their behaviour is undefined. -/
theorem empty_buffer_operations (r g b : Nat) (frac : Int → Int → ℚ)
    (pw : ℚ → ℚ → ℚ) (gamma : ℚ) (tints : Tints) :
    ∃ img, Image.new "a" 0 5 = some img ∧
      img.fill r g b (-1) (-1) = some img ∧
      img.writeBytes = some none ∧
      img.fillFractal frac = none ∧
      applyGamma pw img gamma = none ∧
      applyTint img tints = none := by
  refine ⟨_, Image.new_of_nonpos "a" 0 5 (by decide), rfl, rfl, rfl, ?_, ?_⟩
  · have hnew := Image.new_of_pos ("a" ++ "_gamma") IMAGE_WIDTH IMAGE_HEIGHT
      (by decide) (by decide) (by decide)
    simp only [applyGamma, Image.name]
    rw [hnew]
    rfl
  · have hnew := Image.new_of_pos ("a" ++ "_tinted") IMAGE_WIDTH IMAGE_HEIGHT
      (by decide) (by decide) (by decide)
    simp only [applyTint, Image.name]
    rw [hnew]
    rfl

/-! ## Bitmap output -/

theorem pixelBytes_cons (p : Pixel) (d : List Pixel) :
    pixelBytes (p :: d) = p.b :: p.g :: p.r :: p.a :: pixelBytes d := by
  simp [pixelBytes, Pixel.bytes]

theorem pixelBytes_length (d : List Pixel) : (pixelBytes d).length = 4 * d.length := by
  induction d with
  | nil => rfl
  | cons p d ih => rw [pixelBytes_cons]; simp [ih]; omega

theorem pixelBytes_getElem? (d : List Pixel) (i k : Nat) (hk : k < 4) :
    (pixelBytes d)[4 * i + k]? = (d[i]?).map (fun p => p.bgra k) := by
  induction d generalizing i with
  | nil => simp [pixelBytes]
  | cons p d ih =>
    rw [pixelBytes_cons]
    cases i with
    | zero =>
      interval_cases k <;> simp [Pixel.bgra]
    | succ i =>
      have : 4 * (i + 1) + k = (4 * i + k) + 1 + 1 + 1 + 1 := by omega
      rw [this]
      simp only [List.getElem?_cons_succ]
      rw [ih i]

theorem resetFile_bytes_length (W H : Int) : (resetFile W H).bytes.length = 14 := by
  simp [BITMAPFILEHEADER.bytes, le16, le32]

theorem resetInfo_bytes_length (W H : Int) : (resetInfo W H).bytes.length = 40 := by
  simp [BITMAPINFOHEADER.bytes, le16, le32]

theorem Image.Allocated.width_le {img : Image} {W H : Int} (h : img.Allocated W H) :
    W ≤ INT_MAX ∧ H ≤ INT_MAX := by
  obtain ⟨hW, hH, hfit, -⟩ := h
  constructor <;> nlinarith

theorem Image.Allocated.data_length {img : Image} {W H : Int} (h : img.Allocated W H) :
    img.myData.length = W.toNat * H.toNat := by
  obtain ⟨hW, hH, -, -, -, hlen, -⟩ := h
  have e1 : ((W.toNat * H.toNat : Nat) : Int) = W * H := by
    rw [Nat.cast_mul, Int.toNat_of_nonneg hW.le, Int.toNat_of_nonneg hH.le]
  exact_mod_cast hlen.trans e1.symm

/-- The byte stream of an allocated buffer: the 14 header bytes from `file.type`, the
40 bytes of `info`, then the pixel array. -/
theorem Image.Allocated.writeBytes_eq {img : Image} {W H : Int} (h : img.Allocated W H) :
    img.writeBytes = some (some
      ((resetFile W H).bytes ++ (resetInfo W H).bytes ++ pixelBytes img.myData)) := by
  have hlen := h.data_length
  obtain ⟨hW, hH, -, -, -, -, -, hf, hi⟩ := h
  have hpos : 0 < W.toNat * H.toNat :=
    Nat.mul_pos (by omega) (by omega)
  have hne : img.myData ≠ [] := by
    intro hnil
    rw [hnil] at hlen
    simp at hlen
    omega
  have hemp : img.myData.isEmpty = false := by
    cases hd : img.myData with
    | nil => exact absurd hd hne
    | cons a l => rfl
  have hguard : ¬ (14 < (resetFile W H).sizeRest ∨ 40 < (resetInfo W H).size) := by
    simp [resetFile, resetInfo]
  have t1 : (resetFile W H).bytes.take (resetFile W H).sizeRest = (resetFile W H).bytes :=
    List.take_of_length_le (by rw [resetFile_bytes_length]; simp [resetFile])
  have t2 : (resetInfo W H).bytes.take (resetInfo W H).size = (resetInfo W H).bytes :=
    List.take_of_length_le (by rw [resetInfo_bytes_length]; simp [resetInfo])
  unfold Image.writeBytes
  rw [hemp, hf, hi]
  simp only [Bool.false_eq_true, if_false, if_neg hguard, t1, t2]

/-- C7: for an allocated `W x H` buffer `Image::write` emits exactly
`54 + 4 * W * H` bytes, and for every row `r < H`, column `c < W` and channel
`k < 4` the byte at offset `54 + 4 * (r * W + c) + k` is channel `k` (blue, green,
red, reserved) of the pixel `rows[r][c]`: rows top to bottom, no padding. -/
theorem write_pixel_layout (img : Image) (W H : Int) (h : img.Allocated W H) :
    ∃ bytes, img.writeBytes = some (some bytes) ∧
      (bytes.length : Int) = 54 + 4 * W * H ∧
      ∀ r c k : Nat, (r : Int) < H → (c : Int) < W → k < 4 →
        ∃ (off : Nat) (p : Pixel), img.rows[r]? = some off ∧
          img.myData[off + c]? = some p ∧
          bytes[54 + 4 * (r * W.toNat + c) + k]? = some (p.bgra k) := by
  refine ⟨_, h.writeBytes_eq, ?_, ?_⟩
  · have hlen := h.2.2.2.2.2.1
    simp only [List.length_append, resetFile_bytes_length, resetInfo_bytes_length,
      pixelBytes_length]
    push_cast
    rw [hlen]
    ring
  · intro r c k hr hc hk
    have hlen := h.data_length
    obtain ⟨hW, hH, -, -, -, -, hrows, -, -⟩ := h
    have hoff : ((r : Int) * W).toNat = r * W.toNat := by
      have e : ((r * W.toNat : Nat) : Int) = (r : Int) * W := by
        rw [Nat.cast_mul, Int.toNat_of_nonneg hW.le]
      rw [← e]
      exact Int.toNat_natCast _
    have hidx : r * W.toNat + c < img.myData.length := by
      rw [hlen]
      have h1 : c < W.toNat := by omega
      have h2 : r + 1 ≤ H.toNat := by omega
      calc r * W.toNat + c < r * W.toNat + W.toNat := by omega
        _ = W.toNat * (r + 1) := by ring
        _ ≤ W.toNat * H.toNat := Nat.mul_le_mul_left _ h2
    refine ⟨r * W.toNat, img.myData[r * W.toNat + c], ?_, ?_, ?_⟩
    · have := resetRows_getElem? W H r hr
      simp only [Image.rows, hrows]
      rw [this]
      simp [hoff]
    · exact List.getElem?_eq_getElem hidx
    · have h54 : ((resetFile W H).bytes ++ (resetInfo W H).bytes).length = 54 := by
        simp [resetFile_bytes_length, resetInfo_bytes_length]
      have hge : ((resetFile W H).bytes ++ (resetInfo W H).bytes).length
          ≤ 54 + 4 * (r * W.toNat + c) + k := by omega
      rw [List.getElem?_append_right hge, h54]
      have e : 54 + 4 * (r * W.toNat + c) + k - 54 = 4 * (r * W.toNat + c) + k := by omega
      rw [e, pixelBytes_getElem? _ _ _ hk, List.getElem?_eq_getElem hidx]
      rfl

/-- Witness of `write_pixel_layout` on the 2 x 2 sample buffer. -/
theorem write_pixel_layout_witness :
    sampleImage.Allocated 2 2 ∧
    ∃ bytes, sampleImage.writeBytes = some (some bytes) ∧
      (bytes.length : Int) = 54 + 4 * 2 * 2 ∧
      ∀ r c k : Nat, (r : Int) < 2 → (c : Int) < 2 → k < 4 →
        ∃ (off : Nat) (p : Pixel), sampleImage.rows[r]? = some off ∧
          sampleImage.myData[off + c]? = some p ∧
          bytes[54 + 4 * (r * (2 : Int).toNat + c) + k]? = some (p.bgra k) :=
  ⟨by decide, write_pixel_layout sampleImage 2 2 (by decide)⟩

theorem le32_decode (n : Nat) (hn : n < 4294967296) :
    ∃ b0 b1 b2 b3 : Nat, le32 n = [b0, b1, b2, b3] ∧
      b0 < 256 ∧ b1 < 256 ∧ b2 < 256 ∧ b3 < 256 ∧
      b0 + 256 * b1 + 65536 * b2 + 16777216 * b3 = n := by
  refine ⟨n % 256, n / 256 % 256, n / 65536 % 256, n / 16777216 % 256, rfl, ?_, ?_, ?_, ?_, ?_⟩
    <;> omega

theorem header_bytes_eq (W H : Int) :
    (resetFile W H).bytes ++ (resetInfo W H).bytes =
      [0x42, 0x4D] ++ le32 (toUInt32 (resetSizeAll W H)) ++ [0, 0, 0, 0] ++ [54, 0, 0, 0]
        ++ [40, 0, 0, 0] ++ le32 (toUInt32 W) ++ le32 (toUInt32 H) ++ [1, 0] ++ [32, 0]
        ++ [0, 0, 0, 0] ++ le32 (toUInt32 (resetSizeData W H)) ++ List.replicate 16 0 := by
  have e1 : le16 0x4d42 = [0x42, 0x4D] := by decide
  have e2 : le32 0 = [0, 0, 0, 0] := by decide
  have e3 : le32 54 = [54, 0, 0, 0] := by decide
  have e4 : le32 40 = [40, 0, 0, 0] := by decide
  have e5 : le16 1 = [1, 0] := by decide
  have e6 : le16 32 = [32, 0] := by decide
  have e7 : toUInt32 0 = 0 := by decide
  have e8 : List.replicate 16 (0 : Nat) = [0, 0, 0, 0] ++ [0, 0, 0, 0] ++ [0, 0, 0, 0]
      ++ [0, 0, 0, 0] := by decide
  simp only [BITMAPFILEHEADER.bytes, BITMAPINFOHEADER.bytes, resetFile, resetInfo,
    e1, e2, e3, e4, e5, e6, e7, e8, List.append_assoc]

/-- C8: the first 54 bytes `Image::write` emits for an allocated `W x H` buffer:
bytes 0-1 are `0x42 0x4D`, bytes 6-9 are 0, bytes 10-13 hold 54, bytes 14-17 hold 40,
bytes 18-21 hold `W` and bytes 22-25 hold `H` (least significant byte first),
bytes 26-27 hold 1, bytes 28-29 hold 32, bytes 30-33 are 0 and bytes 38-53 are all
zero. -/
theorem write_header_layout (img : Image) (W H : Int) (h : img.Allocated W H) :
    ∃ bytes, img.writeBytes = some (some bytes) ∧
      bytes.take 2 = [0x42, 0x4D] ∧
      (bytes.drop 6).take 4 = [0, 0, 0, 0] ∧
      (bytes.drop 10).take 4 = [54, 0, 0, 0] ∧
      (bytes.drop 14).take 4 = [40, 0, 0, 0] ∧
      (∃ b0 b1 b2 b3 : Nat, (bytes.drop 18).take 4 = [b0, b1, b2, b3] ∧
        b0 < 256 ∧ b1 < 256 ∧ b2 < 256 ∧ b3 < 256 ∧
        ((b0 + 256 * b1 + 65536 * b2 + 16777216 * b3 : Nat) : Int) = W) ∧
      (∃ b0 b1 b2 b3 : Nat, (bytes.drop 22).take 4 = [b0, b1, b2, b3] ∧
        b0 < 256 ∧ b1 < 256 ∧ b2 < 256 ∧ b3 < 256 ∧
        ((b0 + 256 * b1 + 65536 * b2 + 16777216 * b3 : Nat) : Int) = H) ∧
      (bytes.drop 26).take 2 = [1, 0] ∧
      (bytes.drop 28).take 2 = [32, 0] ∧
      (bytes.drop 30).take 4 = [0, 0, 0, 0] ∧
      (bytes.drop 38).take 16 = List.replicate 16 0 := by
  refine ⟨_, h.writeBytes_eq, ?_⟩
  have hle := h.width_le
  obtain ⟨hW, hH, -⟩ := h
  have hWn : (toUInt32 W) < 4294967296 := by
    rw [toUInt32_of_pos W hW.le hle.1]; unfold INT_MAX at hle; omega
  have hHn : (toUInt32 H) < 4294967296 := by
    rw [toUInt32_of_pos H hH.le hle.2]; unfold INT_MAX at hle; omega
  obtain ⟨w0, w1, w2, w3, hw, hw0, hw1, hw2, hw3, hwv⟩ := le32_decode _ hWn
  obtain ⟨h0, h1, h2, h3, hh, hh0, hh1, hh2, hh3, hhv⟩ := le32_decode _ hHn
  have hs : ∃ s0 s1 s2 s3, le32 (toUInt32 (resetSizeAll W H)) = [s0, s1, s2, s3] :=
    ⟨_, _, _, _, rfl⟩
  have hd : ∃ d0 d1 d2 d3, le32 (toUInt32 (resetSizeData W H)) = [d0, d1, d2, d3] :=
    ⟨_, _, _, _, rfl⟩
  obtain ⟨s0, s1, s2, s3, hs⟩ := hs
  obtain ⟨d0, d1, d2, d3, hd⟩ := hd
  rw [header_bytes_eq, hw, hh, hs, hd]
  have hWv : ((w0 + 256 * w1 + 65536 * w2 + 16777216 * w3 : Nat) : Int) = W := by
    rw [hwv, toUInt32_of_pos W hW.le hle.1, Int.toNat_of_nonneg hW.le]
  have hHv : ((h0 + 256 * h1 + 65536 * h2 + 16777216 * h3 : Nat) : Int) = H := by
    rw [hhv, toUInt32_of_pos H hH.le hle.2, Int.toNat_of_nonneg hH.le]
  refine ⟨by simp, by simp, by simp, by simp,
    ⟨w0, w1, w2, w3, by simp, hw0, hw1, hw2, hw3, hWv⟩,
    ⟨h0, h1, h2, h3, by simp, hh0, hh1, hh2, hh3, hHv⟩, by simp, by simp, by simp, ?_⟩
  simp [List.replicate]

/-- Witness of `write_header_layout` on the 2 x 2 sample buffer. -/
theorem write_header_layout_witness :
    sampleImage.Allocated 2 2 ∧
    ∃ bytes, sampleImage.writeBytes = some (some bytes) ∧
      bytes.take 2 = [0x42, 0x4D] ∧
      (bytes.drop 6).take 4 = [0, 0, 0, 0] ∧
      (bytes.drop 10).take 4 = [54, 0, 0, 0] ∧
      (bytes.drop 14).take 4 = [40, 0, 0, 0] ∧
      (∃ b0 b1 b2 b3 : Nat, (bytes.drop 18).take 4 = [b0, b1, b2, b3] ∧
        b0 < 256 ∧ b1 < 256 ∧ b2 < 256 ∧ b3 < 256 ∧
        ((b0 + 256 * b1 + 65536 * b2 + 16777216 * b3 : Nat) : Int) = 2) ∧
      (∃ b0 b1 b2 b3 : Nat, (bytes.drop 22).take 4 = [b0, b1, b2, b3] ∧
        b0 < 256 ∧ b1 < 256 ∧ b2 < 256 ∧ b3 < 256 ∧
        ((b0 + 256 * b1 + 65536 * b2 + 16777216 * b3 : Nat) : Int) = 2) ∧
      (bytes.drop 26).take 2 = [1, 0] ∧
      (bytes.drop 28).take 2 = [32, 0] ∧
      (bytes.drop 30).take 4 = [0, 0, 0, 0] ∧
      (bytes.drop 38).take 16 = List.replicate 16 0 :=
  ⟨by decide, write_header_layout sampleImage 2 2 (by decide)⟩

/-! ## Saturating conversion to a channel -/

theorem truncToInt_of_nonneg (v : ℚ) (h : 0 ≤ v) : truncToInt v = ⌊v⌋ := by
  unfold truncToInt
  have e : ⌊v⌋ = v.num / (v.den : Int) := by
    rw [← Rat.floor_def']
    rfl
  rw [e]
  exact Int.tdiv_eq_ediv (Rat.num_nonneg.mpr h) (by positivity)

theorem floor_255 : ⌊(255 : ℚ)⌋ = 255 := by
  norm_num

theorem toUInt8_of_le (v : ℚ) (h0 : 0 ≤ v) (h1 : v ≤ 255) : toUInt8 v = ⌊v⌋.toNat := by
  unfold toUInt8
  rw [truncToInt_of_nonneg v h0]
  have hf0 : 0 ≤ ⌊v⌋ := Int.floor_nonneg.mpr h0
  have hf1 : ⌊v⌋ ≤ 255 := by
    have : ⌊v⌋ ≤ ⌊(255 : ℚ)⌋ := Int.floor_le_floor h1
    have e : ⌊(255 : ℚ)⌋ = 255 := floor_255
    omega
  rw [Int.emod_eq_of_lt hf0 (by omega)]

theorem saturated_le (v : ℚ) : saturated v ≤ 255 := by
  unfold saturated
  split
  · exact le_refl _
  · rename_i h
    have h1 : v ≤ 255 := not_lt.mp h
    have : ⌊v⌋ ≤ ⌊(255 : ℚ)⌋ := Int.floor_le_floor h1
    have e : ⌊(255 : ℚ)⌋ = 255 := floor_255
    omega

theorem toUInt8_clamp (v : ℚ) (h0 : 0 ≤ v) :
    toUInt8 (if v > 255 then 255 else v) = saturated v := by
  unfold saturated
  by_cases h : 255 < v
  · have hg : v > 255 := h
    rw [if_pos hg, if_pos h, toUInt8_of_le 255 (by norm_num) (le_refl _)]
    have e : ⌊(255 : ℚ)⌋ = 255 := floor_255
    rw [e]
    rfl
  · have hg : ¬ v > 255 := h
    rw [if_neg hg, if_neg h, toUInt8_of_le v h0 (not_lt.mp h)]

theorem Pixel.mk3_gray (s : Nat) (hs : s ≤ 255) : Pixel.mk3 s s s = ⟨s, s, s, 0⟩ := by
  have : s % 256 = s := Nat.mod_eq_of_lt (by omega)
  simp [Pixel.mk3, this]

theorem fillPixel_eq (frac : Int → Int → ℚ) (w : Int) (i : Nat)
    (h : 0 ≤ frac (Int.tdiv i w) (Int.tmod i w)) :
    fillPixel frac w i =
      ⟨saturated (frac (Int.tdiv i w) (Int.tmod i w)),
       saturated (frac (Int.tdiv i w) (Int.tmod i w)),
       saturated (frac (Int.tdiv i w) (Int.tmod i w)), 0⟩ := by
  unfold fillPixel
  simp only []
  rw [toUInt8_clamp _ h]
  exact Pixel.mk3_gray _ (saturated_le _)

theorem gammaPixel_eq (pw : ℚ → ℚ → ℚ) (gamma : ℚ) (pixel : Pixel)
    (h : 0 ≤ pw (luminance pixel) gamma) :
    gammaPixel pw gamma pixel =
      ⟨saturated (pw (luminance pixel) gamma), saturated (pw (luminance pixel) gamma),
       saturated (pw (luminance pixel) gamma), 0⟩ := by
  have hc : ((MAX_BGR_VALUE : Int) : ℚ) = 255 := by simp [MAX_BGR_VALUE]
  unfold gammaPixel
  simp only [Pixel.bgra, hc]
  have := toUInt8_clamp _ h
  unfold luminance at this h ⊢
  rw [this]
  exact Pixel.mk3_gray _ (saturated_le _)

theorem blend_nonneg (c : Nat) (t : ℚ) (hc : c ≤ 255) (ht : 0 ≤ t) : 0 ≤ blend c t := by
  unfold blend
  have h1 : (0 : ℚ) ≤ (c : ℚ) := Nat.cast_nonneg c
  have h2 : (c : ℚ) ≤ 255 := by exact_mod_cast hc
  have h3 : 0 ≤ (255 - (c : ℚ)) * t := mul_nonneg (by linarith) ht
  linarith

theorem tintChannel_eq (c : Nat) (t : ℚ) (hc : c ≤ 255) (ht : 0 ≤ t) :
    tintChannel c t = saturated (blend c t) := by
  have hm : ((MAX_BGR_VALUE : Int) : ℚ) = 255 := by simp [MAX_BGR_VALUE]
  have hb : (c : ℚ) + ((MAX_BGR_VALUE - (c : Int) : Int) : ℚ) * t = blend c t := by
    unfold blend
    push_cast
    rw [hm]
  unfold tintChannel
  simp only [hb, hm]
  exact toUInt8_clamp _ (blend_nonneg c t hc ht)

/-- C10: each stage that stores a computed non-negative value in a channel stores
exactly 255 when the value exceeds 255 and the truncation of the value otherwise
(`saturated`), never a value reduced modulo 256: the kernel fill for the value
`calcOnePixel(x, y)`, the gamma transform for `pow(v, gamma)`, and the tint transform
for each blend `c + (255 - c) * t` with non-negative tint fractions. -/
theorem clamp_saturates (frac : Int → Int → ℚ) (w : Int) (i : Nat)
    (pw : ℚ → ℚ → ℚ) (gamma : ℚ) (pixel : Pixel) (tints : Tints)
    (hk : 0 ≤ frac (Int.tdiv i w) (Int.tmod i w))
    (hg : 0 ≤ pw (luminance pixel) gamma)
    (hb : pixel.b ≤ 255) (hgr : pixel.g ≤ 255) (hr : pixel.r ≤ 255)
    (h0 : 0 ≤ tints.t0) (h1 : 0 ≤ tints.t1) (h2 : 0 ≤ tints.t2) :
    fillPixel frac w i =
      ⟨saturated (frac (Int.tdiv i w) (Int.tmod i w)),
       saturated (frac (Int.tdiv i w) (Int.tmod i w)),
       saturated (frac (Int.tdiv i w) (Int.tmod i w)), 0⟩ ∧
    gammaPixel pw gamma pixel =
      ⟨saturated (pw (luminance pixel) gamma), saturated (pw (luminance pixel) gamma),
       saturated (pw (luminance pixel) gamma), 0⟩ ∧
    tintPixel tints pixel =
      ⟨saturated (blend pixel.b tints.t0), saturated (blend pixel.g tints.t1),
       saturated (blend pixel.r tints.t2), 0⟩ ∧
    (∀ v : ℚ, 255 < v → saturated v = 255) ∧
    (∀ v : ℚ, 0 ≤ v → v ≤ 255 → (saturated v : Int) = ⌊v⌋) := by
  refine ⟨fillPixel_eq frac w i hk, gammaPixel_eq pw gamma pixel hg, ?_, ?_, ?_⟩
  · unfold tintPixel
    simp only [Pixel.bgra]
    rw [tintChannel_eq _ _ hb h0, tintChannel_eq _ _ hgr h1, tintChannel_eq _ _ hr h2]
    have s0 := saturated_le (blend pixel.b tints.t0)
    have s1 := saturated_le (blend pixel.g tints.t1)
    have s2 := saturated_le (blend pixel.r tints.t2)
    simp [Pixel.mk3, Nat.mod_eq_of_lt (show saturated (blend pixel.b tints.t0) < 256 by omega),
      Nat.mod_eq_of_lt (show saturated (blend pixel.g tints.t1) < 256 by omega),
      Nat.mod_eq_of_lt (show saturated (blend pixel.r tints.t2) < 256 by omega)]
  · intro v hv
    simp [saturated, hv]
  · intro v hv0 hv1
    have hf0 : 0 ≤ ⌊v⌋ := Int.floor_nonneg.mpr hv0
    simp [saturated, not_lt.mpr hv1, Int.toNat_of_nonneg hf0]

/-- Witness of `clamp_saturates`: the kernel value 300, the power `v + 200` of the
luminance of the pixel `(100, 100, 100)` and the tint fractions `(2, 0, 0)`. -/
theorem clamp_saturates_witness :
    (0 ≤ sampleKernel (Int.tdiv (3 : Nat) 1) (Int.tmod (3 : Nat) 1) ∧
     0 ≤ samplePow (luminance ⟨100, 100, 100, 0⟩) 1 ∧
     (100 : Nat) ≤ 255 ∧ (0 : ℚ) ≤ 2 ∧ (0 : ℚ) ≤ 0) ∧
    (fillPixel sampleKernel 1 3 =
      ⟨saturated (sampleKernel (Int.tdiv (3 : Nat) 1) (Int.tmod (3 : Nat) 1)),
       saturated (sampleKernel (Int.tdiv (3 : Nat) 1) (Int.tmod (3 : Nat) 1)),
       saturated (sampleKernel (Int.tdiv (3 : Nat) 1) (Int.tmod (3 : Nat) 1)), 0⟩ ∧
    gammaPixel samplePow 1 ⟨100, 100, 100, 0⟩ =
      ⟨saturated (samplePow (luminance ⟨100, 100, 100, 0⟩) 1),
       saturated (samplePow (luminance ⟨100, 100, 100, 0⟩) 1),
       saturated (samplePow (luminance ⟨100, 100, 100, 0⟩) 1), 0⟩ ∧
    tintPixel ⟨2, 0, 0⟩ ⟨100, 100, 100, 0⟩ =
      ⟨saturated (blend 100 2), saturated (blend 100 0), saturated (blend 100 0), 0⟩ ∧
    (∀ v : ℚ, 255 < v → saturated v = 255) ∧
    (∀ v : ℚ, 0 ≤ v → v ≤ 255 → (saturated v : Int) = ⌊v⌋)) := by
  have hk : 0 ≤ sampleKernel (Int.tdiv (3 : Nat) 1) (Int.tmod (3 : Nat) 1) := by
    simp [sampleKernel]
  have hg : 0 ≤ samplePow (luminance ⟨100, 100, 100, 0⟩) 1 := by
    norm_num [samplePow, luminance]
  exact ⟨⟨hk, hg, by decide, by norm_num, le_refl _⟩,
    clamp_saturates sampleKernel 1 3 samplePow 1 ⟨100, 100, 100, 0⟩ ⟨2, 0, 0⟩ hk hg
      (by decide) (by decide) (by decide) (by norm_num) (le_refl _) (le_refl _)⟩

/-! ## Kernel fill -/

theorem toUInt8_lt (v : ℚ) : toUInt8 v < 256 := by
  unfold toUInt8
  have h1 : 0 ≤ truncToInt v % 256 := Int.emod_nonneg _ (by decide)
  have h2 : truncToInt v % 256 < 256 := Int.emod_lt_of_pos _ (by decide)
  omega

theorem fillPixel_gray (frac : Int → Int → ℚ) (w : Int) (i : Nat) :
    fillPixel frac w i =
      ⟨toUInt8 (if frac (Int.tdiv i w) (Int.tmod i w) > 255 then 255
          else frac (Int.tdiv i w) (Int.tmod i w)),
       toUInt8 (if frac (Int.tdiv i w) (Int.tmod i w) > 255 then 255
          else frac (Int.tdiv i w) (Int.tmod i w)),
       toUInt8 (if frac (Int.tdiv i w) (Int.tmod i w) > 255 then 255
          else frac (Int.tdiv i w) (Int.tmod i w)), 0⟩ := by
  unfold fillPixel
  exact Pixel.mk3_gray _ (Nat.le_of_lt_succ (toUInt8_lt _))

theorem tdiv_row_col (W : Int) (x y : Nat) (hx : (x : Int) < W) :
    Int.tdiv ((y * W.toNat + x : Nat) : Int) W = y ∧
    Int.tmod ((y * W.toNat + x : Nat) : Int) W = x := by
  have hW : 0 < W := by omega
  have e : ((y * W.toNat + x : Nat) : Int) = (x : Int) + (y : Int) * W := by
    push_cast
    rw [Int.toNat_of_nonneg hW.le]
    ring
  have h0 : (0 : Int) ≤ (x : Int) + (y : Int) * W := by positivity
  rw [e]
  constructor
  · rw [Int.tdiv_eq_ediv h0 hW.le, Int.add_mul_ediv_right _ _ hW.ne.symm,
      Int.ediv_eq_zero_of_lt (by omega) hx]
    simp
  · rw [Int.tmod_eq_emod h0 hW.le, Int.add_mul_emod_self,
      Int.emod_eq_of_lt (by omega) hx]

theorem Image.Allocated.isEmpty_false {img : Image} {W H : Int} (h : img.Allocated W H) :
    img.myData.isEmpty = false := by
  have hlen := h.data_length
  obtain ⟨hW, hH, -⟩ := h
  have hpos : 0 < W.toNat * H.toNat := Nat.mul_pos (by omega) (by omega)
  cases hd : img.myData with
  | nil => rw [hd] at hlen; simp at hlen; omega
  | cons a l => rfl

/-- The result of `Image::fill(Fractal*)` on an allocated buffer: every element `i`
of the pixel array is replaced by the pixel the lambda computes for `i`. -/
theorem Image.Allocated.fillFractal_eq {img : Image} {W H : Int} (h : img.Allocated W H)
    (frac : Int → Int → ℚ) :
    img.fillFractal frac =
      some { img with myData := img.myData.mapIdx (fun i _ => fillPixel frac W i) } := by
  have hemp := h.isEmpty_false
  obtain ⟨hW, -, -, hw, -⟩ := h
  have hne : W ≠ 0 := by omega
  unfold Image.fillFractal
  simp [hemp, hw, hne]

theorem Image.Allocated.index_lt {img : Image} {W H : Int} (h : img.Allocated W H)
    (x y : Nat) (hx : (x : Int) < W) (hy : (y : Int) < H) :
    y * W.toNat + x < img.myData.length := by
  rw [h.data_length]
  have h1 : x < W.toNat := by omega
  have h2 : y + 1 ≤ H.toNat := by omega
  calc y * W.toNat + x < y * W.toNat + W.toNat := by omega
    _ = W.toNat * (y + 1) := by ring
    _ ≤ W.toNat * H.toNat := Nat.mul_le_mul_left _ h2

/-- C4 (as amended): after `Image::fill(Fractal*)` on an allocated `W x H` buffer the
pixel in column `x` of row `y` (flat position `y * W + x`) is the gray pixel
`(u, u, u)` with reserved channel 0, where `u` is the kernel value
`calcOnePixel(y, x)` - the row index is the first argument, the column index the
second - capped at 255 and converted to 8 bits; for a non-negative kernel value
this is 255 above 255 and the truncation otherwise. -/
theorem fill_kernel_pixels (img : Image) (W H : Int) (frac : Int → Int → ℚ)
    (h : img.Allocated W H) :
    ∃ out, img.fillFractal frac = some out ∧ out.Allocated W H ∧
      ∀ x y : Nat, (x : Int) < W → (y : Int) < H →
        ∃ u : Nat, out.myData[y * W.toNat + x]? = some ⟨u, u, u, 0⟩ ∧
          u = toUInt8 (if frac y x > 255 then 255 else frac y x) ∧
          (0 ≤ frac y x → u = saturated (frac y x)) := by
  refine ⟨_, h.fillFractal_eq frac, ?_, ?_⟩
  · obtain ⟨hW, hH, hfit, hw, hh, hlen, hrows, hf, hi⟩ := h
    exact ⟨hW, hH, hfit, hw, hh, by simpa using hlen, hrows, hf, hi⟩
  · intro x y hx hy
    have hidx := h.index_lt x y hx hy
    obtain ⟨hd, hm⟩ := tdiv_row_col W x y hx
    refine ⟨toUInt8 (if frac y x > 255 then 255 else frac y x), ?_, rfl, ?_⟩
    · simp only [List.getElem?_mapIdx, List.getElem?_eq_getElem hidx, Option.map_some']
      rw [fillPixel_gray, hd, hm]
    · intro h0
      exact toUInt8_clamp _ h0

/-- Witness of `fill_kernel_pixels` on the 2 x 2 sample buffer. -/
theorem fill_kernel_pixels_witness :
    sampleImage.Allocated 2 2 ∧
    ∃ out, sampleImage.fillFractal sampleKernel = some out ∧ out.Allocated 2 2 ∧
      ∀ x y : Nat, (x : Int) < 2 → (y : Int) < 2 →
        ∃ u : Nat, out.myData[y * (2 : Int).toNat + x]? = some ⟨u, u, u, 0⟩ ∧
          u = toUInt8 (if sampleKernel y x > 255 then 255 else sampleKernel y x) ∧
          (0 ≤ sampleKernel y x → u = saturated (sampleKernel y x)) :=
  ⟨by decide, fill_kernel_pixels sampleImage 2 2 sampleKernel (by decide)⟩

/-- C4 (counterexample): on a 2 x 2 buffer filled with the kernel
`evaluate(x, y) = 100 * x`, the pixel in column 1 of row 0 (flat position 1) is
`(0, 0, 0, 0)`, the value of `evaluate(0, 1)`, and not the gray pixel of
`evaluate(1, 0) = 100`. -/
theorem fill_kernel_transposed :
    ∃ img out, Image.new "a" 2 2 = some img ∧
      img.fillFractal sampleKernel = some out ∧
      out.myData[0 * 2 + 1]? = some ⟨0, 0, 0, 0⟩ ∧
      saturated (sampleKernel 1 0) = 100 ∧
      out.myData[0 * 2 + 1]? ≠
        some ⟨saturated (sampleKernel 1 0), saturated (sampleKernel 1 0),
          saturated (sampleKernel 1 0), 0⟩ := by
  have hs : saturated (sampleKernel 1 0) = 100 := by
    norm_num [saturated, sampleKernel]
    rfl
  refine ⟨_, _, Image.new_of_pos "a" 2 2 (by decide) (by decide) (by decide), rfl,
    by decide, hs, ?_⟩
  rw [hs]
  decide

/-! ## The transform loops -/

/-- Invariant rule for `forLoop`: a property that holds before iteration `k` and is
carried by every iteration that runs holds after the last one, and the loop is
defined. -/
theorem forLoop_invariant {σ : Type} (body : Nat → σ → Option σ) (P : Nat → σ → Prop) :
    ∀ (n k : Nat) (s : σ), P k s →
      (∀ (j : Nat) (t : σ), k ≤ j → j < k + n → P j t →
        ∃ t1, body j t = some t1 ∧ P (j + 1) t1) →
      ∃ s1, forLoop body k n s = some s1 ∧ P (k + n) s1 := by
  intro n
  induction n with
  | zero =>
    intro k s hs _
    exact ⟨s, rfl, hs⟩
  | succ n ih =>
    intro k s hs hstep
    obtain ⟨t1, hb, ht1⟩ := hstep k s (le_refl _) (by omega) hs
    obtain ⟨s1, hl, hs1⟩ := ih (k + 1) t1 ht1 (fun j t hj1 hj2 hP =>
      hstep j t (by omega) (by omega) hP)
    refine ⟨s1, ?_, ?_⟩
    · simp only [forLoop, hb]
      exact hl
    · have e : k + (n + 1) = k + 1 + n := by omega
      rw [e]
      exact hs1

/-- The inner loop of a transform on row `i`, whose input row starts at `ri` and whose
output row starts at `ro`: the `n` positions from `ro` receive the transformed input
pixels, every other position is unchanged. -/
theorem transform_row (f : Pixel → Pixel) (inData : List Pixel) (in_rows out_rows : List Nat)
    (i ri ro n : Nat) (out : List Pixel)
    (hri : in_rows[i]? = some ri) (hro : out_rows[i]? = some ro)
    (hin : ri + n ≤ inData.length) (hout : ro + n ≤ out.length) :
    ∃ d, forLoop (fun j out1 => transformStep f inData in_rows out_rows i j out1) 0 n out
        = some d ∧
      d.length = out.length ∧
      ∀ p, d[p]? = if ro ≤ p ∧ p < ro + n then (inData[ri + (p - ro)]?).map f else out[p]? := by
  have key := forLoop_invariant
    (fun j out1 => transformStep f inData in_rows out_rows i j out1)
    (fun j d => d.length = out.length ∧
      ∀ p, d[p]? = if ro ≤ p ∧ p < ro + j then (inData[ri + (p - ro)]?).map f else out[p]?)
    n 0 out ⟨rfl, fun p => by
      have hn : ¬ (ro ≤ p ∧ p < ro + 0) := by omega
      rw [if_neg hn]⟩ ?_
  · obtain ⟨d, h1, h2, h3⟩ := key
    exact ⟨d, h1, h2, by simpa using h3⟩
  · intro j t _ hj ⟨hlen, hget⟩
    have hj1 : ri + j < inData.length := by omega
    have hj2 : ro + j < t.length := by omega
    refine ⟨t.set (ro + j) (f inData[ri + j]), ?_, ?_, ?_⟩
    · simp only [transformStep, hri, hro, List.getElem?_eq_getElem hj1, if_pos hj2]
    · simp [hlen]
    · intro p
      rw [List.getElem?_set]
      by_cases hp : ro + j = p
      · subst hp
        have e : ri + (ro + j - ro) = ri + j := by omega
        simp [hj2, e, List.getElem?_eq_getElem hj1]
      · rw [if_neg hp, hget p]
        by_cases hq : ro ≤ p ∧ p < ro + j
        · have hq1 : ro ≤ p ∧ p < ro + (j + 1) := ⟨hq.1, by omega⟩
          rw [if_pos hq, if_pos hq1]
        · have hq1 : ¬ (ro ≤ p ∧ p < ro + (j + 1)) := by
            intro hc
            exact hq ⟨hc.1, by omega⟩
          rw [if_neg hq, if_neg hq1]

theorem resetRows_getElem?_nat (W H : Int) (hW : 0 ≤ W) (i : Nat) (hi : i < H.toNat) :
    (resetRows W H)[i]? = some (i * W.toNat) := by
  have h1 : (i : Int) < H := by omega
  rw [resetRows_getElem? W H i h1]
  have e : ((i * W.toNat : Nat) : Int) = (i : Int) * W := by
    rw [Nat.cast_mul, Int.toNat_of_nonneg hW]
  rw [← e]
  exact congrArg some (Int.toNat_natCast _)

/-- The loops of a transform from an allocated `W x H` input, `2 <= H <= 800` and
`W <= 800`, into an allocated 800 x 800 output: the loops are defined, the output
keeps its length, position `i * 800 + j` with `i < H`, `j < W` receives the transform
of input pixel `i * W + j`, and every other position of the output is unchanged. -/
theorem transformRows_spec (f : Pixel → Pixel) (image output : Image) (W H : Int)
    (hin : image.Allocated W H) (hout : output.Allocated 800 800)
    (h2 : 2 ≤ H) (hH : H ≤ 800) (hW : W ≤ 800) :
    ∃ d, transformRows f image output = some { output with myData := d } ∧
      d.length = output.myData.length ∧
      ∀ p, d[p]? =
        if p / 800 < H.toNat ∧ p % 800 < W.toNat then
          (image.myData[(p / 800) * W.toNat + p % 800]?).map f
        else output.myData[p]? := by
  have hilen := hin.data_length
  have holen : output.myData.length = 640000 := by
    have := hout.data_length
    simpa using this
  obtain ⟨hWpos, hHpos, -, -, -, -, hirows, -, -⟩ := hin
  obtain ⟨-, -, -, -, -, -, horows, -, -⟩ := hout
  have hr1 : (image.rows)[1]? = some (1 * W.toNat) := by
    simp only [Image.rows, hirows]
    exact resetRows_getElem?_nat W H hWpos.le 1 (by omega)
  have hr0 : (image.rows)[0]? = some (0 * W.toNat) := by
    simp only [Image.rows, hirows]
    exact resetRows_getElem?_nat W H hWpos.le 0 (by omega)
  have hheight : ((image.rows.length : Int)).toNat = H.toNat := by
    simp only [Image.rows, hirows, resetRows_length]
    exact Int.toNat_natCast _
  have hwidth : ((((1 * W.toNat : Nat) : Int) - ((0 * W.toNat : Nat) : Int))).toNat
      = W.toNat := by
    omega
  have key := forLoop_invariant
    (fun i out => forLoop (fun j out1 =>
      transformStep f image.myData image.rows output.rows i j out1) 0 W.toNat out)
    (fun i d => d.length = output.myData.length ∧
      ∀ p, d[p]? =
        if p / 800 < i ∧ p % 800 < W.toNat then
          (image.myData[(p / 800) * W.toNat + p % 800]?).map f
        else output.myData[p]?)
    H.toNat 0 output.myData ⟨rfl, fun p => by
      have hn : ¬ (p / 800 < 0 ∧ p % 800 < W.toNat) := by omega
      rw [if_neg hn]⟩ ?_
  · obtain ⟨d, hd, hlen, hget⟩ := key
    refine ⟨d, ?_, hlen, ?_⟩
    · unfold transformRows
      simp only [hr1, hr0, hheight, hwidth, hd]
    · intro p
      have := hget p
      simpa using this
  · intro i t _ hi ⟨hlen, hget⟩
    have hiH : i < H.toNat := by omega
    have hri : (image.rows)[i]? = some (i * W.toNat) := by
      simp only [Image.rows, hirows]
      exact resetRows_getElem?_nat W H hWpos.le i hiH
    have hro : (output.rows)[i]? = some (i * 800) := by
      simp only [Image.rows, horows]
      have := resetRows_getElem?_nat 800 800 (by decide) i (by simp; omega)
      simpa using this
    have hWn : W.toNat ≤ 800 := by omega
    have hHn : H.toNat ≤ 800 := by omega
    have hbin : i * W.toNat + W.toNat ≤ image.myData.length := by
      rw [hilen]
      calc i * W.toNat + W.toNat = W.toNat * (i + 1) := by ring
        _ ≤ W.toNat * H.toNat := Nat.mul_le_mul_left _ hiH
    have hbout : i * 800 + W.toNat ≤ t.length := by
      rw [hlen, holen]
      omega
    obtain ⟨d, hd, hdlen, hdget⟩ := transform_row f image.myData image.rows output.rows
      i (i * W.toNat) (i * 800) W.toNat t hri hro hbin hbout
    refine ⟨d, hd, hdlen.trans hlen, ?_⟩
    intro p
    rw [hdget p]
    by_cases hp : i * 800 ≤ p ∧ p < i * 800 + W.toNat
    · have hq : p / 800 < i + 1 ∧ p % 800 < W.toNat := by omega
      have e1 : p / 800 = i := by omega
      have e2 : p % 800 = p - i * 800 := by omega
      rw [if_pos hp, if_pos hq, e1, e2]
    · rw [if_neg hp, hget p]
      by_cases hq : p / 800 < i ∧ p % 800 < W.toNat
      · have hq1 : p / 800 < i + 1 ∧ p % 800 < W.toNat := by omega
        rw [if_pos hq, if_pos hq1]
      · have hq1 : ¬ (p / 800 < i + 1 ∧ p % 800 < W.toNat) := by omega
        rw [if_neg hq, if_neg hq1]

/-- What the six transforms of `main.cpp` share: the output image created with
`IMAGE_WIDTH` and `IMAGE_HEIGHT` under the suffixed name, then the loops.  For an
allocated `W x H` input with `2 <= H <= 800` and `W <= 800` the result is defined; it
is an allocated 800 x 800 buffer whose position `i * 800 + j`, for `i < H` and
`j < W`, holds the transform of input pixel `i * W + j`, and which is zero elsewhere. -/
theorem transform_spec (suffix : String) (f : Pixel → Pixel) (image : Image) (W H : Int)
    (hin : image.Allocated W H) (h2 : 2 ≤ H) (hH : H ≤ 800) (hW : W ≤ 800) :
    ∃ out,
      (match Image.new (image.name ++ suffix) IMAGE_WIDTH IMAGE_HEIGHT with
        | none => none
        | some output => transformRows f image output) = some out ∧
      out.myName = image.myName ++ suffix ∧
      out.Allocated 800 800 ∧
      ∀ p, out.myData[p]? =
        if p / 800 < H.toNat ∧ p % 800 < W.toNat then
          (image.myData[(p / 800) * W.toNat + p % 800]?).map f
        else if p < 640000 then some Pixel.zero else none := by
  obtain ⟨output, hnew, hdata⟩ : ∃ output,
      Image.new (image.name ++ suffix) IMAGE_WIDTH IMAGE_HEIGHT = some output ∧
      output.myData = List.replicate (IMAGE_WIDTH * IMAGE_HEIGHT).toNat Pixel.zero :=
    ⟨_, Image.new_of_pos (image.name ++ suffix) IMAGE_WIDTH IMAGE_HEIGHT
      (by decide) (by decide) (by decide), rfl⟩
  obtain ⟨halloc, hname⟩ := Image.new_allocated (image.name ++ suffix) IMAGE_WIDTH IMAGE_HEIGHT
    (by decide) (by decide) (by decide) output hnew
  obtain ⟨d, hd, hlen, hget⟩ := transformRows_spec f image output W H hin halloc h2 hH hW
  refine ⟨{ output with myData := d }, ?_, hname, ?_, ?_⟩
  · rw [hnew]
    exact hd
  · obtain ⟨a1, a2, a3, a4, a5, a6, a7, a8, a9⟩ := halloc
    exact ⟨a1, a2, a3, a4, a5, (congrArg Nat.cast hlen).trans a6, a7, a8, a9⟩
  · intro p
    rw [hget p]
    by_cases hc : p / 800 < H.toNat ∧ p % 800 < W.toNat
    · rw [if_pos hc, if_pos hc]
    · rw [if_neg hc, if_neg hc]
      have e : (IMAGE_WIDTH * IMAGE_HEIGHT).toNat = 640000 := by decide
      rw [hdata, e, List.getElem?_replicate]

/-- C3 (as amended): for an allocated `W x H` buffer with `2 <= H <= 800` and
`W <= 800`, `applyGamma`, `applyGammaP` and `applyGammaS` return the same output
buffer; its width is `IMAGE_WIDTH = 800` and its height `IMAGE_HEIGHT = 800`,
whatever `W` and `H` are, and its name is `input.name + "_gamma"`. -/
theorem gamma_output_shape (pw : ℚ → ℚ → ℚ) (image : Image) (gamma : ℚ) (W H : Int)
    (hin : image.Allocated W H) (h2 : 2 ≤ H) (hH : H ≤ 800) (hW : W ≤ 800) :
    ∃ out, applyGamma pw image gamma = some out ∧
      applyGammaP pw image gamma = some out ∧
      applyGammaS pw image gamma = some out ∧
      out.width = some 800 ∧ out.height = some 800 ∧
      out.Allocated IMAGE_WIDTH IMAGE_HEIGHT ∧
      out.name = image.name ++ "_gamma" := by
  obtain ⟨out, ho, hname, halloc, -⟩ :=
    transform_spec "_gamma" (gammaPixel pw gamma) image W H hin h2 hH hW
  exact ⟨out, ho, ho, ho, halloc.2.2.2.1, halloc.2.2.2.2.1, halloc, hname⟩

/-- Witness of `gamma_output_shape` on the 2 x 2 sample buffer. -/
theorem gamma_output_shape_witness :
    (sampleImage.Allocated 2 2 ∧ (2 : Int) ≤ 2 ∧ (2 : Int) ≤ 800 ∧ (2 : Int) ≤ 800) ∧
    ∃ out, applyGamma samplePow sampleImage 1 = some out ∧
      applyGammaP samplePow sampleImage 1 = some out ∧
      applyGammaS samplePow sampleImage 1 = some out ∧
      out.width = some 800 ∧ out.height = some 800 ∧
      out.Allocated IMAGE_WIDTH IMAGE_HEIGHT ∧
      out.name = sampleImage.name ++ "_gamma" :=
  ⟨⟨by decide, by decide, by decide, by decide⟩,
    gamma_output_shape samplePow sampleImage 1 2 2 (by decide) (by decide) (by decide)
      (by decide)⟩

/-- C3 (counterexample): for the allocated 2 x 2 sample buffer the gamma transform
returns a buffer of width 800 and height 800, not of width 2 and height 2. -/
theorem gamma_output_not_input_size :
    sampleImage.Allocated 2 2 ∧
    ∃ out, applyGamma samplePow sampleImage 1 = some out ∧
      out.width = some 800 ∧ out.height = some 800 ∧
      out.width ≠ sampleImage.width ∧ out.height ≠ sampleImage.height := by
  refine ⟨by decide, ?_⟩
  obtain ⟨out, ho, -, halloc, -⟩ :=
    transform_spec "_gamma" (gammaPixel samplePow 1) sampleImage 2 2 (by decide)
      (by decide) (by decide) (by decide)
  have hw : out.width = some 800 := halloc.2.2.2.1
  have hh : out.height = some 800 := halloc.2.2.2.2.1
  refine ⟨out, ho, hw, hh, ?_, ?_⟩
  · rw [hw]
    decide
  · rw [hh]
    decide

/-! ## Output paths -/

theorem digitValue_digitChar (k : Nat) (hk : k < 10) : digitValue (Nat.digitChar k) = k := by
  interval_cases k <;> rfl

theorem digitChar_ne_minus (k : Nat) (hk : k < 10) : Nat.digitChar k ≠ '-' := by
  interval_cases k <;> decide

theorem decode_toDigitsCore (fuel : Nat) : ∀ (n : Nat) (ds : List Char), n < fuel →
    decodeDigits 0 (Nat.toDigitsCore 10 fuel n ds) = decodeDigits n ds := by
  induction fuel with
  | zero => intro n ds h; omega
  | succ fuel ih =>
    intro n ds h
    have hd := digitValue_digitChar (n % 10) (Nat.mod_lt _ (by decide))
    unfold Nat.toDigitsCore
    by_cases h0 : n / 10 = 0
    · simp only [h0, if_true]
      have : n % 10 = n := by omega
      simp only [decodeDigits, List.foldl_cons, hd, Nat.mul_zero, Nat.zero_add]
      rw [this]
    · simp only [h0, if_false]
      rw [ih (n / 10) _ (by omega)]
      simp only [decodeDigits, List.foldl_cons, hd]
      have : 10 * (n / 10) + n % 10 = n := by omega
      rw [this]

theorem toDigitsCore_ne_minus (fuel : Nat) : ∀ (n : Nat) (ds : List Char),
    (∀ c ∈ ds, c ≠ '-') → ∀ c ∈ Nat.toDigitsCore 10 fuel n ds, c ≠ '-' := by
  induction fuel with
  | zero => intro n ds h; simpa [Nat.toDigitsCore] using h
  | succ fuel ih =>
    intro n ds h
    have hd := digitChar_ne_minus (n % 10) (Nat.mod_lt _ (by decide))
    have hcons : ∀ c ∈ Nat.digitChar (n % 10) :: ds, c ≠ '-' := by
      intro c hc
      rcases List.mem_cons.mp hc with rfl | hc
      · exact hd
      · exact h c hc
    unfold Nat.toDigitsCore
    by_cases h0 : n / 10 = 0
    · simp only [h0, if_true]
      exact hcons
    · simp only [h0, if_false]
      exact ih _ _ hcons

theorem decode_repr (n : Nat) : decodeDigits 0 (Nat.repr n).data = n := by
  have := decode_toDigitsCore (n + 1) n [] (by omega)
  simpa [Nat.repr, Nat.toDigits, decodeDigits, List.asString] using this

theorem repr_ne_minus (n : Nat) : ∀ c ∈ (Nat.repr n).data, c ≠ '-' := by
  have := toDigitsCore_ne_minus (n + 1) n [] (by simp)
  simpa [Nat.repr, Nat.toDigits, List.asString] using this

theorem nat_repr_injective (a b : Nat) (h : Nat.repr a = Nat.repr b) : a = b := by
  have ha := decode_repr a
  rw [h, decode_repr b] at ha
  exact ha.symm

theorem int_toString_injective (a b : Int) (h : toString a = toString b) : a = b := by
  cases a with
  | ofNat m =>
    cases b with
    | ofNat k =>
      have : Nat.repr m = Nat.repr k := h
      rw [nat_repr_injective m k this]
    | negSucc k =>
      exfalso
      have h1 : Nat.repr m = "-" ++ Nat.repr (k + 1) := h
      have h2 := repr_ne_minus m '-'
      rw [h1] at h2
      simp at h2
  | negSucc m =>
    cases b with
    | ofNat k =>
      exfalso
      have h1 : "-" ++ Nat.repr (m + 1) = Nat.repr k := h
      have h2 := repr_ne_minus k '-'
      rw [← h1] at h2
      simp at h2
    | negSucc k =>
      have h1 : "-" ++ Nat.repr (m + 1) = "-" ++ Nat.repr (k + 1) := h
      have h2 : Nat.repr (m + 1) = Nat.repr (k + 1) := by
        have := congrArg String.data h1
        simp only [String.data_append] at this
        exact String.ext (List.append_cancel_left this)
      have := nat_repr_injective _ _ h2
      have : m = k := by omega
      rw [this]

theorem string_append_left_cancel (a x y : String) (h : a ++ x = a ++ y) : x = y := by
  have := congrArg String.data h
  simp only [String.data_append] at this
  exact String.ext (List.append_cancel_left this)

theorem string_append_right_cancel (x y b : String) (h : x ++ b = y ++ b) : x = y := by
  have := congrArg String.data h
  simp only [String.data_append] at this
  exact String.ext (List.append_cancel_right this)

/-- Distinct scale factors are written to distinct paths. -/
theorem outputPath_injective (a b : Int) (h : outputPath a = outputPath b) : a = b := by
  unfold outputPath at h
  have h1 := string_append_right_cancel _ _ _ h
  have h2 := string_append_left_cancel _ _ _ h1
  have h3 := string_append_right_cancel _ _ _ h2
  have h4 := string_append_right_cancel _ _ _ h3
  have h5 := string_append_left_cancel _ _ _ h4
  exact int_toString_injective a b h5

/-! ## Sequences of file writes -/

theorem applyWrites_cons (w : String × List Nat) (l : List (String × List Nat)) (fs : Files) :
    applyWrites (w :: l) fs = applyWrites l (fun p => if p = w.1 then some w.2 else fs p) := rfl

/-- The content of a path after a sequence of writes: that of some write to the path,
or the old content when no write names the path. -/
theorem applyWrites_apply (l : List (String × List Nat)) :
    ∀ (fs : Files) (q : String),
      (∃ w ∈ l, w.1 = q ∧ applyWrites l fs q = some w.2) ∨
      ((∀ w ∈ l, w.1 ≠ q) ∧ applyWrites l fs q = fs q) := by
  induction l with
  | nil =>
    intro fs q
    exact Or.inr ⟨by simp, rfl⟩
  | cons w l ih =>
    intro fs q
    rw [applyWrites_cons]
    rcases ih (fun p => if p = w.1 then some w.2 else fs p) q with ⟨w1, hw1, hq, hv⟩ | ⟨hno, hv⟩
    · exact Or.inl ⟨w1, List.mem_cons_of_mem _ hw1, hq, hv⟩
    · by_cases hqw : q = w.1
      · refine Or.inl ⟨w, List.mem_cons_self _ _, hqw.symm, ?_⟩
        rw [hv]
        simp [hqw]
      · refine Or.inr ⟨?_, ?_⟩
        · intro w1 hw1
          rcases List.mem_cons.mp hw1 with rfl | hw1
          · exact fun hc => hqw hc.symm
          · exact hno w1 hw1
        · rw [hv]
          simp [hqw]

/-- Writes in which a path determines the content leave the same files in any
order. -/
theorem applyWrites_perm (l1 l2 : List (String × List Nat)) (fs : Files)
    (hp : l1.Perm l2)
    (hc : ∀ w1 ∈ l2, ∀ w2 ∈ l2, w1.1 = w2.1 → w1.2 = w2.2) :
    applyWrites l1 fs = applyWrites l2 fs := by
  funext q
  rcases applyWrites_apply l1 fs q with ⟨w1, hw1, hq1, hv1⟩ | ⟨hno1, hv1⟩
  · rcases applyWrites_apply l2 fs q with ⟨w2, hw2, hq2, hv2⟩ | ⟨hno2, hv2⟩
    · rw [hv1, hv2, hc w1 (hp.mem_iff.mp hw1) w2 hw2 (hq1.trans hq2.symm)]
    · exact absurd hq1 (hno2 w1 (hp.mem_iff.mp hw1))
  · rcases applyWrites_apply l2 fs q with ⟨w2, hw2, hq2, hv2⟩ | ⟨hno2, hv2⟩
    · exact absurd hq2 (hno1 w2 (hp.mem_iff.mpr hw2))
    · rw [hv1, hv2]

/-! ## The two pipelines -/

theorem truncToInt_intCast (m : Int) : truncToInt (m : ℚ) = m := by
  simp [truncToInt]

theorem transformRows_congr (f : Pixel → Pixel) (a b output : Image)
    (h1 : a.myRows = b.myRows) (h2 : a.myData = b.myData) :
    transformRows f a output = transformRows f b output := by
  unfold transformRows
  simp only [Image.rows, h1, h2]

theorem applyGammaP_congr (pw : ℚ → ℚ → ℚ) (gamma : ℚ) (a b : Image)
    (h0 : a.myName = b.myName) (h1 : a.myRows = b.myRows) (h2 : a.myData = b.myData) :
    applyGammaP pw a gamma = applyGamma pw b gamma := by
  unfold applyGammaP applyGamma
  simp only [Image.name, h0]
  cases Image.new (b.myName ++ "_gamma") IMAGE_WIDTH IMAGE_HEIGHT with
  | none => rfl
  | some output => exact transformRows_congr _ a b output h1 h2

/-- The image a scale factor `m` gives after the kernel fill, in both pipelines: the
two images differ at most in the scale tag. -/
theorem filled_image (e : ℚ → ℚ) (m : Int) (hm : -2147483648 ≤ m ∧ m ≤ INT_MAX) :
    ∃ img imgF, makeFractalImage e (m : ℚ) = some img ∧
      (flowSource m).bind (flowFractal e) = some imgF ∧
      img.Allocated 800 800 ∧ img.myName = "fractal_" ++ toString m ∧
      imgF.myName = img.myName ∧ imgF.myRows = img.myRows ∧ imgF.myData = img.myData := by
  obtain ⟨base, hnew⟩ : ∃ base,
      Image.new ("fractal_" ++ toString m) IMAGE_WIDTH IMAGE_HEIGHT = some base :=
    ⟨_, Image.new_of_pos _ IMAGE_WIDTH IMAGE_HEIGHT (by decide) (by decide) (by decide)⟩
  obtain ⟨hbase, hname⟩ := Image.new_allocated _ IMAGE_WIDTH IMAGE_HEIGHT
    (by decide) (by decide) (by decide) base hnew
  have hbase8 : base.Allocated 800 800 := hbase
  have hw : base.myWidth = some 800 := hbase.2.2.2.1
  have hh : base.myHeight = some 800 := hbase.2.2.2.2.1
  have hflowalloc : (base.setMagn (m : ℚ)).Allocated 800 800 := hbase
  have hrange : ¬ (m < -2147483648 ∨ INT_MAX < m) := by omega
  refine ⟨{ base with
            myData := base.myData.mapIdx (fun i _ =>
              fillPixel (Fractal.calcOnePixel e ⟨(800, 800), (m : ℚ)⟩) 800 i) },
          { base.setMagn (m : ℚ) with
            myData := base.myData.mapIdx (fun i _ =>
              fillPixel (Fractal.calcOnePixel e ⟨(800, 800), (m : ℚ)⟩) 800 i) },
          ?_, ?_, ?_, hname, rfl, rfl, rfl⟩
  · have hw0 : base.width = some 800 := hw
    have hh0 : base.height = some 800 := hh
    unfold makeFractalImage
    simp only [truncToInt_intCast, if_neg hrange, hnew, hw0, hh0]
    exact hbase8.fillFractal_eq _
  · unfold flowSource
    simp only [hnew, Option.some_bind]
    unfold flowFractal
    have hm1 : (base.setMagn (m : ℚ)).getMagn = some (m : ℚ) := rfl
    have hw1 : (base.setMagn (m : ℚ)).width = some 800 := hw
    have hh1 : (base.setMagn (m : ℚ)).height = some 800 := hh
    simp only [hm1, hw1, hh1]
    exact hflowalloc.fillFractal_eq _
  · obtain ⟨a1, a2, a3, a4, a5, a6, a7, a8, a9⟩ := hbase8
    exact ⟨a1, a2, a3, a4, a5, by simpa using a6, a7, a8, a9⟩

/-- The gamma and tint stages on an allocated 800 x 800 image. -/
theorem stages_spec (pw : ℚ → ℚ → ℚ) (img : Image) (h : img.Allocated 800 800) :
    ∃ g t, applyGamma pw img pipelineGamma = some g ∧
      applyTint g tint_array = some t ∧ applyTintP g tint_array = some t ∧
      t.Allocated 800 800 ∧ t.myName = (img.myName ++ "_gamma") ++ "_tinted" := by
  obtain ⟨g, hg, hgn, hga, -⟩ := transform_spec "_gamma" (gammaPixel pw pipelineGamma)
    img 800 800 h (by decide) (by decide) (by decide)
  obtain ⟨t, ht, htn, hta, -⟩ := transform_spec "_tinted" (tintPixel tint_array)
    g 800 800 hga (by decide) (by decide) (by decide)
  refine ⟨g, t, hg, ht, ht, hta, ?_⟩
  rw [htn, hgn]

theorem writeImage_allocated (t : Image) (W H : Int) (h : t.Allocated W H) (fs : Files) :
    ∃ bytes, t.writeBytes = some (some bytes) ∧
      writeImage t fs =
        some (fun p => if p = "output/" ++ t.myName ++ ".bmp" then some bytes else fs p) := by
  refine ⟨_, h.writeBytes_eq, ?_⟩
  unfold writeImage Image.write
  rw [h.writeBytes_eq]
  rfl

theorem applyWrites_single (w : String × List Nat) (fs : Files) :
    applyWrites [w] fs = fun p => if p = w.1 then some w.2 else fs p := rfl

theorem writtenBytes_some (t : Image) (bytes : List Nat)
    (hb : t.writeBytes = some (some bytes)) : writtenBytes (some t) = bytes := by
  simp only [writtenBytes, hb]

theorem messageFile_path (e : ℚ → ℚ) (pw : ℚ → ℚ → ℚ) (m : Int) :
    (messageFile e pw m).1 = outputPath m := by
  unfold messageFile
  rfl

/-- One scale factor through both pipelines: the same image reaches `writeImage`, and
writing it is the write of `messageFile`. -/
theorem message_spec (e : ℚ → ℚ) (pw : ℚ → ℚ → ℚ) (m : Int)
    (hm : -2147483648 ≤ m ∧ m ≤ INT_MAX) :
    ∃ img g t, makeFractalImage e (m : ℚ) = some img ∧
      applyGamma pw img pipelineGamma = some g ∧
      applyTint g tint_array = some t ∧
      flowMessage e pw m = some t ∧
      ∀ fs, writeImage t fs = some (applyWrites [messageFile e pw m] fs) := by
  obtain ⟨img, imgF, hmk, hflow, halloc, hname, e0, e1, e2⟩ := filled_image e m hm
  obtain ⟨g, t, hg, ht, htP, hta, htn⟩ := stages_spec pw img halloc
  have hmsg : flowMessage e pw m = some t := by
    unfold flowMessage
    rw [hflow]
    simp only [Option.some_bind, flowGamma, flowTint]
    rw [applyGammaP_congr pw pipelineGamma imgF img e0 e1 e2, hg]
    exact htP
  refine ⟨img, g, t, hmk, hg, ht, hmsg, ?_⟩
  intro fs
  obtain ⟨bytes, hb, hwrite⟩ := writeImage_allocated t 800 800 hta fs
  have hfile : messageFile e pw m = (outputPath m, bytes) := by
    unfold messageFile
    rw [hmsg, writtenBytes_some t bytes hb]
  have hp : "output/" ++ t.myName ++ ".bmp" = outputPath m := by
    rw [htn, hname]
    unfold outputPath
    rfl
  rw [hwrite, applyWrites_single, hfile, hp]

theorem processSerial_cons (pw : ℚ → ℚ → ℚ) (img g t : Image) (rest : List Image)
    (fs fs1 : Files) (hg : applyGamma pw img pipelineGamma = some g)
    (ht : applyTint g tint_array = some t) (hw : writeImage t fs = some fs1) :
    processSerial pw (img :: rest) fs = processSerial pw rest fs1 := by
  simp only [processSerial, hg, ht, hw]

theorem flowWrites_some (t : Image) (rest : List (Option Image)) (fs fs1 : Files)
    (hw : writeImage t fs = some fs1) :
    flowWrites (some t :: rest) fs = flowWrites rest fs1 := by
  simp only [flowWrites, hw]

theorem serial_spec (e : ℚ → ℚ) (pw : ℚ → ℚ → ℚ) (ms : List Int) :
    (∀ m ∈ ms, -2147483648 ≤ m ∧ m ≤ INT_MAX) →
    ∃ v, makeImageVector e ms = some v ∧
      ∀ fs, processSerial pw v fs = some (applyWrites (ms.map (messageFile e pw)) fs) := by
  induction ms with
  | nil =>
    intro _
    exact ⟨[], rfl, fun fs => rfl⟩
  | cons m ms ih =>
    intro hall
    obtain ⟨v, hv, hproc⟩ := ih (fun k hk => hall k (List.mem_cons_of_mem _ hk))
    obtain ⟨img, g, t, hmk, hg, ht, -, hwrite⟩ :=
      message_spec e pw m (hall m (List.mem_cons_self _ _))
    refine ⟨img :: v, ?_, ?_⟩
    · simp only [makeImageVector, hmk, hv]
    · intro fs
      rw [processSerial_cons pw img g t v fs _ hg ht (hwrite fs), hproc, List.map_cons,
        applyWrites_single, applyWrites_cons]

theorem flow_spec (e : ℚ → ℚ) (pw : ℚ → ℚ → ℚ) (order : List Int) :
    (∀ m ∈ order, -2147483648 ≤ m ∧ m ≤ INT_MAX) →
    ∀ fs, processFlowGraphRun e pw order fs
      = some (applyWrites (order.map (messageFile e pw)) fs) := by
  induction order with
  | nil =>
    intro _ fs
    rfl
  | cons m ms ih =>
    intro hall fs
    obtain ⟨img, g, t, -, -, -, hmsg, hwrite⟩ :=
      message_spec e pw m (hall m (List.mem_cons_self _ _))
    have hrest := ih (fun k hk => hall k (List.mem_cons_of_mem _ hk))
    unfold processFlowGraphRun at hrest ⊢
    rw [List.map_cons, hmsg, flowWrites_some t _ fs _ (hwrite fs), hrest, List.map_cons,
      applyWrites_single, applyWrites_cons]

/-- C9: for every list of scale factors (values of type `int`), the sequential
strategy (`makeFractalImage` for each factor, then `processSerial`) is defined and
every run of the streaming strategy (`processFlowGraph`, its messages written in any
order of completion) is defined and leaves the same files: the same paths, each with
the same bytes. -/
theorem strategies_same_files (e : ℚ → ℚ) (pw : ℚ → ℚ → ℚ) (ms : List Int) (fs : Files)
    (hint : ∀ m ∈ ms, -2147483648 ≤ m ∧ m ≤ INT_MAX) :
    ∃ out : Files, runSerial e pw ms fs = some out ∧
      processFlowGraph e pw ms fs (some out) ∧
      ∀ result, processFlowGraph e pw ms fs result → result = some out := by
  obtain ⟨v, hv, hproc⟩ := serial_spec e pw ms hint
  refine ⟨applyWrites (ms.map (messageFile e pw)) fs, ?_, ?_, ?_⟩
  · unfold runSerial
    rw [hv]
    exact hproc fs
  · exact ⟨ms, List.Perm.refl _, (flow_spec e pw ms hint fs).symm⟩
  · rintro result ⟨order, hperm, rfl⟩
    have hord : ∀ m ∈ order, -2147483648 ≤ m ∧ m ≤ INT_MAX :=
      fun m hmem => hint m (hperm.mem_iff.mp hmem)
    rw [flow_spec e pw order hord fs]
    congr 1
    apply applyWrites_perm _ _ fs (hperm.map _)
    intro w1 hw1 w2 hw2 hpath
    obtain ⟨m1, -, rfl⟩ := List.mem_map.mp hw1
    obtain ⟨m2, -, rfl⟩ := List.mem_map.mp hw2
    rw [messageFile_path, messageFile_path] at hpath
    rw [outputPath_injective m1 m2 hpath]

/-- Witness of `strategies_same_files` on the scale factors of `runSerial` and
`runFlowGraph`, from an empty output directory. -/
theorem strategies_same_files_witness :
    (∀ m ∈ [(2000 : Int), 20000, 200000, 2000000], -2147483648 ≤ m ∧ m ≤ INT_MAX) ∧
    ∃ out : Files,
      runSerial sampleExp samplePow [2000, 20000, 200000, 2000000] (fun _ => none)
        = some out ∧
      processFlowGraph sampleExp samplePow [2000, 20000, 200000, 2000000] (fun _ => none)
        (some out) ∧
      ∀ result,
        processFlowGraph sampleExp samplePow [2000, 20000, 200000, 2000000] (fun _ => none)
          result → result = some out :=
  ⟨by decide,
    strategies_same_files sampleExp samplePow [2000, 20000, 200000, 2000000] (fun _ => none)
      (by decide)⟩

/-! ## Sample buffers -/

theorem wideImage_allocated : wideImage.Allocated 801 2 := by
  refine ⟨by decide, by decide, by decide, rfl, rfl, ?_, by decide, rfl, rfl⟩
  show ((List.replicate 801 blackPixel ++ List.replicate 801 whitePixel).length : Int)
    = 801 * 2
  rw [List.length_append, List.length_replicate, List.length_replicate]
  rfl

theorem singleRowImage_allocated : singleRowImage.Allocated 3 1 := by decide

theorem tallImage_allocated : tallImage.Allocated 1 801 := by
  have h1 : tallImage.myRows = resetRows 1 801 := by
    simp only [tallImage]
  have h2 : (tallImage.myData.length : Int) = 1 * 801 := by
    show ((List.replicate 801 blackPixel).length : Int) = 1 * 801
    rw [List.length_replicate]
    rfl
  exact ⟨by decide, by decide, by decide, rfl, rfl, h2, h1, rfl, rfl⟩

/-! ## The tint computation on one pixel -/

theorem saturated_eq_min (v : ℚ) : saturated v = ⌊min 255 v⌋.toNat := by
  unfold saturated
  by_cases h : 255 < v
  · rw [if_pos h, min_eq_left h.le, floor_255]
    rfl
  · rw [if_neg h, min_eq_right (not_lt.mp h)]

theorem blend_ge (c : Nat) (t : ℚ) (hc : c ≤ 255) (ht : 0 ≤ t) : (c : ℚ) ≤ blend c t := by
  unfold blend
  have h2 : (c : ℚ) ≤ 255 := by exact_mod_cast hc
  have h3 : 0 ≤ (255 - (c : ℚ)) * t := mul_nonneg (by linarith) ht
  linarith

theorem blend_le (c : Nat) (t : ℚ) (hc : c ≤ 255) (ht : t ≤ 1) : blend c t ≤ 255 := by
  unfold blend
  have h2 : (c : ℚ) ≤ 255 := by exact_mod_cast hc
  have h3 : (255 - (c : ℚ)) * t ≤ (255 - (c : ℚ)) * 1 :=
    mul_le_mul_of_nonneg_left ht (by linarith)
  linarith

theorem saturated_ge (c : Nat) (v : ℚ) (hc : c ≤ 255) (hv : (c : ℚ) ≤ v) :
    c ≤ saturated v := by
  unfold saturated
  split
  · exact hc
  · have h1 : (c : Int) ≤ ⌊v⌋ := Int.le_floor.mpr (by exact_mod_cast hv)
    omega

theorem saturated_mono (a b : ℚ) (hab : a ≤ b) : saturated a ≤ saturated b := by
  unfold saturated
  by_cases hb : 255 < b
  · rw [if_pos hb]
    exact saturated_le a
  · have ha : ¬ 255 < a := fun h => hb (lt_of_lt_of_le h hab)
    rw [if_neg hb, if_neg ha]
    exact Int.toNat_le_toNat (Int.floor_le_floor hab)

theorem tintPixel_eq (tints : Tints) (pixel : Pixel)
    (hb : pixel.b ≤ 255) (hg : pixel.g ≤ 255) (hr : pixel.r ≤ 255)
    (h0 : 0 ≤ tints.t0) (h1 : 0 ≤ tints.t1) (h2 : 0 ≤ tints.t2) :
    tintPixel tints pixel =
      ⟨saturated (blend pixel.b tints.t0), saturated (blend pixel.g tints.t1),
       saturated (blend pixel.r tints.t2), 0⟩ := by
  unfold tintPixel
  simp only [Pixel.bgra]
  rw [tintChannel_eq _ _ hb h0, tintChannel_eq _ _ hg h1, tintChannel_eq _ _ hr h2]
  have s0 := saturated_le (blend pixel.b tints.t0)
  have s1 := saturated_le (blend pixel.g tints.t1)
  have s2 := saturated_le (blend pixel.r tints.t2)
  simp [Pixel.mk3, Nat.mod_eq_of_lt (show saturated (blend pixel.b tints.t0) < 256 by omega),
    Nat.mod_eq_of_lt (show saturated (blend pixel.g tints.t1) < 256 by omega),
    Nat.mod_eq_of_lt (show saturated (blend pixel.r tints.t2) < 256 by omega)]

theorem saturated_natCast (c : Nat) (hc : c ≤ 255) : saturated (c : ℚ) = c := by
  unfold saturated
  have h : ¬ (255 : ℚ) < (c : ℚ) := by
    have : (c : ℚ) ≤ 255 := by exact_mod_cast hc
    exact not_lt.mpr this
  rw [if_neg h, Int.floor_natCast]
  rfl

/-- The tint computation with the fractions `(0, 0, 0)` keeps the three colour channels
of a pixel. -/
theorem tintPixel_zero (pixel : Pixel)
    (hb : pixel.b ≤ 255) (hg : pixel.g ≤ 255) (hr : pixel.r ≤ 255) :
    tintPixel ⟨0, 0, 0⟩ pixel = ⟨pixel.b, pixel.g, pixel.r, 0⟩ := by
  rw [tintPixel_eq _ _ hb hg hr (le_refl _) (le_refl _) (le_refl _)]
  have e : ∀ c : Nat, blend c 0 = (c : ℚ) := fun c => by simp [blend]
  simp only [e, saturated_natCast _ hb, saturated_natCast _ hg, saturated_natCast _ hr]

/-- The tint computation with the fractions `(1, 1, 1)` gives `(255, 255, 255)` for
every pixel. -/
theorem tintPixel_one (pixel : Pixel)
    (hb : pixel.b ≤ 255) (hg : pixel.g ≤ 255) (hr : pixel.r ≤ 255) :
    tintPixel ⟨1, 1, 1⟩ pixel = whitePixel := by
  rw [tintPixel_eq _ _ hb hg hr zero_le_one zero_le_one zero_le_one]
  have e : ∀ c : Nat, blend c 1 = ((255 : Nat) : ℚ) := fun c => by simp [blend]
  simp only [e, saturated_natCast 255 (le_refl _)]
  rfl

/-- C13: for a pixel (8-bit channels) and tint fractions in `[0, 1]`, each output
channel of the tint computation is `trunc(min(255, in + (255 - in) * t))` of the same
input channel and its own fraction - `tint[0]` for blue, `tint[1]` for green,
`tint[2]` for red - the reserved channel is 0, and `in <= out <= 255` in each
channel. -/
theorem tint_channel_formula (tints : Tints) (pixel : Pixel)
    (hb : pixel.b ≤ 255) (hg : pixel.g ≤ 255) (hr : pixel.r ≤ 255)
    (h0 : 0 ≤ tints.t0 ∧ tints.t0 ≤ 1) (h1 : 0 ≤ tints.t1 ∧ tints.t1 ≤ 1)
    (h2 : 0 ≤ tints.t2 ∧ tints.t2 ≤ 1) :
    (tintPixel tints pixel).b
        = ⌊min (255 : ℚ) ((pixel.b : ℚ) + (255 - (pixel.b : ℚ)) * tints.t0)⌋.toNat ∧
    (tintPixel tints pixel).g
        = ⌊min (255 : ℚ) ((pixel.g : ℚ) + (255 - (pixel.g : ℚ)) * tints.t1)⌋.toNat ∧
    (tintPixel tints pixel).r
        = ⌊min (255 : ℚ) ((pixel.r : ℚ) + (255 - (pixel.r : ℚ)) * tints.t2)⌋.toNat ∧
    (tintPixel tints pixel).a = 0 ∧
    (pixel.b ≤ (tintPixel tints pixel).b ∧ (tintPixel tints pixel).b ≤ 255) ∧
    (pixel.g ≤ (tintPixel tints pixel).g ∧ (tintPixel tints pixel).g ≤ 255) ∧
    (pixel.r ≤ (tintPixel tints pixel).r ∧ (tintPixel tints pixel).r ≤ 255) := by
  rw [tintPixel_eq tints pixel hb hg hr h0.1 h1.1 h2.1]
  refine ⟨saturated_eq_min _, saturated_eq_min _, saturated_eq_min _, rfl,
    ⟨saturated_ge _ _ hb (blend_ge _ _ hb h0.1), saturated_le _⟩,
    ⟨saturated_ge _ _ hg (blend_ge _ _ hg h1.1), saturated_le _⟩,
    ⟨saturated_ge _ _ hr (blend_ge _ _ hr h2.1), saturated_le _⟩⟩

/-- Witness of `tint_channel_formula`: the pixel `(10, 20, 30)` and the tint fractions
`(1, 0, 1)`. -/
theorem tint_channel_formula_witness :
    ((10 : Nat) ≤ 255 ∧ (20 : Nat) ≤ 255 ∧ (30 : Nat) ≤ 255 ∧
      ((0 : ℚ) ≤ 1 ∧ (1 : ℚ) ≤ 1) ∧ ((0 : ℚ) ≤ 0 ∧ (0 : ℚ) ≤ 1)) ∧
    ((tintPixel ⟨1, 0, 1⟩ ⟨10, 20, 30, 0⟩).b
        = ⌊min (255 : ℚ) (((10 : Nat) : ℚ) + (255 - ((10 : Nat) : ℚ)) * 1)⌋.toNat ∧
    (tintPixel ⟨1, 0, 1⟩ ⟨10, 20, 30, 0⟩).g
        = ⌊min (255 : ℚ) (((20 : Nat) : ℚ) + (255 - ((20 : Nat) : ℚ)) * 0)⌋.toNat ∧
    (tintPixel ⟨1, 0, 1⟩ ⟨10, 20, 30, 0⟩).r
        = ⌊min (255 : ℚ) (((30 : Nat) : ℚ) + (255 - ((30 : Nat) : ℚ)) * 1)⌋.toNat ∧
    (tintPixel ⟨1, 0, 1⟩ ⟨10, 20, 30, 0⟩).a = 0 ∧
    (10 ≤ (tintPixel ⟨1, 0, 1⟩ ⟨10, 20, 30, 0⟩).b ∧
      (tintPixel ⟨1, 0, 1⟩ ⟨10, 20, 30, 0⟩).b ≤ 255) ∧
    (20 ≤ (tintPixel ⟨1, 0, 1⟩ ⟨10, 20, 30, 0⟩).g ∧
      (tintPixel ⟨1, 0, 1⟩ ⟨10, 20, 30, 0⟩).g ≤ 255) ∧
    (30 ≤ (tintPixel ⟨1, 0, 1⟩ ⟨10, 20, 30, 0⟩).r ∧
      (tintPixel ⟨1, 0, 1⟩ ⟨10, 20, 30, 0⟩).r ≤ 255)) :=
  ⟨⟨by decide, by decide, by decide, ⟨zero_le_one, le_refl _⟩, ⟨le_refl _, zero_le_one⟩⟩,
    tint_channel_formula ⟨1, 0, 1⟩ ⟨10, 20, 30, 0⟩ (by decide) (by decide) (by decide)
      ⟨zero_le_one, le_refl _⟩ ⟨le_refl _, zero_le_one⟩ ⟨zero_le_one, le_refl _⟩⟩

/-! ## The gamma computation on one pixel -/

theorem luminance_gray (v a : Nat) : luminance ⟨v, v, v, a⟩ = (v : ℚ) := by
  unfold luminance
  have e1 : mkRat 3 10 = (3 : ℚ) / 10 := by norm_num
  have e2 : mkRat 59 100 = (59 : ℚ) / 100 := by norm_num
  have e3 : mkRat 11 100 = (11 : ℚ) / 100 := by norm_num
  rw [e1, e2, e3]
  ring

theorem luminance_nonneg (pixel : Pixel) : 0 ≤ luminance pixel := by
  unfold luminance
  have e1 : (0 : ℚ) ≤ mkRat 3 10 := by norm_num
  have e2 : (0 : ℚ) ≤ mkRat 59 100 := by norm_num
  have e3 : (0 : ℚ) ≤ mkRat 11 100 := by norm_num
  have hr : (0 : ℚ) ≤ (pixel.r : ℚ) := Nat.cast_nonneg _
  have hg : (0 : ℚ) ≤ (pixel.g : ℚ) := Nat.cast_nonneg _
  have hb : (0 : ℚ) ≤ (pixel.b : ℚ) := Nat.cast_nonneg _
  have := mul_nonneg e1 hr
  have := mul_nonneg e2 hg
  have := mul_nonneg e3 hb
  linarith

/-- C14: when `std::pow` is non-negative and non-decreasing in a non-negative base for
a positive exponent, then for every `gamma > 0` and gray pixels `(v1, v1, v1)` and
`(v2, v2, v2)` with `v1 < v2` the value the gamma computation gives the first is at
most the value it gives the second, in each channel. -/
theorem gamma_monotone (pw : ℚ → ℚ → ℚ) (gamma : ℚ) (v1 v2 : Nat)
    (hgamma : 0 < gamma) (hlt : v1 < v2)
    (hmono : ∀ a b g : ℚ, 0 ≤ a → a ≤ b → 0 < g → pw a g ≤ pw b g)
    (hnn : ∀ a g : ℚ, 0 ≤ a → 0 < g → 0 ≤ pw a g) :
    (gammaPixel pw gamma ⟨v1, v1, v1, 0⟩).b ≤ (gammaPixel pw gamma ⟨v2, v2, v2, 0⟩).b ∧
    (gammaPixel pw gamma ⟨v1, v1, v1, 0⟩).g ≤ (gammaPixel pw gamma ⟨v2, v2, v2, 0⟩).g ∧
    (gammaPixel pw gamma ⟨v1, v1, v1, 0⟩).r ≤ (gammaPixel pw gamma ⟨v2, v2, v2, 0⟩).r := by
  have hl1 := luminance_gray v1 0
  have hl2 := luminance_gray v2 0
  have h1 : (0 : ℚ) ≤ (v1 : ℚ) := Nat.cast_nonneg _
  have h12 : (v1 : ℚ) ≤ (v2 : ℚ) := by exact_mod_cast hlt.le
  have hp1 : 0 ≤ pw (luminance ⟨v1, v1, v1, 0⟩) gamma := by
    rw [hl1]
    exact hnn _ _ h1 hgamma
  have hp2 : 0 ≤ pw (luminance ⟨v2, v2, v2, 0⟩) gamma := by
    rw [hl2]
    exact hnn _ _ (le_trans h1 h12) hgamma
  have hle : pw (luminance ⟨v1, v1, v1, 0⟩) gamma ≤ pw (luminance ⟨v2, v2, v2, 0⟩) gamma := by
    rw [hl1, hl2]
    exact hmono _ _ _ h1 h12 hgamma
  rw [gammaPixel_eq pw gamma _ hp1, gammaPixel_eq pw gamma _ hp2]
  exact ⟨saturated_mono _ _ hle, saturated_mono _ _ hle, saturated_mono _ _ hle⟩

/-- Witness of `gamma_monotone`: the gray values 10 and 20, exponent 1 and the
stand-in `v + 200` for `std::pow`. -/
theorem gamma_monotone_witness :
    ((0 : ℚ) < 1 ∧ (10 : Nat) < 20 ∧
      (∀ a b g : ℚ, 0 ≤ a → a ≤ b → 0 < g → samplePow a g ≤ samplePow b g) ∧
      (∀ a g : ℚ, 0 ≤ a → 0 < g → 0 ≤ samplePow a g)) ∧
    ((gammaPixel samplePow 1 ⟨10, 10, 10, 0⟩).b ≤ (gammaPixel samplePow 1 ⟨20, 20, 20, 0⟩).b ∧
    (gammaPixel samplePow 1 ⟨10, 10, 10, 0⟩).g ≤ (gammaPixel samplePow 1 ⟨20, 20, 20, 0⟩).g ∧
    (gammaPixel samplePow 1 ⟨10, 10, 10, 0⟩).r ≤ (gammaPixel samplePow 1 ⟨20, 20, 20, 0⟩).r) :=
  have hm : ∀ a b g : ℚ, 0 ≤ a → a ≤ b → 0 < g → samplePow a g ≤ samplePow b g :=
    fun a b _ _ hab _ => by
      show a + 200 ≤ b + 200
      linarith
  have hn : ∀ a g : ℚ, 0 ≤ a → 0 < g → 0 ≤ samplePow a g :=
    fun a _ ha _ => by
      show 0 ≤ a + 200
      linarith
  ⟨⟨zero_lt_one, by decide, hm, hn⟩,
    gamma_monotone samplePow 1 10 20 zero_lt_one (by decide) hm hn⟩

/-! ## The transforms position by position -/

/-- A transform on an allocated `W x H` input with `2 <= H <= 800` and `W <= 800`:
the output pixel `out_rows[i][j]` is the transform of the input pixel `in_rows[i][j]`,
for every `i < H` and `j < W`. -/
theorem transform_at (suffix : String) (f : Pixel → Pixel) (image : Image) (W H : Int)
    (hin : image.Allocated W H) (h2 : 2 ≤ H) (hH : H ≤ 800) (hW : W ≤ 800) :
    ∃ out,
      (match Image.new (image.name ++ suffix) IMAGE_WIDTH IMAGE_HEIGHT with
        | none => none
        | some output => transformRows f image output) = some out ∧
      out.myName = image.myName ++ suffix ∧
      out.Allocated 800 800 ∧
      ∀ i j : Nat, (i : Int) < H → (j : Int) < W →
        ∃ (ri ro : Nat) (p : Pixel), image.rows[i]? = some ri ∧
          image.myData[ri + j]? = some p ∧
          out.rows[i]? = some ro ∧ out.myData[ro + j]? = some (f p) := by
  obtain ⟨out, ho, hname, halloc, hget⟩ := transform_spec suffix f image W H hin h2 hH hW
  refine ⟨out, ho, hname, halloc, ?_⟩
  intro i j hi hj
  have hidx := hin.index_lt j i hj hi
  have hWpos : 0 < W := hin.1
  have hrows : image.myRows = resetRows W H := hin.2.2.2.2.2.2.1
  have horows : out.myRows = resetRows 800 800 := halloc.2.2.2.2.2.2.1
  refine ⟨i * W.toNat, i * 800, image.myData[i * W.toNat + j], ?_, ?_, ?_, ?_⟩
  · simp only [Image.rows, hrows]
    exact resetRows_getElem?_nat W H hWpos.le i (by omega)
  · exact List.getElem?_eq_getElem hidx
  · simp only [Image.rows, horows]
    have := resetRows_getElem?_nat 800 800 (by decide) i (by simp; omega)
    simpa using this
  · rw [hget (i * 800 + j)]
    have hc : (i * 800 + j) / 800 < H.toNat ∧ (i * 800 + j) % 800 < W.toNat := by omega
    have e1 : (i * 800 + j) / 800 = i := by omega
    have e2 : (i * 800 + j) % 800 = j := by omega
    rw [if_pos hc, e1, e2, List.getElem?_eq_getElem hidx]
    rfl

/-- The loops of a transform on a buffer with a single row: `in_rows[1]` is read
outside the row index, which is undefined. -/
theorem transformRows_single_row (f : Pixel → Pixel) (image output : Image) (W : Int)
    (hin : image.Allocated W 1) : transformRows f image output = none := by
  have hrows : image.myRows = resetRows W 1 := hin.2.2.2.2.2.2.1
  have h1 : (image.rows)[1]? = none := by
    simp only [Image.rows, hrows]
    exact List.getElem?_eq_none (by simp [resetRows_length])
  unfold transformRows
  simp only [h1]

theorem transform_single_row (suffix : String) (f : Pixel → Pixel) (image : Image) (W : Int)
    (hin : image.Allocated W 1) :
    (match Image.new (image.name ++ suffix) IMAGE_WIDTH IMAGE_HEIGHT with
      | none => none
      | some output => transformRows f image output) = none := by
  cases Image.new (image.name ++ suffix) IMAGE_WIDTH IMAGE_HEIGHT with
  | none => rfl
  | some output => exact transformRows_single_row f image output W hin

theorem forLoop_two {σ : Type} (body : Nat → σ → Option σ) (k : Nat) (s s1 s2 : σ)
    (h0 : body k s = some s1) (h1 : body (k + 1) s1 = some s2) :
    forLoop body k 2 s = some s2 := by
  simp only [forLoop, h0, h1, Option.some_bind]

theorem wideImage_data_length : wideImage.myData.length = 1602 := by
  show (List.replicate 801 blackPixel ++ List.replicate 801 whitePixel).length = 1602
  rw [List.length_append, List.length_replicate, List.length_replicate]

theorem wideImage_getElem?_800 : wideImage.myData[800]? = some blackPixel := by
  show (List.replicate 801 blackPixel ++ List.replicate 801 whitePixel)[800]? = some blackPixel
  rw [List.getElem?_append_left (by rw [List.length_replicate]; decide),
    List.getElem?_replicate]
  rfl

theorem wideImage_getElem?_801 : wideImage.myData[801]? = some whitePixel := by
  show (List.replicate 801 blackPixel ++ List.replicate 801 whitePixel)[801]? = some whitePixel
  rw [List.getElem?_append_right (by rw [List.length_replicate]), List.length_replicate,
    List.getElem?_replicate]
  rfl

/-- A transform on the 801 x 2 sample buffer: the run is defined, and the output pixel
`out_rows[0][800]` holds the transform of the input pixel `in_rows[1][0]` (white), not
of the input pixel `in_rows[0][800]` (black): the rows of the 800-wide output
overlap. -/
theorem transform_wide (suffix : String) (f : Pixel → Pixel) :
    ∃ out,
      (match Image.new (wideImage.name ++ suffix) IMAGE_WIDTH IMAGE_HEIGHT with
        | none => none
        | some output => transformRows f wideImage output) = some out ∧
      out.rows[0]? = some 0 ∧ out.myData[0 + 800]? = some (f whitePixel) ∧
      wideImage.rows[0]? = some 0 ∧ wideImage.myData[0 + 800]? = some blackPixel := by
  obtain ⟨output, hnew, hdata⟩ : ∃ output,
      Image.new (wideImage.name ++ suffix) IMAGE_WIDTH IMAGE_HEIGHT = some output ∧
      output.myData = List.replicate (IMAGE_WIDTH * IMAGE_HEIGHT).toNat Pixel.zero :=
    ⟨_, Image.new_of_pos (wideImage.name ++ suffix) IMAGE_WIDTH IMAGE_HEIGHT
      (by decide) (by decide) (by decide), rfl⟩
  obtain ⟨halloc, -⟩ := Image.new_allocated (wideImage.name ++ suffix) IMAGE_WIDTH
    IMAGE_HEIGHT (by decide) (by decide) (by decide) output hnew
  have holen : output.myData.length = 640000 := by
    have := Image.Allocated.data_length halloc
    simpa using this
  have horows : output.myRows = resetRows 800 800 := halloc.2.2.2.2.2.2.1
  have hi0 : (wideImage.rows)[0]? = some 0 := rfl
  have hi1 : (wideImage.rows)[1]? = some 801 := rfl
  have ho0 : (output.rows)[0]? = some 0 := by
    simp only [Image.rows, horows]
    have := resetRows_getElem?_nat 800 800 (by decide) 0 (by decide)
    simpa using this
  have ho1 : (output.rows)[1]? = some 800 := by
    simp only [Image.rows, horows]
    have := resetRows_getElem?_nat 800 800 (by decide) 1 (by decide)
    simpa using this
  obtain ⟨d1, hd1, hl1, -⟩ := transform_row f wideImage.myData wideImage.rows output.rows
    0 0 0 801 output.myData hi0 ho0 (by rw [wideImage_data_length]; decide)
    (by rw [holen]; decide)
  obtain ⟨d2, hd2, hl2, hg2⟩ := transform_row f wideImage.myData wideImage.rows output.rows
    1 801 800 801 d1 hi1 ho1 (by rw [wideImage_data_length])
    (by rw [hl1, holen]; decide)
  have hloop := forLoop_two (fun i out =>
      forLoop (fun j out1 =>
        transformStep f wideImage.myData wideImage.rows output.rows i j out1) 0 801 out)
    0 output.myData d1 d2 hd1 hd2
  have hheight : ((wideImage.rows.length : Int)).toNat = 2 := rfl
  have hwidth : ((((801 : Nat) : Int) - ((0 : Nat) : Int))).toNat = 801 := by decide
  refine ⟨{ output with myData := d2 }, ?_, ho0, ?_, hi0, ?_⟩
  · rw [hnew]
    unfold transformRows
    simp only [hi1, hi0, hheight, hwidth, hloop]
  · show d2[0 + 800]? = some (f whitePixel)
    rw [hg2 (0 + 800)]
    have hc : 800 ≤ 0 + 800 ∧ 0 + 800 < 800 + 801 := by decide
    rw [if_pos hc]
    have e : 801 + (0 + 800 - 800) = 801 := by decide
    rw [e, wideImage_getElem?_801]
    rfl
  · exact wideImage_getElem?_800

/-- A loop whose iterations carry an invariant up to an iteration that is undefined
under the invariant is undefined. -/
theorem forLoop_fail_at {σ : Type} (body : Nat → σ → Option σ) (P : Nat → σ → Prop) (j : Nat) :
    ∀ (n k : Nat) (s : σ), k ≤ j → j < k + n → P k s →
      (∀ (i : Nat) (t : σ), k ≤ i → i < j → P i t → ∃ t1, body i t = some t1 ∧ P (i + 1) t1) →
      (∀ t, P j t → body j t = none) →
      forLoop body k n s = none := by
  intro n
  induction n with
  | zero =>
    intro k s hk hj _ _ _
    omega
  | succ n ih =>
    intro k s hk hj hs hstep hfail
    by_cases hkj : k = j
    · subst hkj
      simp only [forLoop, hfail s hs, Option.none_bind]
    · obtain ⟨t1, hb, ht1⟩ := hstep k s (le_refl _) (by omega) hs
      have := ih (k + 1) t1 (by omega) (by omega) ht1
        (fun i t hi1 hi2 hP => hstep i t (by omega) hi2 hP) hfail
      simp only [forLoop, hb, Option.some_bind]
      exact this

theorem forLoop_succ_none {σ : Type} (body : Nat → σ → Option σ) (k n : Nat) (s : σ)
    (h : body k s = none) : forLoop body k (n + 1) s = none := by
  simp only [forLoop, h, Option.none_bind]

theorem transformStep_out_none (f : Pixel → Pixel) (inData : List Pixel)
    (in_rows out_rows : List Nat) (i j : Nat) (out : List Pixel)
    (h : out_rows[i]? = none) : transformStep f inData in_rows out_rows i j out = none := by
  unfold transformStep
  cases in_rows[i]? <;> simp [h]

/-- The loops of a transform on the 1 x 801 sample buffer: row 800 has no entry in the
row index of the 800 x 800 output, so `out_rows[800]` is read outside it. -/
theorem transformRows_tall (f : Pixel → Pixel) (output : Image)
    (hout : output.Allocated 800 800) : transformRows f tallImage output = none := by
  have holen : output.myData.length = 640000 := by
    have := hout.data_length
    simpa using this
  have horows : output.myRows = resetRows 800 800 := hout.2.2.2.2.2.2.1
  have hirows : tallImage.myRows = resetRows 1 801 := by
    simp only [tallImage]
  have hilen : tallImage.myData.length = 801 := by
    show (List.replicate 801 blackPixel).length = 801
    rw [List.length_replicate]
  have hin : ∀ i, i < 801 → (tallImage.rows)[i]? = some i := by
    intro i hi
    simp only [Image.rows, hirows]
    have := resetRows_getElem?_nat 1 801 (by decide) i (by simpa using hi)
    simpa using this
  have hr1 := hin 1 (by decide)
  have hr0 := hin 0 (by decide)
  have hheight : ((tallImage.rows.length : Int)).toNat = 801 := by
    simp only [Image.rows, hirows, resetRows_length]
    rfl
  have hwidth : ((((1 : Nat) : Int) - ((0 : Nat) : Int))).toNat = 1 := by decide
  have hloop := forLoop_fail_at
    (fun i out => forLoop (fun j out1 =>
      transformStep f tallImage.myData tallImage.rows output.rows i j out1) 0 1 out)
    (fun _ d => d.length = output.myData.length) 800 801 0 output.myData
    (by decide) (by decide) rfl ?_ ?_
  · unfold transformRows
    simp only [hr1, hr0, hheight, hwidth, hloop]
  · intro i t _ hi hlen
    have hro : (output.rows)[i]? = some (i * 800) := by
      simp only [Image.rows, horows]
      have := resetRows_getElem?_nat 800 800 (by decide) i (by simp; omega)
      simpa using this
    obtain ⟨d, hd, hdlen, -⟩ := transform_row f tallImage.myData tallImage.rows output.rows
      i i (i * 800) 1 t (hin i (by omega)) hro (by rw [hilen]; omega)
      (by rw [hlen, holen]; omega)
    exact ⟨d, hd, hdlen.trans hlen⟩
  · intro t _
    have hro : (output.rows)[800]? = none := by
      simp only [Image.rows, horows]
      exact List.getElem?_eq_none (by simp [resetRows_length])
    exact forLoop_succ_none _ 0 0 t (transformStep_out_none f _ _ _ 800 0 t hro)

theorem transform_tall (suffix : String) (f : Pixel → Pixel) :
    (match Image.new (tallImage.name ++ suffix) IMAGE_WIDTH IMAGE_HEIGHT with
      | none => none
      | some output => transformRows f tallImage output) = none := by
  obtain ⟨output, hnew⟩ : ∃ output,
      Image.new (tallImage.name ++ suffix) IMAGE_WIDTH IMAGE_HEIGHT = some output :=
    ⟨_, Image.new_of_pos (tallImage.name ++ suffix) IMAGE_WIDTH IMAGE_HEIGHT
      (by decide) (by decide) (by decide)⟩
  obtain ⟨halloc, -⟩ := Image.new_allocated (tallImage.name ++ suffix) IMAGE_WIDTH
    IMAGE_HEIGHT (by decide) (by decide) (by decide) output hnew
  rw [hnew]
  exact transformRows_tall f output halloc

/-! ## The tint transform with the fractions (0, 0, 0) -/

/-- C11 (as amended): for an allocated `W x H` buffer with `2 <= H <= 800` and
`W <= 800` (8-bit channels) and `tint = [0, 0, 0]`, `applyTint`, `applyTintP` and
`applyTintS` return a buffer in which the output pixel `out_rows[i][j]` has the blue,
green and red values of the input pixel `in_rows[i][j]`, for every `i < H` and
`j < W`. -/
theorem tint_zero_identity (image : Image) (W H : Int)
    (hin : image.Allocated W H) (h2 : 2 ≤ H) (hH : H ≤ 800) (hW : W ≤ 800)
    (hpix : ∀ p ∈ image.myData, p.b ≤ 255 ∧ p.g ≤ 255 ∧ p.r ≤ 255) :
    ∃ out, applyTint image ⟨0, 0, 0⟩ = some out ∧
      applyTintP image ⟨0, 0, 0⟩ = some out ∧
      applyTintS image ⟨0, 0, 0⟩ = some out ∧
      ∀ i j : Nat, (i : Int) < H → (j : Int) < W →
        ∃ (ri ro : Nat) (p q : Pixel), image.rows[i]? = some ri ∧
          image.myData[ri + j]? = some p ∧
          out.rows[i]? = some ro ∧ out.myData[ro + j]? = some q ∧
          q.b = p.b ∧ q.g = p.g ∧ q.r = p.r := by
  obtain ⟨out, ho, -, -, hat⟩ :=
    transform_at "_tinted" (tintPixel ⟨0, 0, 0⟩) image W H hin h2 hH hW
  refine ⟨out, ho, ho, ho, ?_⟩
  intro i j hi hj
  obtain ⟨ri, ro, p, h1, h2, h3, h4⟩ := hat i j hi hj
  have hmem : p ∈ image.myData := List.getElem?_mem h2
  obtain ⟨hb, hg, hr⟩ := hpix p hmem
  refine ⟨ri, ro, p, tintPixel ⟨0, 0, 0⟩ p, h1, h2, h3, h4, ?_, ?_, ?_⟩ <;>
    rw [tintPixel_zero p hb hg hr]

/-- Witness of `tint_zero_identity` on the 2 x 2 sample buffer. -/
theorem tint_zero_identity_witness :
    (sampleImage.Allocated 2 2 ∧ (2 : Int) ≤ 2 ∧ (2 : Int) ≤ 800 ∧ (2 : Int) ≤ 800 ∧
      ∀ p ∈ sampleImage.myData, p.b ≤ 255 ∧ p.g ≤ 255 ∧ p.r ≤ 255) ∧
    ∃ out, applyTint sampleImage ⟨0, 0, 0⟩ = some out ∧
      applyTintP sampleImage ⟨0, 0, 0⟩ = some out ∧
      applyTintS sampleImage ⟨0, 0, 0⟩ = some out ∧
      ∀ i j : Nat, (i : Int) < 2 → (j : Int) < 2 →
        ∃ (ri ro : Nat) (p q : Pixel), sampleImage.rows[i]? = some ri ∧
          sampleImage.myData[ri + j]? = some p ∧
          out.rows[i]? = some ro ∧ out.myData[ro + j]? = some q ∧
          q.b = p.b ∧ q.g = p.g ∧ q.r = p.r :=
  ⟨⟨by decide, by decide, by decide, by decide, by decide⟩,
    tint_zero_identity sampleImage 2 2 (by decide) (by decide) (by decide) (by decide)
      (by decide)⟩

/-- C11 (counterexample): on the allocated 801 x 2 sample buffer (a black row above a
white row) the tint transform with `tint = [0, 0, 0]` returns a buffer whose pixel
`out_rows[0][800]` is white while the input pixel `in_rows[0][800]` is black; on the
allocated 3 x 1 and 1 x 801 sample buffers the transform is undefined. -/
theorem tint_zero_not_identity :
    (wideImage.Allocated 801 2 ∧
      ∃ (out : Image) (ro : Nat) (q : Pixel), applyTint wideImage ⟨0, 0, 0⟩ = some out ∧
        wideImage.rows[0]? = some 0 ∧ wideImage.myData[0 + 800]? = some blackPixel ∧
        out.rows[0]? = some ro ∧ out.myData[ro + 800]? = some q ∧
        q = whitePixel ∧ q.b ≠ blackPixel.b) ∧
    (singleRowImage.Allocated 3 1 ∧ applyTint singleRowImage ⟨0, 0, 0⟩ = none) ∧
    (tallImage.Allocated 1 801 ∧ applyTint tallImage ⟨0, 0, 0⟩ = none) := by
  refine ⟨⟨wideImage_allocated, ?_⟩,
    ⟨singleRowImage_allocated,
      transform_single_row "_tinted" (tintPixel ⟨0, 0, 0⟩) singleRowImage 3
        singleRowImage_allocated⟩,
    ⟨tallImage_allocated, transform_tall "_tinted" (tintPixel ⟨0, 0, 0⟩)⟩⟩
  obtain ⟨out, ho, hr, hq, hi, hp⟩ := transform_wide "_tinted" (tintPixel ⟨0, 0, 0⟩)
  have hw : tintPixel ⟨0, 0, 0⟩ whitePixel = whitePixel :=
    tintPixel_zero whitePixel (by decide) (by decide) (by decide)
  rw [hw] at hq
  exact ⟨out, 0, whitePixel, ho, hi, hp, hr, hq, rfl, by decide⟩

/-! ## The single-row and oversize hazards -/

/-- C19 (the code at the failing inputs): on the allocated 3 x 1 sample buffer the row
index has one entry, so `in_rows[1]` in `width = in_rows[1] - in_rows[0]` is read
outside it and `applyGamma` and `applyTint` are undefined; on the allocated 1 x 801
sample buffer `out_rows[800]` is read outside the row index of the 800 x 800 output
and both are undefined as well. -/
theorem transforms_unsafe_inputs (pw : ℚ → ℚ → ℚ) (gamma : ℚ) (tints : Tints) :
    (singleRowImage.Allocated 3 1 ∧ singleRowImage.rows.length = 1 ∧
      singleRowImage.rows[1]? = none ∧
      applyGamma pw singleRowImage gamma = none ∧
      applyTint singleRowImage tints = none) ∧
    (tallImage.Allocated 1 801 ∧
      applyGamma pw tallImage gamma = none ∧
      applyTint tallImage tints = none) :=
  ⟨⟨singleRowImage_allocated, rfl, rfl,
      transform_single_row "_gamma" (gammaPixel pw gamma) singleRowImage 3
        singleRowImage_allocated,
      transform_single_row "_tinted" (tintPixel tints) singleRowImage 3
        singleRowImage_allocated⟩,
    ⟨tallImage_allocated, transform_tall "_gamma" (gammaPixel pw gamma),
      transform_tall "_tinted" (tintPixel tints)⟩⟩

/-! ## The gamma transform position by position -/

theorem gammaPixel_gray (pw : ℚ → ℚ → ℚ) (gamma : ℚ) (pixel : Pixel) :
    gammaPixel pw gamma pixel =
      ⟨toUInt8 (if pw (luminance pixel) gamma > 255 then 255 else pw (luminance pixel) gamma),
       toUInt8 (if pw (luminance pixel) gamma > 255 then 255 else pw (luminance pixel) gamma),
       toUInt8 (if pw (luminance pixel) gamma > 255 then 255 else pw (luminance pixel) gamma),
       0⟩ := by
  have hc : ((MAX_BGR_VALUE : Int) : ℚ) = 255 := by simp [MAX_BGR_VALUE]
  unfold gammaPixel luminance
  simp only [Pixel.bgra, hc]
  exact Pixel.mk3_gray _ (Nat.le_of_lt_succ (toUInt8_lt _))

/-- C15 (as amended): for an allocated `W x H` buffer with `2 <= H <= 800` and
`W <= 800`, `applyGamma`, `applyGammaP` and `applyGammaS` return a buffer in which the
output pixel `out_rows[i][j]`, for every `i < H` and `j < W`, is the gray pixel
`(u, u, u)` with reserved channel 0, where `u` is `pow(0.3 R + 0.59 G + 0.11 B, gamma)`
of the input pixel `in_rows[i][j]` alone, capped at 255 and converted to 8 bits; for a
non-negative power this is `trunc(min(255, .))`. -/
theorem gamma_pixels (pw : ℚ → ℚ → ℚ) (gamma : ℚ) (image : Image) (W H : Int)
    (hin : image.Allocated W H) (h2 : 2 ≤ H) (hH : H ≤ 800) (hW : W ≤ 800) :
    ∃ out, applyGamma pw image gamma = some out ∧
      applyGammaP pw image gamma = some out ∧
      applyGammaS pw image gamma = some out ∧
      ∀ i j : Nat, (i : Int) < H → (j : Int) < W →
        ∃ (ri ro : Nat) (p : Pixel) (u : Nat), image.rows[i]? = some ri ∧
          image.myData[ri + j]? = some p ∧
          out.rows[i]? = some ro ∧ out.myData[ro + j]? = some ⟨u, u, u, 0⟩ ∧
          u = toUInt8 (if pw (luminance p) gamma > 255 then 255
                else pw (luminance p) gamma) ∧
          (0 ≤ pw (luminance p) gamma →
            u = ⌊min (255 : ℚ) (pw (luminance p) gamma)⌋.toNat) := by
  obtain ⟨out, ho, -, -, hat⟩ :=
    transform_at "_gamma" (gammaPixel pw gamma) image W H hin h2 hH hW
  refine ⟨out, ho, ho, ho, ?_⟩
  intro i j hi hj
  obtain ⟨ri, ro, p, h1, h2, h3, h4⟩ := hat i j hi hj
  rw [gammaPixel_gray] at h4
  refine ⟨ri, ro, p, _, h1, h2, h3, h4, rfl, ?_⟩
  intro h0
  rw [toUInt8_clamp _ h0, saturated_eq_min]

/-- Witness of `gamma_pixels` on the 2 x 2 sample buffer. -/
theorem gamma_pixels_witness :
    (sampleImage.Allocated 2 2 ∧ (2 : Int) ≤ 2 ∧ (2 : Int) ≤ 800 ∧ (2 : Int) ≤ 800) ∧
    ∃ out, applyGamma samplePow sampleImage 1 = some out ∧
      applyGammaP samplePow sampleImage 1 = some out ∧
      applyGammaS samplePow sampleImage 1 = some out ∧
      ∀ i j : Nat, (i : Int) < 2 → (j : Int) < 2 →
        ∃ (ri ro : Nat) (p : Pixel) (u : Nat), sampleImage.rows[i]? = some ri ∧
          sampleImage.myData[ri + j]? = some p ∧
          out.rows[i]? = some ro ∧ out.myData[ro + j]? = some ⟨u, u, u, 0⟩ ∧
          u = toUInt8 (if samplePow (luminance p) 1 > 255 then 255
                else samplePow (luminance p) 1) ∧
          (0 ≤ samplePow (luminance p) 1 →
            u = ⌊min (255 : ℚ) (samplePow (luminance p) 1)⌋.toNat) :=
  ⟨⟨by decide, by decide, by decide, by decide⟩,
    gamma_pixels samplePow 1 sampleImage 2 2 (by decide) (by decide) (by decide)
      (by decide)⟩

theorem saturated_455 : saturated 455 = 255 := by
  simp [saturated]
  norm_num

theorem saturated_200 : saturated 200 = 200 := by
  have h := saturated_natCast 200 (by decide)
  simpa using h

/-- C15 (counterexample): on the allocated 801 x 2 sample buffer (a black row above a
white row), with `v + 200` standing for `std::pow`, the gamma transform returns a
buffer whose pixel `out_rows[0][800]` is `(255, 255, 255)`, the value for the white
input pixel `in_rows[1][0]`, and not `(200, 200, 200)`, the value for the black input
pixel `in_rows[0][800]`; on the allocated 3 x 1 and 1 x 801 sample buffers the
transform is undefined. -/
theorem gamma_pixels_wide :
    (wideImage.Allocated 801 2 ∧
      ∃ (out : Image) (ro : Nat) (q : Pixel), applyGamma samplePow wideImage 1 = some out ∧
        wideImage.rows[0]? = some 0 ∧ wideImage.myData[0 + 800]? = some blackPixel ∧
        out.rows[0]? = some ro ∧ out.myData[ro + 800]? = some q ∧
        q = ⟨255, 255, 255, 0⟩ ∧
        gammaPixel samplePow 1 blackPixel = ⟨200, 200, 200, 0⟩ ∧
        q ≠ gammaPixel samplePow 1 blackPixel) ∧
    (singleRowImage.Allocated 3 1 ∧ applyGamma samplePow singleRowImage 1 = none) ∧
    (tallImage.Allocated 1 801 ∧ applyGamma samplePow tallImage 1 = none) := by
  refine ⟨⟨wideImage_allocated, ?_⟩,
    ⟨singleRowImage_allocated,
      transform_single_row "_gamma" (gammaPixel samplePow 1) singleRowImage 3
        singleRowImage_allocated⟩,
    ⟨tallImage_allocated, transform_tall "_gamma" (gammaPixel samplePow 1)⟩⟩
  obtain ⟨out, ho, hr, hq, hi, hp⟩ := transform_wide "_gamma" (gammaPixel samplePow 1)
  have hlw : luminance whitePixel = 255 := by
    have := luminance_gray 255 0
    simpa [whitePixel] using this
  have hlb : luminance blackPixel = 0 := by
    have := luminance_gray 0 0
    simpa [blackPixel] using this
  have hw : gammaPixel samplePow 1 whitePixel = ⟨255, 255, 255, 0⟩ := by
    have h0 : 0 ≤ samplePow (luminance whitePixel) 1 := by
      rw [hlw]
      norm_num [samplePow]
    rw [gammaPixel_eq samplePow 1 whitePixel h0, hlw]
    have e : samplePow 255 1 = 455 := by norm_num [samplePow]
    rw [e, saturated_455]
  have hb : gammaPixel samplePow 1 blackPixel = ⟨200, 200, 200, 0⟩ := by
    have h0 : 0 ≤ samplePow (luminance blackPixel) 1 := by
      rw [hlb]
      norm_num [samplePow]
    rw [gammaPixel_eq samplePow 1 blackPixel h0, hlb]
    have e : samplePow 0 1 = 200 := by norm_num [samplePow]
    rw [e, saturated_200]
  rw [hw] at hq
  refine ⟨out, 0, ⟨255, 255, 255, 0⟩, ho, hi, hp, hr, hq, rfl, hb, ?_⟩
  rw [hb]
  decide

/-! ## Transforms whose pixel function is constant on the input -/

/-- Partial-correctness rule for `forLoop`: a property carried by every iteration that
is defined holds after a loop that is defined. -/
theorem forLoop_partial {σ : Type} (body : Nat → σ → Option σ) (P : Nat → σ → Prop) :
    ∀ (n k : Nat) (s s1 : σ), P k s →
      (∀ (i : Nat) (t t1 : σ), k ≤ i → i < k + n → P i t → body i t = some t1 → P (i + 1) t1) →
      forLoop body k n s = some s1 → P (k + n) s1 := by
  intro n
  induction n with
  | zero =>
    intro k s s1 hs _ h
    simp only [forLoop, Option.some.injEq] at h
    subst h
    exact hs
  | succ n ih =>
    intro k s s1 hs hstep h
    simp only [forLoop] at h
    cases hb : body k s with
    | none =>
      rw [hb] at h
      simp at h
    | some t1 =>
      rw [hb, Option.some_bind] at h
      have ht1 := hstep k s t1 (le_refl _) (by omega) hs hb
      have := ih (k + 1) t1 s1 ht1 (fun i t t2 hi1 hi2 hP hbody =>
        hstep i t t2 (by omega) (by omega) hP hbody) h
      have e : k + (n + 1) = k + 1 + n := by omega
      rw [e]
      exact this

/-- What a defined iteration of the inner loop of a transform does. -/
theorem transformStep_some (f : Pixel → Pixel) (inData : List Pixel)
    (in_rows out_rows : List Nat) (i j : Nat) (out t1 : List Pixel)
    (h : transformStep f inData in_rows out_rows i j out = some t1) :
    ∃ (ri ro : Nat) (px : Pixel), in_rows[i]? = some ri ∧ out_rows[i]? = some ro ∧
      inData[ri + j]? = some px ∧ ro + j < out.length ∧ t1 = out.set (ro + j) (f px) := by
  unfold transformStep at h
  cases hri : in_rows[i]? with
  | none => simp [hri] at h
  | some ri =>
    cases hro : out_rows[i]? with
    | none => simp [hri, hro] at h
    | some ro =>
      cases hpx : inData[ri + j]? with
      | none => simp [hri, hro, hpx] at h
      | some px =>
        simp only [hri, hro, hpx] at h
        by_cases hlt : ro + j < out.length
        · rw [if_pos hlt] at h
          exact ⟨ri, ro, px, rfl, rfl, hpx, hlt, (Option.some.inj h).symm⟩
        · rw [if_neg hlt] at h
          simp at h

theorem getElem?_set_keep (t : List Pixel) (q p : Nat) (c : Pixel) (hq : q < t.length)
    (h : t[p]? = some c) : (t.set q c)[p]? = some c := by
  rw [List.getElem?_set]
  by_cases hqp : q = p
  · rw [if_pos hqp, if_pos hq]
  · rw [if_neg hqp]
    exact h

theorem getElem?_set_self (t : List Pixel) (q : Nat) (c : Pixel) (hq : q < t.length) :
    (t.set q c)[q]? = some c := by
  rw [List.getElem?_set, if_pos rfl, if_pos hq]

/-- The inner loop of a transform whose pixel function is the constant `c` on the
input: when the loop is defined, positions that held `c` still hold it, and each pixel
`out_rows[i][j]`, `j < n`, holds `c`. -/
theorem transform_row_const (f : Pixel → Pixel) (c : Pixel) (inData : List Pixel)
    (in_rows out_rows : List Nat) (i n : Nat) (d0 d : List Pixel)
    (hf : ∀ p ∈ inData, f p = c)
    (h : forLoop (fun j out1 => transformStep f inData in_rows out_rows i j out1) 0 n d0
      = some d) :
    (∀ p : Nat, d0[p]? = some c → d[p]? = some c) ∧
    ∀ j, j < n → ∃ (ri ro : Nat) (px : Pixel), in_rows[i]? = some ri ∧
      inData[ri + j]? = some px ∧ out_rows[i]? = some ro ∧ d[ro + j]? = some c := by
  have key := forLoop_partial
    (fun j out1 => transformStep f inData in_rows out_rows i j out1)
    (fun m t => (∀ p : Nat, d0[p]? = some c → t[p]? = some c) ∧
      ∀ j, j < m → ∃ (ri ro : Nat) (px : Pixel), in_rows[i]? = some ri ∧
        inData[ri + j]? = some px ∧ out_rows[i]? = some ro ∧ t[ro + j]? = some c)
    n 0 d0 d ⟨fun (p : Nat) (hp : d0[p]? = some c) => hp,
      fun j hj => absurd hj (Nat.not_lt_zero j)⟩ ?_ h
  · simpa using key
  · intro m t t1 _ _ ⟨hkeep, hrow⟩ hstep
    obtain ⟨ri, ro, px, hri, hro, hpx, hlt, rfl⟩ := transformStep_some _ _ _ _ _ _ _ _ hstep
    have hc : f px = c := hf px (List.getElem?_mem hpx)
    rw [hc]
    refine ⟨fun p hp => getElem?_set_keep t _ p c hlt (hkeep p hp), ?_⟩
    intro j hj
    by_cases hjm : j = m
    · subst hjm
      exact ⟨ri, ro, px, hri, hpx, hro, getElem?_set_self t _ c hlt⟩
    · obtain ⟨ri1, ro1, px1, h1, h2, h3, h4⟩ := hrow j (by omega)
      exact ⟨ri1, ro1, px1, h1, h2, h3, getElem?_set_keep t _ _ c hlt h4⟩

/-- The loops of a transform whose pixel function is the constant `c` on the input:
when they are defined, every pixel `out_rows[i][j]` with `i < height` and `j < width`
holds `c`. -/
theorem transformRows_const (f : Pixel → Pixel) (c : Pixel) (image output out : Image)
    (hf : ∀ p ∈ image.myData, f p = c)
    (h : transformRows f image output = some out) :
    out.rows = output.rows ∧
    ∀ (r1 r0 i j : Nat), image.rows[1]? = some r1 → image.rows[0]? = some r0 →
      i < image.rows.length → (j : Int) < (r1 : Int) - (r0 : Int) →
      ∃ (ri ro : Nat) (px : Pixel), image.rows[i]? = some ri ∧
        image.myData[ri + j]? = some px ∧ out.rows[i]? = some ro ∧
        out.myData[ro + j]? = some c := by
  unfold transformRows at h
  cases hr1 : (image.rows)[1]? with
  | none => simp [hr1] at h
  | some r1 =>
    cases hr0 : (image.rows)[0]? with
    | none => simp [hr1, hr0] at h
    | some r0 =>
      simp only [hr1, hr0] at h
      cases hloop : forLoop (fun i out =>
          forLoop (fun j out1 =>
            transformStep f image.myData image.rows output.rows i j out1)
            0 ((r1 : Int) - (r0 : Int)).toNat out) 0 ((image.rows.length : Int)).toNat
          output.myData with
      | none =>
        rw [hloop] at h
        simp at h
      | some d =>
        rw [hloop] at h
        have hout : out = { output with myData := d } := (Option.some.inj h).symm
        subst hout
        refine ⟨rfl, ?_⟩
        intro r1' r0' i j e1 e0 hi hj
        have e1' : r1' = r1 := (Option.some.inj e1).symm
        have e0' : r0' = r0 := (Option.some.inj e0).symm
        subst e1' e0'
        have key := forLoop_partial
          (fun i out => forLoop (fun j out1 =>
            transformStep f image.myData image.rows output.rows i j out1)
            0 ((r1' : Int) - (r0' : Int)).toNat out)
          (fun m t => ∀ i, i < m → ∀ j, j < ((r1' : Int) - (r0' : Int)).toNat →
            ∃ (ri ro : Nat) (px : Pixel), image.rows[i]? = some ri ∧
              image.myData[ri + j]? = some px ∧ output.rows[i]? = some ro ∧
              t[ro + j]? = some c)
          ((image.rows.length : Int)).toNat 0 output.myData d
          (fun i hi0 => absurd hi0 (Nat.not_lt_zero i)) ?_ hloop
        · have hi' : i < 0 + ((image.rows.length : Int)).toNat := by
            rw [Int.toNat_natCast]
            omega
          exact key i hi' j (by omega)
        · intro m t t1 _ _ hprev hstep
          obtain ⟨hkeep, hrow⟩ := transform_row_const f c image.myData image.rows
            output.rows m _ t t1 hf hstep
          intro i hi j hj
          by_cases him : i = m
          · subst him
            exact hrow j hj
          · obtain ⟨ri, ro, px, h1, h2, h3, h4⟩ := hprev i (by omega) j hj
            exact ⟨ri, ro, px, h1, h2, h3, hkeep _ h4⟩

/-! ## The tint transform with the fractions (1, 1, 1) -/

/-- C12: with `tint = [1, 1, 1]` the tint computation maps every pixel (8-bit
channels), the pixel `(255, 255, 255)` among them, to `(255, 255, 255)`; whenever the
tint transform returns, every output pixel `out_rows[i][j]` with `i < height` and
`j < width` holds `(255, 255, 255)`, where `in_rows[i][j]` is a pixel of the input;
and the transform returns for every allocated `W x H` buffer with `2 <= H <= 800` and
`W <= 800`. -/
theorem tint_one_white :
    (∀ pixel : Pixel, pixel.b ≤ 255 → pixel.g ≤ 255 → pixel.r ≤ 255 →
      tintPixel ⟨1, 1, 1⟩ pixel = ⟨255, 255, 255, 0⟩) ∧
    tintPixel ⟨1, 1, 1⟩ ⟨255, 255, 255, 0⟩ = ⟨255, 255, 255, 0⟩ ∧
    (∀ image out : Image, (∀ p ∈ image.myData, p.b ≤ 255 ∧ p.g ≤ 255 ∧ p.r ≤ 255) →
      applyTint image ⟨1, 1, 1⟩ = some out →
      ∀ (r1 r0 i j : Nat), image.rows[1]? = some r1 → image.rows[0]? = some r0 →
        i < image.rows.length → (j : Int) < (r1 : Int) - (r0 : Int) →
        ∃ (ri ro : Nat) (px : Pixel), image.rows[i]? = some ri ∧
          image.myData[ri + j]? = some px ∧ out.rows[i]? = some ro ∧
          out.myData[ro + j]? = some ⟨255, 255, 255, 0⟩) ∧
    (∀ (image : Image) (W H : Int), image.Allocated W H → 2 ≤ H → H ≤ 800 → W ≤ 800 →
      ∃ out, applyTint image ⟨1, 1, 1⟩ = some out ∧
        applyTintP image ⟨1, 1, 1⟩ = some out ∧ applyTintS image ⟨1, 1, 1⟩ = some out) := by
  refine ⟨fun pixel hb hg hr => tintPixel_one pixel hb hg hr,
    tintPixel_one _ (by decide) (by decide) (by decide), ?_, ?_⟩
  · intro image out hpix h
    have hf : ∀ p ∈ image.myData, tintPixel ⟨1, 1, 1⟩ p = whitePixel :=
      fun p hp => tintPixel_one p (hpix p hp).1 (hpix p hp).2.1 (hpix p hp).2.2
    unfold applyTint at h
    cases hnew : Image.new (image.name ++ "_tinted") IMAGE_WIDTH IMAGE_HEIGHT with
    | none =>
      rw [hnew] at h
      simp at h
    | some output =>
      rw [hnew] at h
      exact (transformRows_const _ whitePixel image output out hf h).2
  · intro image W H hin h2 hH hW
    obtain ⟨out, ho, -⟩ := transform_spec "_tinted" (tintPixel ⟨1, 1, 1⟩) image W H hin h2 hH hW
    exact ⟨out, ho, ho, ho⟩

/-- Witness of `tint_one_white`: the pixel `(10, 20, 30)` and the 2 x 2 sample
buffer. -/
theorem tint_one_white_witness :
    tintPixel ⟨1, 1, 1⟩ ⟨10, 20, 30, 0⟩ = ⟨255, 255, 255, 0⟩ ∧
    ∃ out, applyTint sampleImage ⟨1, 1, 1⟩ = some out ∧
      ∀ i j : Nat, i < 2 → j < 2 →
        ∃ (ri ro : Nat) (px : Pixel), sampleImage.rows[i]? = some ri ∧
          sampleImage.myData[ri + j]? = some px ∧ out.rows[i]? = some ro ∧
          out.myData[ro + j]? = some ⟨255, 255, 255, 0⟩ := by
  obtain ⟨out, ho, -⟩ := tint_one_white.2.2.2 sampleImage 2 2 (by decide) (by decide)
    (by decide) (by decide)
  refine ⟨tint_one_white.1 ⟨10, 20, 30, 0⟩ (by decide) (by decide) (by decide), out, ho, ?_⟩
  intro i j hi hj
  exact tint_one_white.2.2.1 sampleImage out (by decide) ho 2 0 i j rfl rfl
    (by show i < 2; exact hi) (by show (j : Int) < ((2 : Nat) : Int) - ((0 : Nat) : Int); omega)

/-! ## The transforms on the heap of images -/

theorem forLoop_map {σ τ : Type} (g : τ → σ) (b1 : Nat → σ → Option σ)
    (b2 : Nat → τ → Option τ) (hb : ∀ i t, b1 i (g t) = (b2 i t).map g) :
    ∀ (n k : Nat) (t : τ), forLoop b1 k n (g t) = (forLoop b2 k n t).map g := by
  intro n
  induction n with
  | zero =>
    intro k t
    rfl
  | succ n ih =>
    intro k t
    simp only [forLoop, hb k t]
    cases b2 k t with
    | none => rfl
    | some t1 =>
      simp only [Option.map_some', Option.some_bind]
      exact ih (k + 1) t1

theorem heap_set_last (h : Heap) (x y : Image) : (h ++ [x]).set h.length y = h ++ [y] := by
  simp [List.set_append]

/-- One iteration of the inner loop on the heap, when the input is an image of `h` and
the output is the image appended to `h`: the iteration is the one of `transformStep` on
the pixel array of the output, and no image of `h` changes. -/
theorem heapStep_sim (f : Pixel → Pixel) (h : Heap) (image_ptr : Nat) (image output : Image)
    (hip : h[image_ptr]? = some image) (in_rows out_rows : List Nat) (i j : Nat)
    (d : List Pixel) :
    heapStep f image_ptr h.length in_rows out_rows i j (h ++ [{ output with myData := d }]) =
      (transformStep f image.myData in_rows out_rows i j d).map
        (fun d1 => h ++ [{ output with myData := d1 }]) := by
  have hlt : image_ptr < h.length := by
    rcases List.getElem?_eq_some.mp hip with ⟨hlt, -⟩
    exact hlt
  have e1 : (h ++ [{ output with myData := d }])[image_ptr]? = some image := by
    rw [List.getElem?_append_left hlt]
    exact hip
  have e2 : (h ++ [{ output with myData := d }])[h.length]?
      = some { output with myData := d } := List.getElem?_concat_length _ _
  unfold heapStep transformStep
  cases in_rows[i]? with
  | none => rfl
  | some ri =>
    cases out_rows[i]? with
    | none => rfl
    | some ro =>
      simp only [e1, e2]
      cases image.myData[ri + j]? with
      | none => rfl
      | some pixel =>
        by_cases hc : ro + j < d.length
        · simp only [if_pos hc, Option.map_some', heap_set_last]
        · simp only [if_neg hc, Option.map_none']

/-- The loops on the heap, when the input is an image of `h` and the output is the
image appended to `h`: they are the loops of `transformRows`, with the result stored
as the last image; no image of `h` changes. -/
theorem transformRowsHeap_eq (f : Pixel → Pixel) (h : Heap) (image_ptr : Nat)
    (image output : Image) (hip : h[image_ptr]? = some image) :
    transformRowsHeap f (h ++ [output]) image_ptr h.length =
      (transformRows f image output).map (fun out => h ++ [out]) := by
  have hlt : image_ptr < h.length := by
    rcases List.getElem?_eq_some.mp hip with ⟨hlt, -⟩
    exact hlt
  have e1 : (h ++ [output])[image_ptr]? = some image := by
    rw [List.getElem?_append_left hlt]
    exact hip
  have e2 : (h ++ [output])[h.length]? = some output := List.getElem?_concat_length _ _
  unfold transformRowsHeap transformRows
  simp only [e1, e2]
  cases (image.rows)[1]? with
  | none => rfl
  | some r1 =>
    cases (image.rows)[0]? with
    | none => rfl
    | some r0 =>
      simp only []
      have hinner : ∀ (i : Nat) (d : List Pixel),
          forLoop (fun j hp1 => heapStep f image_ptr h.length image.rows output.rows i j hp1)
            0 ((r1 : Int) - (r0 : Int)).toNat (h ++ [{ output with myData := d }]) =
          (forLoop (fun j out1 =>
            transformStep f image.myData image.rows output.rows i j out1)
            0 ((r1 : Int) - (r0 : Int)).toNat d).map
              (fun d1 => h ++ [{ output with myData := d1 }]) :=
        fun i d => forLoop_map (fun d1 => h ++ [{ output with myData := d1 }]) _ _
          (fun j t => heapStep_sim f h image_ptr image output hip _ _ i j t) _ 0 d
      have houter := forLoop_map (fun d1 => h ++ [{ output with myData := d1 }])
        (fun i hp => forLoop (fun j hp1 =>
          heapStep f image_ptr h.length image.rows output.rows i j hp1)
          0 ((r1 : Int) - (r0 : Int)).toNat hp)
        (fun i out => forLoop (fun j out1 =>
          transformStep f image.myData image.rows output.rows i j out1)
          0 ((r1 : Int) - (r0 : Int)).toNat out)
        hinner ((image.rows.length : Int)).toNat 0 output.myData
      have e3 : h ++ [output] = h ++ [{ output with myData := output.myData }] := rfl
      rw [e3, houter]
      cases forLoop (fun i out => forLoop (fun j out1 =>
          transformStep f image.myData image.rows output.rows i j out1)
          0 ((r1 : Int) - (r0 : Int)).toNat out) 0 ((image.rows.length : Int)).toNat
          output.myData with
      | none => rfl
      | some d => rfl

/-- A transform on the heap: it is the transform on the image `image_ptr` refers to,
its result is appended to the heap as a new image, and the pointer returned is the
index of that new image. -/
theorem transformHeap_eq (suffix : String) (f : Pixel → Pixel) (h : Heap) (image_ptr : Nat)
    (image : Image) (hip : h[image_ptr]? = some image) :
    transformHeap suffix f h image_ptr =
      (match Image.new (image.name ++ suffix) IMAGE_WIDTH IMAGE_HEIGHT with
        | none => none
        | some output => transformRows f image output).map
        (fun out => (h ++ [out], h.length)) := by
  unfold transformHeap
  rw [hip]
  simp only []
  cases Image.new (image.name ++ suffix) IMAGE_WIDTH IMAGE_HEIGHT with
  | none => rfl
  | some output =>
    simp only [transformRowsHeap_eq f h image_ptr image output hip]
    cases transformRows f image output with
    | none => rfl
    | some out => rfl

theorem transformHeap_some (suffix : String) (f : Pixel → Pixel) (h h1 : Heap)
    (image_ptr q : Nat) (image : Image) (hip : h[image_ptr]? = some image)
    (hres : transformHeap suffix f h image_ptr = some (h1, q)) :
    ∃ out,
      (match Image.new (image.name ++ suffix) IMAGE_WIDTH IMAGE_HEIGHT with
        | none => none
        | some output => transformRows f image output) = some out ∧
      h1 = h ++ [out] ∧ q = h.length := by
  rw [transformHeap_eq suffix f h image_ptr image hip] at hres
  cases hm : (match Image.new (image.name ++ suffix) IMAGE_WIDTH IMAGE_HEIGHT with
      | none => none
      | some output => transformRows f image output) with
  | none =>
    rw [hm] at hres
    simp at hres
  | some out =>
    rw [hm] at hres
    simp only [Option.map_some', Option.some.injEq, Prod.mk.injEq] at hres
    exact ⟨out, rfl, hres.1.symm, hres.2.symm⟩

theorem heap_frame (h : Heap) (image_ptr : Nat) (image out : Image)
    (hip : h[image_ptr]? = some image) :
    (h ++ [out])[image_ptr]? = some image ∧
    (∀ k, k < h.length → (h ++ [out])[k]? = h[k]?) ∧
    h.length ≠ image_ptr ∧ (h ++ [out]).length = h.length + 1 ∧
    (h ++ [out])[h.length]? = some out := by
  have hlt : image_ptr < h.length := by
    rcases List.getElem?_eq_some.mp hip with ⟨hlt, -⟩
    exact hlt
  refine ⟨?_, fun k hk => List.getElem?_append_left hk, by omega, by simp,
    List.getElem?_concat_length _ _⟩
  rw [List.getElem?_append_left hlt]
  exact hip

/-- C16: when `applyGamma` or `applyTint` returns on a heap in which `image_ptr` refers
to `image`, the image `image_ptr` refers to is still `image` (pixels, dimensions, row
index and name unchanged), every other image of the heap is unchanged as well, and the
pointer returned refers to a new image at an index the heap did not have, distinct
from `image_ptr`; that image is the result of the transform.  Both return for every
allocated `W x H` buffer with `2 <= H <= 800` and `W <= 800`. -/
theorem transforms_frame (pw : ℚ → ℚ → ℚ) (gamma : ℚ) (tints : Tints) (h : Heap)
    (image_ptr : Nat) (image : Image) (hip : h[image_ptr]? = some image) :
    (∀ (h1 : Heap) (q : Nat), applyGammaHeap pw h image_ptr gamma = some (h1, q) →
      h1[image_ptr]? = some image ∧ (∀ k, k < h.length → h1[k]? = h[k]?) ∧
      q = h.length ∧ q ≠ image_ptr ∧ h1.length = h.length + 1 ∧
      h1[q]? = applyGamma pw image gamma) ∧
    (∀ (h1 : Heap) (q : Nat), applyTintHeap h image_ptr tints = some (h1, q) →
      h1[image_ptr]? = some image ∧ (∀ k, k < h.length → h1[k]? = h[k]?) ∧
      q = h.length ∧ q ≠ image_ptr ∧ h1.length = h.length + 1 ∧
      h1[q]? = applyTint image tints) ∧
    (∀ W H : Int, image.Allocated W H → 2 ≤ H → H ≤ 800 → W ≤ 800 →
      (∃ h1 q, applyGammaHeap pw h image_ptr gamma = some (h1, q)) ∧
      (∃ h1 q, applyTintHeap h image_ptr tints = some (h1, q))) := by
  refine ⟨?_, ?_, ?_⟩
  · intro h1 q hres
    obtain ⟨out, ho, rfl, rfl⟩ :=
      transformHeap_some "_gamma" (gammaPixel pw gamma) h h1 image_ptr q image hip hres
    obtain ⟨f1, f2, f3, f4, f5⟩ := heap_frame h image_ptr image out hip
    exact ⟨f1, f2, rfl, f3, f4, f5.trans ho.symm⟩
  · intro h1 q hres
    obtain ⟨out, ho, rfl, rfl⟩ :=
      transformHeap_some "_tinted" (tintPixel tints) h h1 image_ptr q image hip hres
    obtain ⟨f1, f2, f3, f4, f5⟩ := heap_frame h image_ptr image out hip
    exact ⟨f1, f2, rfl, f3, f4, f5.trans ho.symm⟩
  · intro W H hin h2 hH hW
    obtain ⟨o1, ho1, -⟩ := transform_spec "_gamma" (gammaPixel pw gamma) image W H hin h2 hH hW
    obtain ⟨o2, ho2, -⟩ := transform_spec "_tinted" (tintPixel tints) image W H hin h2 hH hW
    constructor
    · refine ⟨h ++ [o1], h.length, ?_⟩
      unfold applyGammaHeap
      rw [transformHeap_eq "_gamma" _ h image_ptr image hip, ho1]
      rfl
    · refine ⟨h ++ [o2], h.length, ?_⟩
      unfold applyTintHeap
      rw [transformHeap_eq "_tinted" _ h image_ptr image hip, ho2]
      rfl

/-- Witness of `transforms_frame`: the heap holding the 2 x 2 sample buffer alone. -/
theorem transforms_frame_witness :
    ([sampleImage] : Heap)[0]? = some sampleImage ∧
    (∃ (h1 : Heap) (q : Nat), applyGammaHeap samplePow [sampleImage] 0 1 = some (h1, q) ∧
      h1[0]? = some sampleImage ∧ q = 1 ∧ q ≠ 0 ∧ h1.length = 2 ∧
      h1[q]? = applyGamma samplePow sampleImage 1) ∧
    (∃ (h1 : Heap) (q : Nat), applyTintHeap [sampleImage] 0 ⟨1, 0, 0⟩ = some (h1, q) ∧
      h1[0]? = some sampleImage ∧ q = 1 ∧ q ≠ 0 ∧ h1.length = 2 ∧
      h1[q]? = applyTint sampleImage ⟨1, 0, 0⟩) := by
  have T := transforms_frame samplePow 1 ⟨1, 0, 0⟩ [sampleImage] 0 sampleImage rfl
  obtain ⟨⟨g1, q1, hg⟩, ⟨t1, q2, ht⟩⟩ := T.2.2 2 2 (by decide) (by decide) (by decide)
    (by decide)
  obtain ⟨a1, -, a3, a4, a5, a6⟩ := T.1 g1 q1 hg
  obtain ⟨b1, -, b3, b4, b5, b6⟩ := T.2.1 t1 q2 ht
  exact ⟨rfl, ⟨g1, q1, hg, a1, a3, a4, a5, a6⟩, ⟨t1, q2, ht, b1, b3, b4, b5, b6⟩⟩

/-! ## The reserved channel -/

theorem resizeData_alpha (l : List Pixel) (n : Nat) (hl : ∀ p ∈ l, p.a = 0) :
    ∀ p ∈ resizeData l n, p.a = 0 := by
  intro p hp
  unfold resizeData at hp
  rcases List.mem_append.mp hp with h1 | h1
  · exact hl p (List.mem_of_mem_take h1)
  · rw [List.mem_replicate] at h1
    rw [h1.2]
    rfl

theorem reset_alpha (img out : Image) (w h : Int) (hl : ∀ p ∈ img.myData, p.a = 0)
    (hr : img.reset w h = some out) : ∀ p ∈ out.myData, p.a = 0 := by
  unfold Image.reset at hr
  by_cases h1 : w ≤ 0 ∨ h ≤ 0
  · rw [if_pos h1] at hr
    cases hr
    exact hl
  · rw [if_neg h1] at hr
    by_cases h2 : INT_MAX < w * h
    · rw [if_pos h2] at hr
      simp at hr
    · rw [if_neg h2] at hr
      cases hr
      exact resizeData_alpha _ _ hl

theorem new_alpha (n : String) (w h : Int) (img : Image) (hn : Image.new n w h = some img) :
    ∀ p ∈ img.myData, p.a = 0 := by
  unfold Image.new at hn
  cases hr : (Image.uninit n).reset w h with
  | none =>
    rw [hr] at hn
    simp at hn
  | some base =>
    rw [hr] at hn
    simp only [Option.map_some', Option.some.injEq] at hn
    subst hn
    exact reset_alpha (Image.uninit n) base w h (fun p hp => by simp [Image.uninit] at hp) hr

theorem fill_alpha (img out : Image) (r g b : Nat) (x y : Int)
    (hl : ∀ p ∈ img.myData, p.a = 0) (hf : img.fill r g b x y = some out) :
    ∀ p ∈ out.myData, p.a = 0 := by
  unfold Image.fill at hf
  by_cases h1 : img.myData.isEmpty = true
  · rw [if_pos h1] at hf
    cases hf
    exact hl
  · rw [if_neg h1] at hf
    by_cases h2 : x < 0 ∧ y < 0
    · rw [if_pos h2] at hf
      cases hf
      intro p hp
      obtain ⟨_, -, rfl⟩ := List.mem_map.mp hp
      rfl
    · rw [if_neg h2] at hf
      cases hw : img.myWidth with
      | none =>
        rw [hw] at hf
        simp at hf
      | some w =>
        rw [hw] at hf
        simp only [] at hf
        by_cases h3 : w * x + y < 0 ∨ INT_MAX < w * x + y ∨ (img.myData.length : Int) ≤ w * x + y
        · rw [if_pos h3] at hf
          simp at hf
        · rw [if_neg h3] at hf
          cases hp0 : img.myData[(w * x + y).toNat]? with
          | none =>
            rw [hp0] at hf
            simp at hf
          | some p0 =>
            rw [hp0] at hf
            cases hf
            intro p hp
            rcases List.mem_or_eq_of_mem_set hp with h4 | h4
            · exact hl p h4
            · rw [h4]

theorem fillPixel_alpha (frac : Int → Int → ℚ) (w : Int) (i : Nat) :
    (fillPixel frac w i).a = 0 := by
  rw [fillPixel_gray]

theorem fillFractal_alpha (img out : Image) (frac : Int → Int → ℚ)
    (hf : img.fillFractal frac = some out) : ∀ p ∈ out.myData, p.a = 0 := by
  unfold Image.fillFractal at hf
  simp only [] at hf
  split at hf
  · simp at hf
  · rename_i img1 _
    split at hf
    · simp at hf
    · rename_i w _
      split at hf
      · simp at hf
      · cases hf
        intro p hp
        obtain ⟨i, _, rfl⟩ := List.mem_mapIdx.mp hp
        exact fillPixel_alpha frac w i

theorem gammaPixel_alpha (pw : ℚ → ℚ → ℚ) (gamma : ℚ) (p : Pixel) :
    (gammaPixel pw gamma p).a = 0 := by
  rw [gammaPixel_gray]

theorem tintPixel_alpha (tints : Tints) (p : Pixel) : (tintPixel tints p).a = 0 := rfl

/-- The loops of a transform whose pixel function gives reserved channel 0, on an
output whose pixels have reserved channel 0: when the loops are defined, every pixel of
the result has reserved channel 0. -/
theorem transformRows_alpha (f : Pixel → Pixel) (image output out : Image)
    (hf : ∀ p, (f p).a = 0) (ho : ∀ p ∈ output.myData, p.a = 0)
    (h : transformRows f image output = some out) : ∀ p ∈ out.myData, p.a = 0 := by
  unfold transformRows at h
  simp only [] at h
  split at h
  · rename_i r1 r0 _ _
    split at h
    · simp at h
    · rename_i d hloop
      cases h
      have inner : ∀ (i n : Nat) (t t1 : List Pixel), (∀ p ∈ t, p.a = 0) →
          forLoop (fun j out1 =>
            transformStep f image.myData image.rows output.rows i j out1) 0 n t = some t1 →
          ∀ p ∈ t1, p.a = 0 := by
        intro i n t t1 ht hl
        have := forLoop_partial
          (fun j out1 => transformStep f image.myData image.rows output.rows i j out1)
          (fun _ s => ∀ p ∈ s, p.a = 0) n 0 t t1 ht ?_ hl
        · exact this
        · intro j s s1 _ _ hs hstep
          obtain ⟨ri, ro, px, -, -, -, -, rfl⟩ := transformStep_some _ _ _ _ _ _ _ _ hstep
          intro p hp
          rcases List.mem_or_eq_of_mem_set hp with h4 | h4
          · exact hs p h4
          · rw [h4]
            exact hf px
      have := forLoop_partial
        (fun i out => forLoop (fun j out1 =>
          transformStep f image.myData image.rows output.rows i j out1)
          0 ((r1 : Int) - (r0 : Int)).toNat out)
        (fun _ s => ∀ p ∈ s, p.a = 0) _ 0 output.myData d ho
        (fun i s s1 _ _ hs hstep => inner i _ s s1 hs hstep) hloop
      exact this
  · simp at h

theorem transform_alpha (suffix : String) (f : Pixel → Pixel) (image out : Image)
    (hf : ∀ p, (f p).a = 0)
    (h : (match Image.new (image.name ++ suffix) IMAGE_WIDTH IMAGE_HEIGHT with
      | none => none
      | some output => transformRows f image output) = some out) :
    ∀ p ∈ out.myData, p.a = 0 := by
  cases hnew : Image.new (image.name ++ suffix) IMAGE_WIDTH IMAGE_HEIGHT with
  | none =>
    rw [hnew] at h
    simp at h
  | some output =>
    rw [hnew] at h
    exact transformRows_alpha f image output out hf (new_alpha _ _ _ output hnew) h

/-- C17: in every buffer the operations produce - by the constructor, by
`fill(r, g, b)` and the single-pixel `fill(r, g, b, x, y)`, by `fill(Fractal*)`, and by
the gamma and tint transforms, applied in any order - every pixel has reserved channel
0. -/
theorem reserved_channel_zero (img : Image) (h : Produced img) :
    ∀ p ∈ img.myData, p.bgra 3 = 0 := by
  induction h with
  | create n w h img hn => exact new_alpha n w h img hn
  | fill img out r g b x y _ hf ih => exact fill_alpha img out r g b x y ih hf
  | fillFractal img out frac _ hf _ => exact fillFractal_alpha img out frac hf
  | gamma pw image out gamma _ hf _ =>
    exact transform_alpha "_gamma" _ image out (gammaPixel_alpha pw gamma) hf
  | gammaP pw image out gamma _ hf _ =>
    exact transform_alpha "_gamma" _ image out (gammaPixel_alpha pw gamma) hf
  | gammaS pw image out gamma _ hf _ =>
    exact transform_alpha "_gamma" _ image out (gammaPixel_alpha pw gamma) hf
  | tint image out tints _ hf _ =>
    exact transform_alpha "_tinted" _ image out (tintPixel_alpha tints) hf
  | tintP image out tints _ hf _ =>
    exact transform_alpha "_tinted" _ image out (tintPixel_alpha tints) hf
  | tintS image out tints _ hf _ =>
    exact transform_alpha "_tinted" _ image out (tintPixel_alpha tints) hf

/-- Witness of `reserved_channel_zero`: a 2 x 2 buffer is created, its pixel at
`myData[2 * 1 + 1]` is set by the single-pixel fill, and the gamma transform is applied
to the result. -/
theorem reserved_channel_zero_witness :
    ∃ img filled out : Image, Image.new "a" 2 2 = some img ∧
      img.fill 9 8 7 1 1 = some filled ∧
      filled.myData = [⟨0, 0, 0, 0⟩, ⟨0, 0, 0, 0⟩, ⟨0, 0, 0, 0⟩, ⟨7, 8, 9, 0⟩] ∧
      applyGamma samplePow filled 1 = some out ∧
      Produced out ∧ ∀ p ∈ out.myData, p.bgra 3 = 0 := by
  obtain ⟨img, hnew⟩ : ∃ img, Image.new "a" 2 2 = some img :=
    ⟨_, Image.new_of_pos "a" 2 2 (by decide) (by decide) (by decide)⟩
  have himg : img.Allocated 2 2 :=
    (Image.new_allocated "a" 2 2 (by decide) (by decide) (by decide) img hnew).1
  have hfill : ∃ filled, img.fill 9 8 7 1 1 = some filled ∧
      filled.myData = [⟨0, 0, 0, 0⟩, ⟨0, 0, 0, 0⟩, ⟨0, 0, 0, 0⟩, ⟨7, 8, 9, 0⟩] ∧
      filled.Allocated 2 2 := by
    rw [Image.new_of_pos "a" 2 2 (by decide) (by decide) (by decide)] at hnew
    cases hnew
    exact ⟨_, rfl, by decide, by decide⟩
  obtain ⟨filled, hf, hdata, hfa⟩ := hfill
  obtain ⟨out, ho, -⟩ := transform_spec "_gamma" (gammaPixel samplePow 1) filled 2 2 hfa
    (by decide) (by decide) (by decide)
  have hp : Produced out :=
    Produced.gamma samplePow filled out 1
      (Produced.fill img filled 9 8 7 1 1 (Produced.create "a" 2 2 img hnew) hf) ho
  exact ⟨img, filled, out, hnew, hf, hdata, ho, hp, reserved_channel_zero out hp⟩

/-! ## The fractal kernel -/

theorem orbitNorm_nonneg (fx fy : ℚ) (n : Nat) : 0 ≤ orbitNorm fx fy n := by
  unfold orbitNorm
  have h1 := mul_self_nonneg (orbit fx fy n).1
  have h2 := mul_self_nonneg (orbit fx fy n).2
  linarith

theorem loopCount_le (fx fy : ℚ) : ∀ (n : Nat) (x y : ℚ), Fractal.loopCount fx fy n x y ≤ n := by
  intro n
  induction n with
  | zero =>
    intro x y
    exact le_refl _
  | succ n ih =>
    intro x y
    unfold Fractal.loopCount
    split
    · exact Nat.succ_le_succ (ih _ _)
    · exact Nat.zero_le _

/-- The loop count from the iterate `k`: every iteration performed started from an
iterate of squared modulus at most 4, and the loop stopped at the cap or at an iterate
of squared modulus above 4. -/
theorem loopCount_spec (fx fy : ℚ) : ∀ (n k : Nat),
    (∀ m, m < Fractal.loopCount fx fy n (orbit fx fy k).1 (orbit fx fy k).2 →
      orbitNorm fx fy (k + m) ≤ 4) ∧
    (Fractal.loopCount fx fy n (orbit fx fy k).1 (orbit fx fy k).2 = n ∨
      4 < orbitNorm fx fy
        (k + Fractal.loopCount fx fy n (orbit fx fy k).1 (orbit fx fy k).2)) := by
  intro n
  induction n with
  | zero =>
    intro k
    exact ⟨fun m hm => absurd hm (Nat.not_lt_zero m), Or.inl rfl⟩
  | succ n ih =>
    intro k
    by_cases hc : (orbit fx fy k).1 * (orbit fx fy k).1
        + (orbit fx fy k).2 * (orbit fx fy k).2 ≤ 4
    · have e : Fractal.loopCount fx fy (n + 1) (orbit fx fy k).1 (orbit fx fy k).2
          = Fractal.loopCount fx fy n (orbit fx fy (k + 1)).1 (orbit fx fy (k + 1)).2 + 1 := by
        rw [Fractal.loopCount, if_pos hc]
        rfl
      rw [e]
      obtain ⟨h1, h2⟩ := ih (k + 1)
      constructor
      · intro m hm
        cases m with
        | zero => exact hc
        | succ m =>
          have := h1 m (by omega)
          have e2 : k + 1 + m = k + (m + 1) := by omega
          rw [e2] at this
          exact this
      · rcases h2 with h2 | h2
        · exact Or.inl (by rw [h2])
        · right
          have e2 : k + 1 + Fractal.loopCount fx fy n (orbit fx fy (k + 1)).1
              (orbit fx fy (k + 1)).2
              = k + (Fractal.loopCount fx fy n (orbit fx fy (k + 1)).1
                (orbit fx fy (k + 1)).2 + 1) := by omega
          rw [e2] at h2
          exact h2
    · have e : Fractal.loopCount fx fy (n + 1) (orbit fx fy k).1 (orbit fx fy k).2 = 0 := by
        rw [Fractal.loopCount, if_neg hc]
      rw [e]
      refine ⟨fun m hm => absurd hm (Nat.not_lt_zero m), Or.inr ?_⟩
      exact not_le.mp hc

/-- The loop of `Fractal::calcOnePixel` from the iterate `k`: it adds to `res` the terms
`e (x_n^2 + y_n^2)` of the iterates `n = k + 1, ..., k + N`, `N` the loop count. -/
theorem calcLoop_orbit (e : ℚ → ℚ) (fx fy : ℚ) : ∀ (n k : Nat) (res : ℚ),
    Fractal.calcLoop e fx fy n (orbit fx fy k).1 (orbit fx fy k).2 res =
      res + Finset.sum
        (Finset.range (Fractal.loopCount fx fy n (orbit fx fy k).1 (orbit fx fy k).2))
        (fun m => e (orbitNorm fx fy (k + m + 1))) := by
  intro n
  induction n with
  | zero =>
    intro k res
    simp [Fractal.calcLoop, Fractal.loopCount]
  | succ n ih =>
    intro k res
    by_cases hc : (orbit fx fy k).1 * (orbit fx fy k).1
        + (orbit fx fy k).2 * (orbit fx fy k).2 ≤ 4
    · have e1 : Fractal.loopCount fx fy (n + 1) (orbit fx fy k).1 (orbit fx fy k).2
          = Fractal.loopCount fx fy n (orbit fx fy (k + 1)).1 (orbit fx fy (k + 1)).2 + 1 := by
        rw [Fractal.loopCount, if_pos hc]
        rfl
      have e2 : Fractal.calcLoop e fx fy (n + 1) (orbit fx fy k).1 (orbit fx fy k).2 res
          = Fractal.calcLoop e fx fy n (orbit fx fy (k + 1)).1 (orbit fx fy (k + 1)).2
              (res + e (orbitNorm fx fy (k + 1))) := by
        rw [Fractal.calcLoop, if_pos hc]
        rfl
      rw [e1, e2, ih (k + 1), Finset.sum_range_succ']
      have e3 : ∀ m, k + 1 + m + 1 = k + (m + 1) + 1 := fun m => by omega
      simp only [e3, Nat.add_zero]
      ring
    · have e1 : Fractal.loopCount fx fy (n + 1) (orbit fx fy k).1 (orbit fx fy k).2 = 0 := by
        rw [Fractal.loopCount, if_neg hc]
      have e2 : Fractal.calcLoop e fx fy (n + 1) (orbit fx fy k).1 (orbit fx fy k).2 res
          = res := by
        rw [Fractal.calcLoop, if_neg hc]
      rw [e1, e2]
      simp

theorem calcOnePixel_eq_orbitSum (e : ℚ → ℚ) (fr : Fractal) (x0 y0 : Int) :
    fr.calcOnePixel e x0 y0 =
      orbitSum e (planeCoord x0 fr.mySize.1 fr.myMagn Fractal.cx)
        (planeCoord y0 fr.mySize.2 fr.myMagn Fractal.cy)
        (Fractal.loopCount (planeCoord x0 fr.mySize.1 fr.myMagn Fractal.cx)
          (planeCoord y0 fr.mySize.2 fr.myMagn Fractal.cy) Fractal.maxIter 0 0) := by
  have h := calcLoop_orbit e (planeCoord x0 fr.mySize.1 fr.myMagn Fractal.cx)
    (planeCoord y0 fr.mySize.2 fr.myMagn Fractal.cy) Fractal.maxIter 0 0
  simp only [Nat.zero_add, zero_add] at h
  exact h

theorem calcOnePixelChecked_of_ne (e : ℚ → ℚ) (fr : Fractal) (x0 y0 : Int)
    (hm : fr.myMagn ≠ 0) :
    fr.calcOnePixelChecked e x0 y0 = some (fr.calcOnePixel e x0 y0) := by
  unfold Fractal.calcOnePixelChecked Fractal.fdiv
  simp only [if_neg hm]
  rfl

theorem calcOnePixelChecked_zero (e : ℚ → ℚ) (fr : Fractal) (x0 y0 : Int)
    (hm : fr.myMagn = 0) : fr.calcOnePixelChecked e x0 y0 = none := by
  unfold Fractal.calcOnePixelChecked Fractal.fdiv
  simp only [if_pos hm]

theorem orbitSum_bounds (e : ℚ → ℚ) (he : ∀ t, 0 ≤ t → 0 < e t ∧ e t ≤ 1) (fx fy : ℚ) :
    ∀ N : Nat, 0 ≤ orbitSum e fx fy N ∧ orbitSum e fx fy N ≤ (N : ℚ) := by
  intro N
  induction N with
  | zero => simp [orbitSum]
  | succ N ih =>
    have hs : orbitSum e fx fy (N + 1)
        = orbitSum e fx fy N + e (orbitNorm fx fy (N + 1)) := by
      unfold orbitSum
      rw [Finset.sum_range_succ]
    obtain ⟨h1, h2⟩ := he _ (orbitNorm_nonneg fx fy (N + 1))
    rw [hs]
    push_cast
    constructor
    · linarith [ih.1]
    · linarith [ih.2]

/-- Claim C18: for every pixel coordinate `(x0, y0)` and every non-zero scale `myMagn`,
`Fractal::calcOnePixel` returns the sum of `exp(-sqrt(x_n^2 + y_n^2))` over the iterates
`n = 1, ..., N` of `x_{n+1} = x_n^2 - y_n^2 + fx`, `y_{n+1} = 2 x_n y_n + fy` started at
`(0, 0)`, with `fx = (x0 - width / 2) / myMagn + cx`, `fy = (y0 - height / 2) / myMagn + cy`,
`cx = -0.7436`, `cy = 0.1319`, where `N` is the number of iterations performed: every
iteration started from an iterate with `x_n^2 + y_n^2 <= 4`, and the loop stopped after
1000 iterations or at the first iterate with `x_N^2 + y_N^2 > 4`.  The term of an
iteration is that of the iterate the iteration computes. -/
theorem calcOnePixel_orbit_sum (e : ℚ → ℚ) (fr : Fractal) (x0 y0 : Int)
    (hm : fr.myMagn ≠ 0) :
    Fractal.cx = -7436 / 10000 ∧ Fractal.cy = 1319 / 10000 ∧
    ∃ N : Nat, N ≤ 1000 ∧
      (∀ n, n < N →
        orbitNorm (planeCoord x0 fr.mySize.1 fr.myMagn Fractal.cx)
          (planeCoord y0 fr.mySize.2 fr.myMagn Fractal.cy) n ≤ 4) ∧
      (N = 1000 ∨
        4 < orbitNorm (planeCoord x0 fr.mySize.1 fr.myMagn Fractal.cx)
          (planeCoord y0 fr.mySize.2 fr.myMagn Fractal.cy) N) ∧
      fr.calcOnePixelChecked e x0 y0 =
        some (orbitSum e (planeCoord x0 fr.mySize.1 fr.myMagn Fractal.cx)
          (planeCoord y0 fr.mySize.2 fr.myMagn Fractal.cy) N) := by
  refine ⟨by unfold Fractal.cx; rw [Rat.mkRat_eq_div]; norm_num,
    by unfold Fractal.cy; rw [Rat.mkRat_eq_div]; norm_num, ?_⟩
  have hs := loopCount_spec (planeCoord x0 fr.mySize.1 fr.myMagn Fractal.cx)
    (planeCoord y0 fr.mySize.2 fr.myMagn Fractal.cy) Fractal.maxIter 0
  simp only [Nat.zero_add] at hs
  refine ⟨Fractal.loopCount (planeCoord x0 fr.mySize.1 fr.myMagn Fractal.cx)
    (planeCoord y0 fr.mySize.2 fr.myMagn Fractal.cy) Fractal.maxIter 0 0,
    loopCount_le _ _ _ _ _, hs.1, hs.2, ?_⟩
  rw [calcOnePixelChecked_of_ne e fr x0 y0 hm, calcOnePixel_eq_orbitSum]

/-- Claim C18 at the 2 x 2 fractal of scale 1 and the coordinate `(0, 0)`. -/
theorem calcOnePixel_orbit_sum_witness :
    (⟨(2, 2), 1⟩ : Fractal).myMagn ≠ 0 ∧
    (Fractal.cx = -7436 / 10000 ∧ Fractal.cy = 1319 / 10000 ∧
    ∃ N : Nat, N ≤ 1000 ∧
      (∀ n, n < N →
        orbitNorm (planeCoord 0 (⟨(2, 2), 1⟩ : Fractal).mySize.1
            (⟨(2, 2), 1⟩ : Fractal).myMagn Fractal.cx)
          (planeCoord 0 (⟨(2, 2), 1⟩ : Fractal).mySize.2
            (⟨(2, 2), 1⟩ : Fractal).myMagn Fractal.cy) n ≤ 4) ∧
      (N = 1000 ∨
        4 < orbitNorm (planeCoord 0 (⟨(2, 2), 1⟩ : Fractal).mySize.1
            (⟨(2, 2), 1⟩ : Fractal).myMagn Fractal.cx)
          (planeCoord 0 (⟨(2, 2), 1⟩ : Fractal).mySize.2
            (⟨(2, 2), 1⟩ : Fractal).myMagn Fractal.cy) N) ∧
      (⟨(2, 2), 1⟩ : Fractal).calcOnePixelChecked sampleExp 0 0 =
        some (orbitSum sampleExp
          (planeCoord 0 (⟨(2, 2), 1⟩ : Fractal).mySize.1
            (⟨(2, 2), 1⟩ : Fractal).myMagn Fractal.cx)
          (planeCoord 0 (⟨(2, 2), 1⟩ : Fractal).mySize.2
            (⟨(2, 2), 1⟩ : Fractal).myMagn Fractal.cy) N)) :=
  ⟨one_ne_zero, calcOnePixel_orbit_sum sampleExp ⟨(2, 2), 1⟩ 0 0 one_ne_zero⟩

/-- Claim C20, as stated, fails for the construction parameter `myMagn = 0`: for the
800 x 800 fractal of scale 0 the call `calcOnePixel(400, 400)` divides `0.0` by `0.0`,
so it has no result `r` with `0 <= r <= 1000` (under IEEE 754 the result is NaN). -/
theorem calcOnePixel_zero_scale_unbounded :
    ¬ ∃ r : ℚ, (⟨(800, 800), 0⟩ : Fractal).calcOnePixelChecked sampleExp 400 400 = some r ∧
      0 ≤ r ∧ r ≤ 1000 := by
  rintro ⟨r, h, -⟩
  rw [calcOnePixelChecked_zero sampleExp ⟨(800, 800), 0⟩ 400 400 rfl] at h
  exact Option.noConfusion h

/-- Claim C20, amended: for every coordinate, every size and every non-zero scale
`myMagn`, with `exp(-sqrt(t))` in `(0, 1]` for every `t >= 0`, the loop of
`Fractal::calcOnePixel` performs `N` iterations with `N <= maxIter = 1000`, each adding
a term in `(0, 1]`, and the call returns a result `r`, the sum of these terms, with
`0 <= r <= N <= 1000`. -/
theorem calcOnePixel_bounded (e : ℚ → ℚ) (fr : Fractal) (x0 y0 : Int)
    (hm : fr.myMagn ≠ 0) (he : ∀ t, 0 ≤ t → 0 < e t ∧ e t ≤ 1) :
    Fractal.maxIter = 1000 ∧
    Fractal.loopCount (planeCoord x0 fr.mySize.1 fr.myMagn Fractal.cx)
      (planeCoord y0 fr.mySize.2 fr.myMagn Fractal.cy) Fractal.maxIter 0 0
        ≤ Fractal.maxIter ∧
    (∀ n : Nat,
      0 < e (orbitNorm (planeCoord x0 fr.mySize.1 fr.myMagn Fractal.cx)
        (planeCoord y0 fr.mySize.2 fr.myMagn Fractal.cy) (n + 1)) ∧
      e (orbitNorm (planeCoord x0 fr.mySize.1 fr.myMagn Fractal.cx)
        (planeCoord y0 fr.mySize.2 fr.myMagn Fractal.cy) (n + 1)) ≤ 1) ∧
    ∃ r : ℚ, fr.calcOnePixelChecked e x0 y0 = some r ∧
      r = orbitSum e (planeCoord x0 fr.mySize.1 fr.myMagn Fractal.cx)
        (planeCoord y0 fr.mySize.2 fr.myMagn Fractal.cy)
        (Fractal.loopCount (planeCoord x0 fr.mySize.1 fr.myMagn Fractal.cx)
          (planeCoord y0 fr.mySize.2 fr.myMagn Fractal.cy) Fractal.maxIter 0 0) ∧
      0 ≤ r ∧
      r ≤ ((Fractal.loopCount (planeCoord x0 fr.mySize.1 fr.myMagn Fractal.cx)
        (planeCoord y0 fr.mySize.2 fr.myMagn Fractal.cy) Fractal.maxIter 0 0 : Nat) : ℚ) ∧
      r ≤ 1000 := by
  have hle := loopCount_le (planeCoord x0 fr.mySize.1 fr.myMagn Fractal.cx)
    (planeCoord y0 fr.mySize.2 fr.myMagn Fractal.cy) Fractal.maxIter 0 0
  have hb := orbitSum_bounds e he (planeCoord x0 fr.mySize.1 fr.myMagn Fractal.cx)
    (planeCoord y0 fr.mySize.2 fr.myMagn Fractal.cy)
    (Fractal.loopCount (planeCoord x0 fr.mySize.1 fr.myMagn Fractal.cx)
      (planeCoord y0 fr.mySize.2 fr.myMagn Fractal.cy) Fractal.maxIter 0 0)
  refine ⟨rfl, hle, fun n => he _ (orbitNorm_nonneg _ _ _), _, ?_, rfl, hb.1, hb.2, ?_⟩
  · rw [calcOnePixelChecked_of_ne e fr x0 y0 hm, calcOnePixel_eq_orbitSum]
  · have h1 : ((Fractal.loopCount (planeCoord x0 fr.mySize.1 fr.myMagn Fractal.cx)
        (planeCoord y0 fr.mySize.2 fr.myMagn Fractal.cy) Fractal.maxIter 0 0 : Nat) : ℚ)
        ≤ ((Fractal.maxIter : Nat) : ℚ) := by exact_mod_cast hle
    have h2 : ((Fractal.maxIter : Nat) : ℚ) = 1000 := by norm_num [Fractal.maxIter]
    linarith [hb.2]

theorem sampleExp_range : ∀ t : ℚ, 0 ≤ t → 0 < sampleExp t ∧ sampleExp t ≤ 1 := by
  intro t ht
  unfold sampleExp
  have h1 : (0 : ℚ) < 1 + t := by linarith
  constructor
  · exact div_pos one_pos h1
  · rw [div_le_one h1]
    linarith

/-- Claim C20, amended, at the 2 x 2 fractal of scale 1 and the coordinate `(0, 0)`. -/
theorem calcOnePixel_bounded_witness :
    (⟨(2, 2), 1⟩ : Fractal).myMagn ≠ 0 ∧
    (∀ t : ℚ, 0 ≤ t → 0 < sampleExp t ∧ sampleExp t ≤ 1) ∧
    ∃ r : ℚ, (⟨(2, 2), 1⟩ : Fractal).calcOnePixelChecked sampleExp 0 0 = some r ∧
      0 ≤ r ∧ r ≤ 1000 := by
  refine ⟨one_ne_zero, sampleExp_range, ?_⟩
  obtain ⟨-, -, -, r, h1, -, h2, -, h3⟩ :=
    calcOnePixel_bounded sampleExp ⟨(2, 2), 1⟩ 0 0 one_ne_zero sampleExp_range
  exact ⟨r, h1, h2, h3⟩

end intel
